import Mathlib

/-! # CinemintOS: arena allocator, vector, ACPI tables, number printing, memory map

A shallow embedding of `src/memorys.cpp` (`operator new[]`, `get_total_ram_mb`),
`src/include/vectors.h` (`vector<T>`), `src/acpi.cpp`
(`validate_acpi_sdt_checksum`, `find_rsdp`, `find_sdt_from_rsdp`, `acpi_init`,
`acpi_power_off`) and `src/io.cpp` (`print_uint_base`).

Conventions.
* `size_t` is `unsigned int` (vectors.h, line 8): every `size_t` result is
  reduced modulo `2^32` explicitly.
* A pointer into `memory_pool` is the byte offset from the start of the pool;
  `none` is `nullptr`.
* Physical memory read by the ACPI code is a function from addresses to
  bytes; a physical pointer is a natural number and `0` is `nullptr`.
* Port accesses and the interrupt disable of the power code are recorded as a
  list of effects in program order; values read from ports are parameters.
-/

namespace Cinemint

/-! ## Arena (`src/memorys.cpp`) -/

/-- Number of values of `size_t` (`using size_t = unsigned int;`). -/
def SIZE_T_MOD : Nat := 4294967296

/-- Value of `MEMORY_POOL_SIZE = sizeof(memory_pool)` for `char memory_pool[1024 * 1024]`. -/
def MEMORY_POOL_SIZE : Nat := 1024 * 1024

/-- Outcome of one `operator new[]` call: the returned pointer (offset into
`memory_pool`, `none` for `nullptr`) and the value of `pool_index` afterwards. -/
structure NewResult where
  ptr : Option Nat
  pool_index : Nat
deriving DecidableEq, Repr

/-- Embedding of `void* operator new[](size_t size) noexcept` (memorys.cpp:14-31).
The first argument is the global `pool_index` before the call. -/
def operator_new_arr (pool_index size : Nat) : NewResult :=
  let alignment := 16
  let remainder := pool_index % alignment
  -- if (remainder != 0) pool_index += (alignment - remainder);
  let pool_index1 :=
    if remainder ≠ 0 then (pool_index + (alignment - remainder)) % SIZE_T_MOD else pool_index
  -- if (pool_index + size > MEMORY_POOL_SIZE) return nullptr;
  if (pool_index1 + size) % SIZE_T_MOD > MEMORY_POOL_SIZE then
    { ptr := none, pool_index := pool_index1 }
  else
    -- void* ptr = &memory_pool[pool_index]; pool_index += size; return ptr;
    { ptr := some pool_index1, pool_index := (pool_index1 + size) % SIZE_T_MOD }

/-- The cursor rounded up to the next multiple of 16, as a mathematical integer. -/
def align16 (cursor : Nat) : Nat := (cursor + 15) / 16 * 16

/-- Embedding of `void operator delete[](void* ptr) noexcept` (memorys.cpp:33-37):
the body only discards its argument, so `pool_index` is returned as it was. -/
def operator_delete_arr (pool_index : Nat) (_ptr : Option Nat) : Nat := pool_index

/-! ## Vector (`src/include/vectors.h`) -/

/-- Object store of the pool: the live object of the element type constructed at
a byte offset of `memory_pool`, `none` where no object is alive. -/
abbrev ObjMem (α : Type) := Nat → Option α

/-- Global state the vector code works on: the arena cursor `pool_index` and the
objects living in `memory_pool`. -/
structure Heap (α : Type) where
  pool_index : Nat
  mem : ObjMem α

/-- Data members of `vector<T>` (vectors.h:21-23). -/
structure vector where
  arr : Option Nat
  current_size : Nat
  cap : Nat
deriving DecidableEq, Repr

/-- Pointer arithmetic `p + i` on a `T*` where `sizeof(T) = szT`. Arithmetic on
`nullptr` is kept as `nullptr`. -/
def ptr_add (szT : Nat) (p : Option Nat) (i : Nat) : Option Nat :=
  p.map (fun a => a + i * szT)

/-- Read of the object at `p`; nothing is read through `nullptr`. -/
def load {α : Type} (m : ObjMem α) : Option Nat → Option α
  | none => none
  | some a => m a

/-- Placement new `new (p) T(x)`: afterwards the object at `p` is `x`. The
argument is an `Option` so that a move out of a slot passes on what the slot held. -/
def construct_at {α : Type} (m : ObjMem α) (p : Option Nat) (x : Option α) : ObjMem α :=
  match p with
  | none => m
  | some a => fun b => if b = a then x else m b

/-- Destructor call `p->~T()`: afterwards no object is alive at `p`. -/
def destroy_at {α : Type} (m : ObjMem α) (p : Option Nat) : ObjMem α :=
  construct_at m p none

/-- Embedding of `allocate_raw` (vectors.h:39-43):
`if (num_elements == 0) return nullptr; return new char[sizeof(T) * num_elements];`
The product is a `size_t` product. -/
def allocate_raw (szT : Nat) (pool_index num_elements : Nat) : NewResult :=
  if num_elements = 0 then { ptr := none, pool_index := pool_index }
  else operator_new_arr pool_index ((szT * num_elements) % SIZE_T_MOD)

/-- The element loop of `reserve` (vectors.h:230-233), started at index `i` with
`k` iterations left:
`new (new_arr + i) T(static_cast<T&&>(arr[i])); (arr + i)->~T();` -/
def reserve_move {α : Type} (szT : Nat) (arr : Option Nat) (new_arr : Nat) :
    Nat → Nat → ObjMem α → ObjMem α
  | 0, _, m => m
  | k + 1, i, m =>
    let m1 := construct_at m (some (new_arr + i * szT)) (load m (ptr_add szT arr i))
    let m2 := destroy_at m1 (ptr_add szT arr i)
    reserve_move szT arr new_arr k (i + 1) m2

/-- Embedding of `vector::reserve` (vectors.h:217-241). `deallocate_raw(arr)` is
`operator delete[]`, which leaves the arena as it is. -/
def reserve {α : Type} (szT : Nat) (h : Heap α) (v : vector) (n : Nat) : Heap α × vector :=
  if n > v.cap then
    let r := allocate_raw szT h.pool_index n
    match r.ptr with
    | none => ({ h with pool_index := r.pool_index }, v)
    | some new_arr =>
      let m := reserve_move szT v.arr new_arr v.current_size 0 h.mem
      ({ pool_index := operator_delete_arr r.pool_index v.arr, mem := m },
       { arr := some new_arr, current_size := v.current_size, cap := n })
  else (h, v)

/-- Default constructor `vector()` (vectors.h:54). -/
def vector_default : vector := { arr := none, current_size := 0, cap := 0 }

/-- Constructor `explicit vector(size_t initial_capacity)` (vectors.h:60-62). -/
def vector_with_capacity {α : Type} (szT : Nat) (h : Heap α) (initial_capacity : Nat) :
    Heap α × vector :=
  reserve szT h vector_default initial_capacity

/-- Last two statements of `push_back` (vectors.h:96-97):
`new (arr + current_size) T(value); ++current_size;` -/
def push_back_construct {α : Type} (szT : Nat) (h : Heap α) (v : vector) (value : α) :
    Heap α × vector :=
  ({ h with mem := construct_at h.mem (ptr_add szT v.arr v.current_size) (some value) },
   { v with current_size := (v.current_size + 1) % SIZE_T_MOD })

/-- Second block of `push_back` (vectors.h:86-93), followed by the construction. -/
def push_back_tail {α : Type} (szT : Nat) (h : Heap α) (v : vector) (value : α) :
    Heap α × vector :=
  if v.arr = none ∧ v.cap > 0 then
    let r := allocate_raw szT h.pool_index v.cap
    match r.ptr with
    | none => ({ h with pool_index := r.pool_index }, v)
    | some p =>
      push_back_construct szT { h with pool_index := r.pool_index } { v with arr := some p } value
  else if v.arr = none ∧ v.cap = 0 then
    let s := reserve szT h v 10
    if s.2.arr = none then s else push_back_construct szT s.1 s.2 value
  else push_back_construct szT h v value

/-- The capacity `push_back` asks `reserve` for (vectors.h:74):
`size_t new_cap = (cap == 0) ? 10 : cap * 2;` -/
def push_back_new_cap (v : vector) : Nat :=
  if v.cap = 0 then 10 else (v.cap * 2) % SIZE_T_MOD

/-- Embedding of `vector::push_back(const T&)` (vectors.h:72-98). The move
overload (vectors.h:101-117) has the same control flow. -/
def push_back {α : Type} (szT : Nat) (h : Heap α) (v : vector) (value : α) :
    Heap α × vector :=
  let new_cap := push_back_new_cap v
  let s1 : Heap α × vector :=
    if v.current_size = v.cap then reserve szT h v new_cap else (h, v)
  -- if (cap < new_cap && arr == nullptr && new_cap > 0) return;
  if v.current_size = v.cap ∧ s1.2.cap < new_cap ∧ s1.2.arr = none ∧ new_cap > 0 then s1
  else push_back_tail szT s1.1 s1.2 value

/-- Embedding of `vector::operator[]` (vectors.h:143-153): `return arr[index];`,
with no bounds check. -/
def vector_index {α : Type} (szT : Nat) (h : Heap α) (v : vector) (index : Nat) : Option α :=
  load h.mem (ptr_add szT v.arr index)

/-- Successive calls `push_back(x1); ...; push_back(xn)` on one vector. -/
def push_back_list {α : Type} (szT : Nat) (h : Heap α) (v : vector) :
    List α → Heap α × vector
  | [] => (h, v)
  | x :: xs => push_back_list szT (push_back szT h v x).1 (push_back szT h v x).2 xs

/-- Whether the growth allocation of one `push_back` call succeeds: when
`current_size == cap`, the `allocate_raw(new_cap)` call inside `reserve` returns
a non-null pointer. A call that does not grow has no growth allocation. -/
def growth_alloc_ok {α : Type} (szT : Nat) (h : Heap α) (v : vector) : Bool :=
  if v.current_size = v.cap then
    (allocate_raw szT h.pool_index (push_back_new_cap v)).ptr.isSome
  else true

/-- Every growth allocation succeeds along `push_back(x1); ...; push_back(xn)`. -/
def growth_allocs_ok {α : Type} (szT : Nat) (h : Heap α) (v : vector) : List α → Bool
  | [] => true
  | x :: xs =>
    growth_alloc_ok szT h v &&
      growth_allocs_ok szT (push_back szT h v x).1 (push_back szT h v x).2 xs

/-- A heap in which nothing has been allocated or constructed yet. -/
def empty_heap (α : Type) : Heap α := { pool_index := 0, mem := fun _ => none }

/-- Invariant of a vector onto which the values `xs` have been appended. -/
structure PushInv {α : Type} (szT : Nat) (h : Heap α) (v : vector) (xs : List α) : Prop where
  size_eq : v.current_size = xs.length
  size_le : v.current_size ≤ v.cap
  pool_le : h.pool_index ≤ MEMORY_POOL_SIZE
  buf : (v.arr = none ∧ v.cap = 0) ∨
    (∃ p, v.arr = some p ∧ 0 < v.cap ∧ p + v.cap * szT ≤ h.pool_index)
  elems : ∀ i, i < xs.length → vector_index szT h v i = xs[i]?

/-! ## ACPI tables (`src/acpi.cpp`, `src/include/acpi.h`) -/

/-- Physical memory as the ACPI code sees it: the byte stored at each address. -/
abbrev PhysMem := Nat → Nat

/-- Read of one `unsigned char` / `uint8_t`. -/
def read8 (mem : PhysMem) (a : Nat) : Nat := mem a % 256

/-- Read of a little-endian `uint16_t`. -/
def read16 (mem : PhysMem) (a : Nat) : Nat := read8 mem a + 256 * read8 mem (a + 1)

/-- Read of a little-endian `uint32_t`. -/
def read32 (mem : PhysMem) (a : Nat) : Nat :=
  read8 mem a + 256 * read8 mem (a + 1) + 65536 * read8 mem (a + 2)
    + 16777216 * read8 mem (a + 3)

/-- Read of a little-endian `uint64_t`. -/
def read64 (mem : PhysMem) (a : Nat) : Nat :=
  read32 mem a + 4294967296 * read32 mem (a + 4)

/-- Value of `sizeof(RSDPDescriptor)`: packed fields of 8 + 1 + 6 + 1 + 4 bytes. -/
def SIZEOF_RSDPDescriptor : Nat := 20

/-- Value of `sizeof(RSDPDescriptor20)`: the 20-byte first part and 4 + 8 + 1 + 3 bytes. -/
def SIZEOF_RSDPDescriptor20 : Nat := 36

/-- Value of `sizeof(ACPISDTHeader)`: packed fields of 4 + 4 + 1 + 1 + 6 + 8 + 4 + 4 + 4 bytes. -/
def SIZEOF_ACPISDTHeader : Nat := 36

/-- Byte offset of `RSDPDescriptor::Revision`. -/
def OFF_Revision : Nat := 15

/-- Byte offset of `RSDPDescriptor::RsdtAddress`. -/
def OFF_RsdtAddress : Nat := 16

/-- Byte offset of `RSDPDescriptor20::Length`. -/
def OFF_RsdpLength : Nat := 20

/-- Byte offset of `RSDPDescriptor20::XsdtAddress`. -/
def OFF_XsdtAddress : Nat := 24

/-- Byte offset of `ACPISDTHeader::Length`. -/
def OFF_SdtLength : Nat := 4

/-- The string literal `"RSD PTR "` as bytes. -/
def RSD_PTR_SIG : List Nat := [82, 83, 68, 32, 80, 84, 82, 32]

/-- Loop of `memcmp_custom` (acpi.cpp:14-18) with `k` iterations left at index `i`. -/
def memcmp_loop (p1 p2 : Nat → Nat) : Nat → Nat → Int
  | 0, _ => 0
  | k + 1, i =>
    if p1 i < p2 i then -1
    else if p1 i > p2 i then 1
    else memcmp_loop p1 p2 k (i + 1)

/-- Embedding of `memcmp_custom` (acpi.cpp:11-19); the two buffers are given as
the `unsigned char` read at each index. -/
def memcmp_custom (p1 p2 : Nat → Nat) (num : Nat) : Int := memcmp_loop p1 p2 num 0

/-- Value of a byte read through a `char*` (`char` is signed on this target). -/
def schar (b : Nat) : Int := if b < 128 then (b : Int) else (b : Int) - 256

/-- Loop of `validate_acpi_sdt_checksum` (acpi.cpp:27-29):
`sum += ((char*)tableHeader)[i];` with `unsigned char sum`. -/
def checksum_loop_char (mem : PhysMem) (base : Nat) : Nat → Nat → Nat → Nat
  | 0, _, sum => sum
  | k + 1, i, sum =>
    checksum_loop_char mem base k (i + 1)
      (((sum : Int) + schar (read8 mem (base + i))) % 256).toNat

/-- Embedding of `validate_acpi_sdt_checksum` (acpi.cpp:24-31). -/
def validate_acpi_sdt_checksum (mem : PhysMem) (tableHeader : Nat) : Bool :=
  if tableHeader = 0 then false
  else checksum_loop_char mem tableHeader (read32 mem (tableHeader + OFF_SdtLength)) 0 0 == 0

/-- Checksum loops of `find_rsdp` (acpi.cpp:44-46, 53-55):
`sum += ((unsigned char*)rsdp)[j];` with `unsigned char sum`. -/
def checksum_loop_uchar (mem : PhysMem) (base : Nat) : Nat → Nat → Nat → Nat
  | 0, _, sum => sum
  | k + 1, i, sum =>
    checksum_loop_uchar mem base k (i + 1) ((sum + read8 mem (base + i)) % 256)

/-- Body of both scan loops of `find_rsdp` for the candidate at `ptr`
(acpi.cpp:41-66 and 73-97): `some ptr` when the body returns `ptr`, `none` when
the loop goes on to the next candidate. -/
def rsdp_candidate (mem : PhysMem) (ptr : Nat) : Option Nat :=
  if memcmp_custom (fun i => read8 mem (ptr + i)) (fun i => RSD_PTR_SIG.getD i 0) 8 = 0 then
    if checksum_loop_uchar mem ptr SIZEOF_RSDPDescriptor 0 0 = 0 then
      if read8 mem (ptr + OFF_Revision) ≥ 2 ∧ read8 mem (ptr + OFF_Revision) ≠ 0 then
        if read32 mem (ptr + OFF_RsdpLength) ≥ SIZEOF_RSDPDescriptor20 then
          if checksum_loop_uchar mem ptr (read32 mem (ptr + OFF_RsdpLength)) 0 0 = 0 then
            some ptr
          else none
        else none
      else some ptr
    else none
  else none

/-- First loop of `find_rsdp` (acpi.cpp:40-67):
`for (unsigned int i = 0; i < 1024; i += 16)`. -/
def ebda_loop (mem : PhysMem) (ebda_ptr : Nat) : Nat → Nat → Option Nat
  | 0, _ => none
  | fuel + 1, i =>
    if i < 1024 then
      match rsdp_candidate mem (ebda_ptr + i) with
      | some p => some p
      | none => ebda_loop mem ebda_ptr fuel (i + 16)
    else none

/-- Second loop of `find_rsdp` (acpi.cpp:72-98):
`for (ptr = 0xE0000; (uintptr_t)ptr < 0xFFFFF; ptr += 16)`. -/
def bios_loop (mem : PhysMem) : Nat → Nat → Option Nat
  | 0, _ => none
  | fuel + 1, ptr =>
    if ptr < 0xFFFFF then
      match rsdp_candidate mem ptr with
      | some p => some p
      | none => bios_loop mem fuel (ptr + 16)
    else none

/-- Embedding of `find_rsdp` (acpi.cpp:33-102). The fuel of each loop is its
number of iterations: 1024 / 16 = 64 and (0x100000 - 0xE0000) / 16 = 8192. -/
def find_rsdp (mem : PhysMem) : Option Nat :=
  let ebda_segment := read16 mem 0x40E
  let in_ebda :=
    if ebda_segment ≠ 0 then ebda_loop mem ((ebda_segment * 16) % 4294967296) 64 0 else none
  match in_ebda with
  | some p => some p
  | none => bios_loop mem 8192 0xE0000

/-- Entry `i` of the pointer array of a root table, converted to a pointer
(acpi.cpp:152-158): `(ACPISDTHeader*)((uintptr_t)ptr_array[i])`, where `uintptr_t`
has 32 bits. -/
def sdt_entry (mem : PhysMem) (sdt_root_table : Nat) (use_xsdt : Bool) (i : Nat) : Nat :=
  if use_xsdt then read64 mem (sdt_root_table + SIZEOF_ACPISDTHeader + 8 * i) % 4294967296
  else read32 mem (sdt_root_table + SIZEOF_ACPISDTHeader + 4 * i)

/-- Entry loop of `find_sdt_from_rsdp` (acpi.cpp:150-186):
`for (int i = 0; i < entries; i++)`. -/
def sdt_loop (mem : PhysMem) (sdt_root_table : Nat) (use_xsdt : Bool) (signature : Nat)
    (entries : Nat) : Nat → Nat → Option Nat
  | 0, _ => none
  | fuel + 1, i =>
    if i < entries then
      let h := sdt_entry mem sdt_root_table use_xsdt i
      if h = 0 then sdt_loop mem sdt_root_table use_xsdt signature entries fuel (i + 1)
      else if memcmp_custom (fun j => read8 mem (h + j)) (fun j => read8 mem (signature + j)) 4 = 0
      then
        if validate_acpi_sdt_checksum mem h then some h
        else sdt_loop mem sdt_root_table use_xsdt signature entries fuel (i + 1)
      else sdt_loop mem sdt_root_table use_xsdt signature entries fuel (i + 1)
    else none

/-- The value of `entries` (acpi.cpp:127, 145):
`(sdt_root_table->Length - sizeof(ACPISDTHeader)) / width`, the subtraction being
a 32-bit unsigned one. -/
def sdt_entries (mem : PhysMem) (sdt_root_table : Nat) (use_xsdt : Bool) : Nat :=
  ((read32 mem (sdt_root_table + OFF_SdtLength) + 4294967296 - SIZEOF_ACPISDTHeader)
      % 4294967296) / (if use_xsdt then 8 else 4)

/-- Embedding of `find_sdt_from_rsdp` (acpi.cpp:104-196). -/
def find_sdt_from_rsdp (mem : PhysMem) (rsdp_ptr signature : Nat) : Option Nat :=
  if rsdp_ptr = 0 ∨ signature = 0 then none
  else
    let Revision := read8 mem (rsdp_ptr + OFF_Revision)
    -- bool use_xsdt = (Revision >= 2 && Revision != 0); cleared when XsdtAddress == 0
    if (Revision ≥ 2 ∧ Revision ≠ 0) ∧ read64 mem (rsdp_ptr + OFF_XsdtAddress) ≠ 0 then
      let sdt_root_table := read64 mem (rsdp_ptr + OFF_XsdtAddress) % 4294967296
      if sdt_root_table = 0 ∨ validate_acpi_sdt_checksum mem sdt_root_table = false then none
      else
        sdt_loop mem sdt_root_table true signature (sdt_entries mem sdt_root_table true)
          (sdt_entries mem sdt_root_table true) 0
    else
      if read32 mem (rsdp_ptr + OFF_RsdtAddress) = 0 then none
      else
        let sdt_root_table := read32 mem (rsdp_ptr + OFF_RsdtAddress)
        if sdt_root_table = 0 ∨ validate_acpi_sdt_checksum mem sdt_root_table = false then none
        else
          sdt_loop mem sdt_root_table false signature (sdt_entries mem sdt_root_table false)
            (sdt_entries mem sdt_root_table false) 0

/-! ## Reference notions used to state the ACPI properties -/

/-- Sum of the `n` bytes starting at `base`, as a mathematical integer. -/
def byte_sum (mem : PhysMem) (base n : Nat) : Nat :=
  ((List.range n).map (fun i => read8 mem (base + i))).sum

/-- Whether the `n` bytes at address `a` equal the `n` bytes given by `lit`. -/
def bytes_eq (mem : PhysMem) (a : Nat) (lit : Nat → Nat) (n : Nat) : Bool :=
  (List.range n).all (fun i => read8 mem (a + i) == lit i)

/-- Validation of a root-descriptor candidate in words: the 8 signature bytes
are `"RSD PTR "`, the first 20 bytes sum to 0 mod 256, and either the revision is
below 2 or the declared length is at least 36 and the bytes over the declared
length sum to 0 mod 256. -/
def rsdp_valid (mem : PhysMem) (p : Nat) : Bool :=
  bytes_eq mem p (fun i => RSD_PTR_SIG.getD i 0) 8 &&
  (byte_sum mem p 20 % 256 == 0) &&
  (decide (read8 mem (p + 15) < 2) ||
    (decide (36 ≤ read32 mem (p + 20)) && byte_sum mem p (read32 mem (p + 20)) % 256 == 0))

/-- Candidate addresses of `find_rsdp` in search order: offsets 0, 16, ..., 1008
from the EBDA base when the segment word at 0x40E is non-zero, then the addresses
0xE0000, 0xE0010, ..., 0xFFFF0. -/
def rsdp_search_order (mem : PhysMem) : List Nat :=
  (if read16 mem 0x40E = 0 then []
   else (List.range 64).map (fun k => read16 mem 0x40E * 16 + 16 * k)) ++
  (List.range 8192).map (fun k => 0xE0000 + 16 * k)

/-- An entry pointer satisfies a request in words: it is non-null, the first 4
bytes of the table equal the 4 bytes of the requested signature, and the bytes
of the table over its declared length sum to 0 mod 256. -/
def sdt_entry_ok (mem : PhysMem) (signature h : Nat) : Bool :=
  decide (h ≠ 0) && bytes_eq mem h (fun j => read8 mem (signature + j)) 4 &&
  (byte_sum mem h (read32 mem (h + 4)) % 256 == 0)

/-- The root table chosen for a descriptor, in the words of the design: the
extended root table (8-byte entries) when the revision is at least 2 and the
extended address is non-zero, otherwise the legacy root table (4-byte entries)
when its address is non-zero, otherwise none. The flag tells whether the
extended table was chosen; the extended address is used as a 32-bit pointer. -/
def selected_root (mem : PhysMem) (rsdp_ptr : Nat) : Option (Nat × Bool) :=
  if 2 ≤ read8 mem (rsdp_ptr + 15) ∧ read64 mem (rsdp_ptr + 24) ≠ 0 then
    some (read64 mem (rsdp_ptr + 24) % 4294967296, true)
  else if read32 mem (rsdp_ptr + 16) ≠ 0 then some (read32 mem (rsdp_ptr + 16), false)
  else none

/-- Memory `mem` with one bit (bit `k` of the byte at `addr`) inverted. -/
def flip_bit (mem : PhysMem) (addr k : Nat) : PhysMem :=
  fun a => if a = addr then (read8 mem a) ^^^ (2 ^ k) else mem a

/-- Memory `mem` overlaid with the bytes `bytes` starting at `base`. -/
def write_bytes (mem : PhysMem) (base : Nat) (bytes : List Nat) : PhysMem :=
  fun a => if base ≤ a ∧ a < base + bytes.length then bytes.getD (a - base) 0 else mem a

/-! ## Concrete memories used as inputs -/

/-- Memory holding only zero bytes. -/
def zero_mem : PhysMem := fun _ => 0

/-- A 20-byte root descriptor with signature `"RSD PTR "`, checksum byte 223,
revision 2 and all other bytes zero; its first 20 bytes sum to 768. -/
def rsdp_rev2_bytes : List Nat :=
  [82, 83, 68, 32, 80, 84, 82, 32, 223, 0, 0, 0, 0, 0, 0, 2, 0, 0, 0, 0]

/-- Memory with `rsdp_rev2_bytes` at 0xE0000 and zero elsewhere: the declared
extended length (bytes 20..23) is 0. -/
def mem_rev2_short : PhysMem := write_bytes zero_mem 0xE0000 rsdp_rev2_bytes

/-- A 36-byte extended root descriptor (declared length 36, extended checksum
byte 220, so that the 36 bytes sum to 1024), followed by one byte 255. -/
def rsdp_ext_bytes : List Nat :=
  rsdp_rev2_bytes ++ [36, 0, 0, 0, 0, 0, 0, 0, 0, 0, 0, 0, 220, 0, 0, 0, 255]

/-- Memory with `rsdp_ext_bytes` at 0xE0000 and zero elsewhere. -/
def mem_ext : PhysMem := write_bytes zero_mem 0xE0000 rsdp_ext_bytes

/-- A 36-byte table header with signature `"FACP"`, declared length 36 and the
given checksum byte (offset 9); all other bytes are zero. -/
def facp_bytes (checksum : Nat) : List Nat :=
  [70, 65, 67, 80, 36, 0, 0, 0, 0, checksum] ++ List.replicate 26 0

/-- A legacy root table of declared length 48 with valid checksum and the three
entries 0, 0x3000 and 0x4000. -/
def rsdt_bytes : List Nat :=
  [82, 83, 68, 84, 48, 0, 0, 0, 0, 35] ++ List.replicate 26 0 ++
    [0, 0, 0, 0, 0, 0x30, 0, 0, 0, 0x40, 0, 0]

/-- Memory with the string `"FACP"` at 0x500, a revision-0 root descriptor at
0x1000 pointing to the legacy root table at 0x2000, a `"FACP"` table with a wrong
checksum at 0x3000 and one with a right checksum at 0x4000. -/
def mem_tables : PhysMem :=
  write_bytes (write_bytes (write_bytes (write_bytes (write_bytes zero_mem
    0x500 [70, 65, 67, 80])
    0x1000 [82, 83, 68, 32, 80, 84, 82, 32, 193, 0, 0, 0, 0, 0, 0, 0, 0, 0x20, 0, 0])
    0x2000 rsdt_bytes)
    0x3000 (facp_bytes 0))
    0x4000 (facp_bytes 194)

/-! ## Sequences of arena calls -/

/-- One call on the arena: `operator new[](size)` or `operator delete[](ptr)`. -/
inductive ArenaCall where
  | new_arr (size : Nat)
  | delete_arr (ptr : Option Nat)
deriving DecidableEq, Repr

/-- Runs a sequence of arena calls from the cursor `pool_index` and lists, for
every `operator new[]` call in order, the requested size and the outcome. -/
def arena_run (pool_index : Nat) : List ArenaCall → List (Nat × NewResult)
  | [] => []
  | ArenaCall.new_arr size :: cs =>
    (size, operator_new_arr pool_index size) ::
      arena_run (operator_new_arr pool_index size).pool_index cs
  | ArenaCall.delete_arr p :: cs => arena_run (operator_delete_arr pool_index p) cs

/-- The successful allocations of a run, in order, each as (pool offset, size). -/
def arena_allocs (pool_index : Nat) (calls : List ArenaCall) : List (Nat × Nat) :=
  (arena_run pool_index calls).filterMap (fun x => x.2.ptr.map (fun p => (p, x.1)))

/-- The byte ranges `[x.1, x.1 + x.2)` and `[y.1, y.1 + y.2)` have no byte in common. -/
def ranges_disjoint (x y : Nat × Nat) : Prop :=
  ∀ b, ¬ (x.1 ≤ b ∧ b < x.1 + x.2 ∧ y.1 ≤ b ∧ b < y.1 + y.2)

/-! ## Power management (`acpi_init`, `acpi_power_off` in `src/acpi.cpp`) -/

/-- Byte offset of `FADT::SMI_CommandPort` (packed layout of acpi.h:45-56). -/
def OFF_SMI_CommandPort : Nat := 48

/-- Byte offset of `FADT::AcpiEnable`. -/
def OFF_AcpiEnable : Nat := 52

/-- Byte offset of `FADT::PM1aEventBlock`. -/
def OFF_PM1aEventBlock : Nat := 56

/-- Byte offset of `FADT::PM1aControlBlock`. -/
def OFF_PM1aControlBlock : Nat := 64

/-- Byte offset of `FADT::PM1bControlBlock`. -/
def OFF_PM1bControlBlock : Nat := 68

/-- Constant `SLP_TYP_S5_PM1_CNT = (5 << 10)` as a `uint16_t` (acpi.h:136). -/
def SLP_TYP_S5_PM1_CNT : Nat := (5 <<< 10) % 65536

/-- Constant `SLP_EN_PM1_CNT = (1 << 13)` as a `uint16_t` (acpi.h:138). -/
def SLP_EN_PM1_CNT : Nat := (1 <<< 13) % 65536

/-- Constant `MAX_TIMEOUT_ITERATIONS` of `acpi_init` (acpi.cpp:229). -/
def MAX_TIMEOUT_ITERATIONS : Nat := 500000

/-- Effects of the power code on the machine, in program order. The port of
`outb`, `outw` and `inw` is the `uint16_t` argument, i.e. the 32-bit table field
reduced modulo 65536. Console output is not an effect of this list: the print
functions perform no port access. -/
inductive Effect where
  | outb (port val : Nat)
  | outw (port val : Nat)
  | inw (port : Nat)
  | cli
deriving DecidableEq, Repr

/-- How `acpi_power_off` ends: it returns to its caller, or it enters
`while (true) { asm volatile("hlt"); }` and never returns. -/
inductive Outcome where
  | returned
  | halted
deriving DecidableEq, Repr

/-- Observable behaviour of one `acpi_power_off` call. `warned` tells whether the
warning of acpi.cpp:274 was printed. -/
structure PowerOffRun where
  trace : List Effect
  warned : Bool
  outcome : Outcome
deriving DecidableEq, Repr

/-- Embedding of `acpi_power_off` (acpi.cpp:260-307). `g_fadt` is the global
pointer (0 for `nullptr`), `status` the value the `inw` of acpi.cpp:273 returns
when it is executed. -/
def acpi_power_off (mem : PhysMem) (g_fadt : Nat) (status : Nat) : PowerOffRun :=
  if g_fadt = 0 then { trace := [], warned := false, outcome := Outcome.returned }
  else if read32 mem (g_fadt + OFF_PM1aControlBlock) = 0 then
    { trace := [], warned := false, outcome := Outcome.returned }
  else
    let PM1aEventBlock := read32 mem (g_fadt + OFF_PM1aEventBlock)
    let PM1aControlBlock := read32 mem (g_fadt + OFF_PM1aControlBlock)
    let PM1bControlBlock := read32 mem (g_fadt + OFF_PM1bControlBlock)
    -- if (g_fadt->PM1aEventBlock && !(inw(g_fadt->PM1aEventBlock) & 1)) warning
    let t1 := if PM1aEventBlock ≠ 0 then [Effect.inw (PM1aEventBlock % 65536)] else []
    let warned := decide (PM1aEventBlock ≠ 0 ∧ (status % 65536) &&& 1 = 0)
    -- uint16_t pm1a_cnt_val = SLP_TYP_S5_PM1_CNT | SLP_EN_PM1_CNT;
    let pm1a_cnt_val := (SLP_TYP_S5_PM1_CNT ||| SLP_EN_PM1_CNT) % 65536
    -- asm volatile("cli"); outw(g_fadt->PM1aControlBlock, pm1a_cnt_val);
    let t2 := [Effect.cli, Effect.outw (PM1aControlBlock % 65536) pm1a_cnt_val]
    let t3 :=
      if PM1bControlBlock ≠ 0 ∧ PM1bControlBlock ≠ PM1aControlBlock then
        [Effect.outw (PM1bControlBlock % 65536) pm1a_cnt_val]
      else []
    { trace := t1 ++ t2 ++ t3, warned := warned, outcome := Outcome.halted }

/-- Polling loop of `acpi_init` (acpi.cpp:231-239):
`while (timeout_counter < MAX_TIMEOUT_ITERATIONS)`, reading the status port once
per iteration. `env k` is the value returned by the read number `k` (from 0) of
the call. Returns the reads performed and the final `sci_enabled`. -/
def acpi_enable_poll (port : Nat) (env : Nat → Nat) : Nat → Nat → List Effect × Bool
  | 0, _ => ([], false)
  | fuel + 1, timeout_counter =>
    if timeout_counter < MAX_TIMEOUT_ITERATIONS then
      if (env timeout_counter % 65536) &&& 1 ≠ 0 then ([Effect.inw port], true)
      else
        (Effect.inw port :: (acpi_enable_poll port env fuel (timeout_counter + 1)).1,
         (acpi_enable_poll port env fuel (timeout_counter + 1)).2)
    else ([], false)

/-- Observable behaviour of one `acpi_init` call: the value of the global
`g_fadt` afterwards, the port effects, and the final `sci_enabled`. -/
structure InitRun where
  g_fadt : Nat
  trace : List Effect
  sci_enabled : Bool
deriving DecidableEq, Repr

/-- Embedding of `acpi_init` (acpi.cpp:198-258). `g_fadt` is the global before
the call, `facp` the address of the string literal `"FACP"`, `env k` the value
returned by the port read number `k` of the call. The fuel of the polling loop is
its iteration bound. -/
def acpi_init (mem : PhysMem) (g_fadt : Nat) (facp : Nat) (env : Nat → Nat) : InitRun :=
  let rsdp := (find_rsdp mem).getD 0
  if rsdp = 0 then { g_fadt := g_fadt, trace := [], sci_enabled := false }
  else
    -- g_fadt = (FADT*)find_sdt_from_rsdp(rsdp, "FACP");
    let g := (find_sdt_from_rsdp mem rsdp facp).getD 0
    if g ≠ 0 then
      let SMI_CommandPort := read32 mem (g + OFF_SMI_CommandPort)
      let AcpiEnable := read8 mem (g + OFF_AcpiEnable)
      let PM1aEventBlock := read32 mem (g + OFF_PM1aEventBlock)
      if SMI_CommandPort ≠ 0 ∧ AcpiEnable ≠ 0 ∧ PM1aEventBlock ≠ 0 then
        let poll := acpi_enable_poll (PM1aEventBlock % 65536) env MAX_TIMEOUT_ITERATIONS 0
        -- on timeout the status register is read once more to be printed (acpi.cpp:248)
        let last := if poll.2 then [] else [Effect.inw (PM1aEventBlock % 65536)]
        { g_fadt := g,
          trace := Effect.outb (SMI_CommandPort % 65536) AcpiEnable :: (poll.1 ++ last),
          sci_enabled := poll.2 }
      else { g_fadt := g, trace := [], sci_enabled := false }
    else { g_fadt := g, trace := [], sci_enabled := false }

/-- Validation and entry walk of `find_sdt_from_rsdp` for a root table at
`sdt_root_table` with 8-byte (`use_xsdt`) or 4-byte entries
(acpi.cpp:121-129 or 139-147, then 150-186). -/
def walk_root (mem : PhysMem) (sdt_root_table : Nat) (use_xsdt : Bool) (signature : Nat) :
    Option Nat :=
  if sdt_root_table = 0 ∨ validate_acpi_sdt_checksum mem sdt_root_table = false then none
  else
    sdt_loop mem sdt_root_table use_xsdt signature (sdt_entries mem sdt_root_table use_xsdt)
      (sdt_entries mem sdt_root_table use_xsdt) 0

/-- The root-table selection as the claim words it: the extended root table at
address `XsdtAddress` (the full 64-bit value) when the revision is at least 2 and
`XsdtAddress` is non-zero, otherwise the legacy root table at `RsdtAddress` when
that is non-zero, otherwise none. -/
def claimed_root (mem : PhysMem) (rsdp_ptr : Nat) : Option (Nat × Bool) :=
  if 2 ≤ read8 mem (rsdp_ptr + 15) ∧ read64 mem (rsdp_ptr + 24) ≠ 0 then
    some (read64 mem (rsdp_ptr + 24), true)
  else if read32 mem (rsdp_ptr + 16) ≠ 0 then some (read32 mem (rsdp_ptr + 16), false)
  else none

/-- A legacy root table of declared length 40 with valid checksum and the single
entry 0x4000. -/
def rsdt_one_bytes : List Nat :=
  [82, 83, 68, 84, 40, 0, 0, 0, 0, 91] ++ List.replicate 26 0 ++ [0, 0x40, 0, 0]

/-- A power table (`"FACP"`) of declared length 72 with valid checksum:
`SMI_CommandPort` 0xB2, `AcpiEnable` 0xA0, `PM1aEventBlock` 0x600,
`PM1aControlBlock` 0x604, `PM1bControlBlock` 0x608. -/
def fadt_bytes : List Nat :=
  [70, 65, 67, 80, 72, 0, 0, 0, 0, 46] ++ List.replicate 38 0 ++
    [0xB2, 0, 0, 0, 0xA0, 0, 0, 0, 0, 6, 0, 0, 0, 0, 0, 0, 4, 6, 0, 0, 8, 6, 0, 0]

/-- Memory of a machine whose tables are found: EBDA segment word 0x0100 at
0x40E, the string `"FACP"` at 0x500, a valid revision-0 root descriptor at 0x1000
(the EBDA base) pointing to the root table `rsdt_one_bytes` at 0x2000, and the
power table `fadt_bytes` at 0x4000. -/
def mem_power : PhysMem :=
  write_bytes (write_bytes (write_bytes (write_bytes (write_bytes zero_mem
    0x40E [0x00, 0x01])
    0x500 [70, 65, 67, 80])
    0x1000 [82, 83, 68, 32, 80, 84, 82, 32, 193, 0, 0, 0, 0, 0, 0, 0, 0, 0x20, 0, 0])
    0x2000 rsdt_one_bytes)
    0x4000 fadt_bytes

/-- The memory `mem_power` with the signature of the table at 0x4000 replaced by
`"APIC"`: the root table then lists no `"FACP"` table. -/
def mem_no_facp : PhysMem := write_bytes mem_power 0x4000 [65, 80, 73, 67]

/-- An extended root table of declared length 44 with valid checksum and the
single 8-byte entry 0x4000. -/
def xsdt_bytes : List Nat :=
  [88, 83, 68, 84, 44, 0, 0, 0, 0, 81] ++ List.replicate 26 0 ++ [0, 0x40, 0, 0, 0, 0, 0, 0]

/-- The memory `mem_tables` with the root descriptor at 0x1000 replaced by a valid
revision-2 descriptor whose `RsdtAddress` is 0x2000 and whose `XsdtAddress` is
0x100000000, and with the valid extended root table `xsdt_bytes` at 0x100000000. -/
def mem_high_xsdt : PhysMem :=
  write_bytes (write_bytes mem_tables
    0x1000 [82, 83, 68, 32, 80, 84, 82, 32, 191, 0, 0, 0, 0, 0, 0, 2, 0, 0x20, 0, 0,
            36, 0, 0, 0, 0, 0, 0, 0, 1, 0, 0, 0, 219, 0, 0, 0])
    0x100000000 xsdt_bytes

/-- The memory `mem_tables` with the root descriptor at 0x1000 replaced by a valid
revision-2 descriptor whose `RsdtAddress` is 0x2000 and whose `XsdtAddress` is
0x6000, where an extended root table with a wrong checksum byte is stored. -/
def mem_bad_xsdt : PhysMem :=
  write_bytes (write_bytes mem_tables
    0x1000 [82, 83, 68, 32, 80, 84, 82, 32, 191, 0, 0, 0, 0, 0, 0, 2, 0, 0x20, 0, 0,
            36, 0, 0, 0, 0, 0x60, 0, 0, 0, 0, 0, 0, 124, 0, 0, 0])
    0x6000 ([88, 83, 68, 84, 44, 0, 0, 0, 0, 0] ++ List.replicate 26 0 ++
      [0, 0x40, 0, 0, 0, 0, 0, 0])

/-- The memory `mem_tables` with the 36 header bytes of the root table at 0x2000
replaced by zero bytes: the declared length of the root table is 0, below the
header size, and the three stored entries 0, 0x3000, 0x4000 follow at 0x2024. -/
def mem_zero_header : PhysMem := write_bytes mem_tables 0x2000 (List.replicate 36 0)

/-! ## Vector: copy, move, `pop_back`, `resize` (`src/include/vectors.h`) -/

/-- Embedding of `destroy_elements_range(first, last)` (vectors.h:26-30) for
`first = arr + i` and `last = arr + i + k`: `k` destructor calls on the slots
`i, i + 1, ...` of the buffer at `arr`. -/
def destroy_elements_range {α : Type} (szT : Nat) (arr : Option Nat) :
    Nat → Nat → ObjMem α → ObjMem α
  | 0, _, m => m
  | k + 1, i, m => destroy_elements_range szT arr k (i + 1) (destroy_at m (ptr_add szT arr i))

/-- The element loop of the copy constructor (vectors.h:167-169), started at
index `i` with `k` iterations left: `new (arr + i) T(other.arr[i]);` -/
def copy_loop {α : Type} (szT : Nat) (other_arr : Option Nat) (arr : Nat) :
    Nat → Nat → ObjMem α → ObjMem α
  | 0, _, m => m
  | k + 1, i, m =>
    copy_loop szT other_arr arr k (i + 1)
      (construct_at m (some (arr + i * szT)) (load m (ptr_add szT other_arr i)))

/-- Embedding of the copy constructor `vector(const vector& other)`
(vectors.h:156-171): the heap afterwards and the new vector. -/
def vector_copy {α : Type} (szT : Nat) (h : Heap α) (other : vector) : Heap α × vector :=
  if other.cap > 0 then
    let r := allocate_raw szT h.pool_index other.cap
    match r.ptr with
    | none => ({ h with pool_index := r.pool_index }, { arr := none, current_size := 0, cap := 0 })
    | some p =>
      ({ pool_index := r.pool_index,
         mem := copy_loop szT other.arr p other.current_size 0 h.mem },
       { arr := some p, current_size := other.current_size, cap := other.cap })
  else (h, { arr := none, current_size := 0, cap := 0 })

/-- State after a move: the heap, the destination vector and the moved-from
source vector. -/
structure MoveResult (α : Type) where
  heap : Heap α
  dest : vector
  source : vector

/-- Embedding of the move constructor `vector(vector&& other)` (vectors.h:186-191). -/
def vector_move {α : Type} (h : Heap α) (other : vector) : MoveResult α :=
  { heap := h,
    dest := { arr := other.arr, current_size := other.current_size, cap := other.cap },
    source := { arr := none, current_size := 0, cap := 0 } }

/-- Embedding of the move assignment `operator=(vector&& other)` (vectors.h:194-208).
`same_object` tells whether `this == &other`; in that case nothing is done and
both results are the one vector. -/
def vector_move_assign {α : Type} (szT : Nat) (h : Heap α) (this other : vector)
    (same_object : Bool) : MoveResult α :=
  if same_object then { heap := h, dest := this, source := this }
  else
    -- destroy_all_elements(); deallocate_raw(arr);
    { heap :=
        { pool_index := operator_delete_arr h.pool_index this.arr,
          mem := destroy_elements_range szT this.arr this.current_size 0 h.mem },
      dest := { arr := other.arr, current_size := other.current_size, cap := other.cap },
      source := { arr := none, current_size := 0, cap := 0 } }

/-- Embedding of `vector::pop_back` (vectors.h:121-126). -/
def pop_back {α : Type} (szT : Nat) (h : Heap α) (v : vector) : Heap α × vector :=
  if v.current_size > 0 then
    ({ h with mem := destroy_at h.mem (ptr_add szT v.arr (v.current_size - 1)) },
     { v with current_size := v.current_size - 1 })
  else (h, v)

/-- The fill loop of `resize` (vectors.h:262-264), started at index `i` with `k`
iterations left: `new (arr + i) T(value);` -/
def resize_fill {α : Type} (szT : Nat) (arr : Option Nat) (value : α) :
    Nat → Nat → ObjMem α → ObjMem α
  | 0, _, m => m
  | k + 1, i, m =>
    resize_fill szT arr value k (i + 1) (construct_at m (ptr_add szT arr i) (some value))

/-- End of the growing branch of `resize` (vectors.h:262-264, 268): the fill loop
from `current_size` to `n`, then `current_size = n`. -/
def resize_construct {α : Type} (szT : Nat) (h : Heap α) (v : vector) (n : Nat) (value : α) :
    Heap α × vector :=
  ({ h with mem := resize_fill szT v.arr value (n - v.current_size) v.current_size h.mem },
   { v with current_size := n })

/-- Embedding of `vector::resize(size_t n, const T& value)` (vectors.h:248-269). -/
def resize {α : Type} (szT : Nat) (h : Heap α) (v : vector) (n : Nat) (value : α) :
    Heap α × vector :=
  if n > v.current_size then
    -- if (n > cap) { reserve(n); if (cap < n) return; }
    let s1 : Heap α × vector := if n > v.cap then reserve szT h v n else (h, v)
    if n > v.cap ∧ s1.2.cap < n then s1
    else if s1.2.arr = none ∧ n > 0 then
      -- char* raw_mem = allocate_raw(n > cap ? n : cap); if (!raw_mem) return;
      let r := allocate_raw szT s1.1.pool_index (if n > s1.2.cap then n else s1.2.cap)
      match r.ptr with
      | none => ({ s1.1 with pool_index := r.pool_index }, s1.2)
      | some p =>
        resize_construct szT { s1.1 with pool_index := r.pool_index }
          { arr := some p, current_size := s1.2.current_size,
            cap := if n > s1.2.cap then n else s1.2.cap } n value
    else resize_construct szT s1.1 s1.2 n value
  else if n < v.current_size then
    -- destroy_elements_range(arr + n, arr + current_size); current_size = n;
    ({ h with mem := destroy_elements_range szT v.arr (v.current_size - n) n h.mem },
     { v with current_size := n })
  else (h, { v with current_size := n })

/-- Data-model invariant of a vector in a heap: `size <= capacity`, the arena
cursor is within the pool, and either the vector has no buffer and capacity 0, or
its buffer of `capacity * sizeof(T)` bytes lies in the allocated part of the pool. -/
structure VecWF {α : Type} (szT : Nat) (h : Heap α) (v : vector) : Prop where
  size_le : v.current_size ≤ v.cap
  pool_le : h.pool_index ≤ MEMORY_POOL_SIZE
  buf : (v.arr = none ∧ v.cap = 0) ∨
    (∃ p, v.arr = some p ∧ 0 < v.cap ∧ p + v.cap * szT ≤ h.pool_index)

/-- The byte ranges of the buffers of two vectors have no byte in common. -/
def buffers_separate (szT : Nat) (a b : vector) : Prop :=
  match a.arr, b.arr with
  | some p, some q => p + a.cap * szT ≤ q ∨ q + b.cap * szT ≤ p
  | _, _ => True

/-! ## Vector: swap, destructor, copy assignment (`src/include/vectors.h`) -/

/-- Embedding of the friend function `swap(vector& first, vector& second)`
(vectors.h:272-285): the three members are exchanged one by one. The result is
(`first`, `second`) after the call. -/
def vector_swap (first second : vector) : vector × vector :=
  ({ arr := second.arr, current_size := second.current_size, cap := second.cap },
   { arr := first.arr, current_size := first.current_size, cap := first.cap })

/-- Embedding of the destructor `~vector()` (vectors.h:65-69):
`destroy_all_elements(); deallocate_raw(arr);` -/
def vector_destroy {α : Type} (szT : Nat) (h : Heap α) (v : vector) : Heap α :=
  { pool_index := operator_delete_arr h.pool_index v.arr,
    mem := destroy_elements_range szT v.arr v.current_size 0 h.mem }

/-- Embedding of the copy assignment `operator=(const vector& other)`
(vectors.h:174-183): `vector temp(other); swap(*this, temp);`, then the destructor
of `temp` at the end of the block. `same_object` tells whether `this == &other`.
The result is the heap and `*this` after the call. -/
def vector_copy_assign {α : Type} (szT : Nat) (h : Heap α) (this other : vector)
    (same_object : Bool) : Heap α × vector :=
  if same_object then (h, this)
  else
    let temp := vector_copy szT h other
    let swapped := vector_swap this temp.2
    (vector_destroy szT temp.1 swapped.2, swapped.1)

/-! ## Number printing (`print_uint_base` in `src/io.cpp`) -/

/-- The string literal `"0123456789abcdef"` as character codes. -/
def digits_map : List Nat :=
  [48, 49, 50, 51, 52, 53, 54, 55, 56, 57, 97, 98, 99, 100, 101, 102]

/-- State of the local `char buffer[65]` of `print_uint_base`: the character
stored at each index and the indices written so far, in program order. An index
above 64 is outside the array. -/
structure PrintBuf where
  chars : Nat → Nat
  written : List Nat

/-- One store `buffer[idx] = c`. -/
def PrintBuf.store (b : PrintBuf) (idx c : Nat) : PrintBuf :=
  { chars := fun j => if j = idx then c else b.chars j, written := b.written ++ [idx] }

/-- Digit loop of `print_uint_base` (io.cpp:95-98):
`while (n > 0) { buffer[i++] = digits_map[n % base]; n /= base; }`.
Returns the buffer, the final `i` and the final `n`. -/
def print_digit_loop (base : Nat) : Nat → Nat → Nat → PrintBuf → PrintBuf × Nat × Nat
  | 0, n, i, b => (b, i, n)
  | fuel + 1, n, i, b =>
    if n > 0 then
      print_digit_loop base fuel (n / base) (i + 1) (b.store i (digits_map.getD (n % base) 0))
    else (b, i, n)

/-- Reversal loop of `print_uint_base` (io.cpp:108-115), with `int start, end`:
`while (start < end) { swap buffer[start], buffer[end]; start++; end--; }` -/
def print_reverse_loop : Nat → Int → Int → PrintBuf → PrintBuf
  | 0, _, _, b => b
  | fuel + 1, start, end_, b =>
    if start < end_ then
      let temp := b.chars start.toNat
      let b1 := b.store start.toNat (b.chars end_.toNat)
      let b2 := b1.store end_.toNat temp
      print_reverse_loop fuel (start + 1) (end_ - 1) b2
    else b

/-- Outcome of `print_uint_base`: whether the base was rejected, the buffer with
the indices written, and the final `n` of the digit loop (0 when the loop ran to
its end). -/
structure PrintRun where
  invalid_base : Bool
  buf : PrintBuf
  rest : Nat

/-- Embedding of `print_uint_base(unsigned long long n, int base, int color,
bool print_prefix)` (io.cpp:82-117) up to the call of `print_string`. The fuel of
the digit loop, 64, is the largest number of digits of a 64-bit number; the
argument `prefixed` is the parameter `print_prefix`. -/
def print_uint_base (n : Nat) (base : Int) (prefixed : Bool) : PrintRun :=
  let b0 : PrintBuf := { chars := fun _ => 0, written := [] }
  if base < 2 ∨ base > 16 then { invalid_base := true, buf := b0, rest := n }
  else
    -- if (n == 0) buffer[i++] = '0'; else digit loop
    let d : PrintBuf × Nat × Nat :=
      if n = 0 then (b0.store 0 48, 1, 0) else print_digit_loop base.toNat 64 n 0 b0
    -- if (print_prefix) { base 16: 'x', '0'; base 2: 'b', '0' }
    let p : PrintBuf × Nat :=
      if prefixed then
        if base = 16 then ((d.1.store d.2.1 120).store (d.2.1 + 1) 48, d.2.1 + 2)
        else if base = 2 then ((d.1.store d.2.1 98).store (d.2.1 + 1) 48, d.2.1 + 2)
        else (d.1, d.2.1)
      else (d.1, d.2.1)
    -- buffer[i] = '\0';
    let b3 := p.1.store p.2 0
    { invalid_base := false,
      buf := print_reverse_loop p.2 0 ((p.2 : Int) - 1) b3,
      rest := d.2.2 }

/-! ## Memory-map scan (`get_total_ram_mb` in `src/memorys.cpp`) -/

/-- Byte offset of `multiboot_info::mem_lower`. -/
def OFF_mem_lower : Nat := 4

/-- Byte offset of `multiboot_info::mem_upper`. -/
def OFF_mem_upper : Nat := 8

/-- Byte offset of `multiboot_info::mmap_length` (after eleven `uint32_t`). -/
def OFF_mmap_length : Nat := 44

/-- Byte offset of `multiboot_info::mmap_addr`. -/
def OFF_mmap_addr : Nat := 48

/-- Byte offset of `mmap_entry::len` (packed: `size` 0, `addr` 4, `len` 12, `type` 20). -/
def OFF_mmap_len : Nat := 12

/-- Byte offset of `mmap_entry::type`. -/
def OFF_mmap_type : Nat := 20

/-- Scan loop of `get_total_ram_mb` (memorys.cpp:86-113):
`while (current_offset < mbi->mmap_length)`. `current_offset` is a `uint32_t`,
`entry` a 32-bit pointer, `total_ram_bytes` a `uint64_t`. The result is the final
`total_ram_bytes`, or `none` when the loop has not ended within the fuel. -/
def mmap_loop (mem : PhysMem) (mmap_length : Nat) : Nat → Nat → Nat → Nat → Option Nat
  | 0, _, _, _ => none
  | fuel + 1, current_offset, entry, total_ram_bytes =>
    if current_offset < mmap_length then
      -- if (entry->type == 1) total_ram_bytes += entry->len;
      let total1 :=
        if read32 mem (entry + OFF_mmap_type) = 1 then
          (total_ram_bytes + read64 mem (entry + OFF_mmap_len)) % 18446744073709551616
        else total_ram_bytes
      -- if (entry->size == 0) break;
      if read32 mem entry = 0 then some total1
      else
        -- current_offset += entry->size + 4; entry = (uintptr_t)entry + entry->size + 4;
        mmap_loop mem mmap_length fuel
          ((current_offset + (read32 mem entry + 4) % 4294967296) % 4294967296)
          ((entry + read32 mem entry + 4) % 4294967296) total1
    else some total_ram_bytes

/-- Embedding of `get_total_ram_mb(multiboot_info* mbi)` (memorys.cpp:63-120) with
fuel for the scan loop: the `uint32_t` result, or `none` when the loop has not
ended within the fuel. -/
def get_total_ram_mb (mem : PhysMem) (mbi : Nat) (fuel : Nat) : Option Nat :=
  if mbi = 0 then some 0
  else if read32 mem mbi &&& 1 = 0 then some 0
  else if read32 mem mbi &&& 64 ≠ 0 then
    if read32 mem (mbi + OFF_mmap_addr) = 0 ∨ read32 mem (mbi + OFF_mmap_length) = 0 then
      some (((read32 mem (mbi + OFF_mem_lower) + read32 mem (mbi + OFF_mem_upper))
        % 4294967296) / 1024)
    else
      (mmap_loop mem (read32 mem (mbi + OFF_mmap_length)) fuel 0
        (read32 mem (mbi + OFF_mmap_addr)) 0).map
        (fun total => (total / (1024 * 1024)) % 4294967296)
  else
    some (((read32 mem (mbi + OFF_mem_lower) + read32 mem (mbi + OFF_mem_upper))
      % 4294967296) / 1024)

/-! ## Further concrete inputs -/

/-- An extended root table whose declared length is 20, below the header size,
with a valid checksum over those 20 bytes; the header bytes 20..35 are zero and
the 8-byte entry 0x4000 is stored after the 36 header bytes. -/
def xsdt_short_bytes : List Nat :=
  [88, 83, 68, 84, 20, 0, 0, 0, 0, 169] ++ List.replicate 26 0 ++ [0, 0x40, 0, 0, 0, 0, 0, 0]

/-- The memory `mem_bad_xsdt` with `xsdt_short_bytes` stored at 0x6000, the
address the revision-2 root descriptor at 0x1000 gives as `XsdtAddress`. -/
def mem_short_xsdt : PhysMem := write_bytes mem_bad_xsdt 0x6000 xsdt_short_bytes

/-- The memory `mem_power` with the first 36 bytes of the power table at 0x4000
replaced by a `"FACP"` header of declared length 36 with a valid checksum over
those 36 bytes; the bytes 36..71 behind the declared length are as in `mem_power`. -/
def mem_short_fadt : PhysMem := write_bytes mem_power 0x4000 (facp_bytes 194)

/-- A power table (`"FACP"`) of declared length 72 with valid checksum:
`SMI_CommandPort` 0x10000, `AcpiEnable` 0xA0, `PM1aEventBlock` 0x600,
`PM1aControlBlock` 0x10000, `PM1bControlBlock` 0x20000. -/
def fadt_wide_bytes : List Nat :=
  [70, 65, 67, 80, 72, 0, 0, 0, 0, 244] ++ List.replicate 38 0 ++
    [0, 0, 1, 0, 0xA0, 0, 0, 0, 0, 6, 0, 0, 0, 0, 0, 0, 0, 0, 1, 0, 0, 0, 2, 0]

/-- The memory `mem_power` with the power table at 0x4000 replaced by
`fadt_wide_bytes`. -/
def mem_wide_ports : PhysMem := write_bytes mem_power 0x4000 fadt_wide_bytes

/-- Memory with a multiboot information block at 0x7000 (flags 0x41: bits 0 and
6; `mmap_length` 24; `mmap_addr` 0x8000) and one memory-map entry at 0x8000 whose
`size` field is 0xFFFFFFFC and whose `type` is 2. -/
def mem_mmap : PhysMem :=
  write_bytes (write_bytes (write_bytes (write_bytes zero_mem
    0x7000 [0x41, 0, 0, 0])
    (0x7000 + 44) [24, 0, 0, 0, 0, 0x80, 0, 0])
    0x8000 [0xFC, 0xFF, 0xFF, 0xFF])
    (0x8000 + 20) [2, 0, 0, 0]

/-- Two `vector<char>` and a full arena for the copy assignment `a = b`: `a` holds
1, 2, 3 in the buffer at offset 0, `b` holds 4, 5 in the buffer at offset 16, and
a last request of 1048544 bytes has taken the rest of the pool. The components
are the heap, `a` and `b`. -/
def assign_full_arena : Heap Nat × vector × vector :=
  let a := push_back_list 1 (empty_heap Nat) vector_default [1, 2, 3]
  let b := push_back_list 1 a.1 vector_default [4, 5]
  let f := operator_new_arr b.1.pool_index 1048544
  ({ pool_index := f.pool_index, mem := b.1.mem }, a.2, b.2)

/-- The capacity after `n` calls of `push_back` as the claim words it: 0 when
`n = 0`, otherwise `10 * 2^k` for the least `k` with `10 * 2^k >= n`. -/
def claimed_capacity (n cap : Nat) : Prop :=
  (n = 0 ∧ cap = 0) ∨
  (0 < n ∧ ∃ k, cap = 10 * 2 ^ k ∧ n ≤ 10 * 2 ^ k ∧ ∀ j, j < k → 10 * 2 ^ j < n)

/-! ## Theorems: arena -/

/-- The aligned cursor computed by the code is the mathematical round-up whenever
the cursor is within the pool. -/
theorem operator_new_arr_aligned (c : Nat) (hc : c ≤ MEMORY_POOL_SIZE) :
    (if c % 16 ≠ 0 then (c + (16 - c % 16)) % SIZE_T_MOD else c) = align16 c := by
  unfold align16 SIZE_T_MOD
  unfold MEMORY_POOL_SIZE at hc
  split <;> omega

/-- The cursor stays within the pool across every call, wrapped requests included. -/
theorem operator_new_arr_le_capacity (c size : Nat) (hc : c ≤ MEMORY_POOL_SIZE) :
    (operator_new_arr c size).pool_index ≤ MEMORY_POOL_SIZE := by
  have ha := operator_new_arr_aligned c hc
  unfold operator_new_arr
  simp only [ha]
  have : align16 c ≤ MEMORY_POOL_SIZE := by
    unfold align16; unfold MEMORY_POOL_SIZE at *; omega
  split
  · exact this
  · simp only; omega

/-- On requests whose mathematical sum with the aligned cursor stays below `2^32`,
the call does what the arena contract says. -/
theorem operator_new_arr_no_wrap (c size : Nat) (hc : c ≤ MEMORY_POOL_SIZE)
    (hs : align16 c + size < SIZE_T_MOD) :
    operator_new_arr c size =
      if align16 c + size ≤ MEMORY_POOL_SIZE
      then { ptr := some (align16 c), pool_index := align16 c + size }
      else { ptr := none, pool_index := align16 c } := by
  have ha := operator_new_arr_aligned c hc
  unfold operator_new_arr
  simp only [ha, Nat.mod_eq_of_lt hs]
  by_cases h : align16 c + size ≤ MEMORY_POOL_SIZE
  · simp [h, Nat.not_lt.mpr h]
  · simp [h, Nat.lt_of_not_le h]

/-- C3 (code evaluated at the failing input). After one 16-byte allocation the
cursor is 16; a request of 4294967280 bytes then has mathematical end
16 + 4294967280 beyond the capacity, yet the call returns the non-null pool
offset 16 and moves the cursor back to 0. -/
theorem operator_new_arr_wrap_decreases_cursor :
    (operator_new_arr 0 16).pool_index = 16 ∧
    16 ≤ MEMORY_POOL_SIZE ∧ 4294967280 < SIZE_T_MOD ∧
    MEMORY_POOL_SIZE < align16 16 + 4294967280 ∧
    operator_new_arr 16 4294967280 = { ptr := some 16, pool_index := 0 } := by
  decide

/-- C9 (code evaluated at the failing input). With the cursor at 5 the aligned
cursor is 16; for a request of 4294967295 bytes the sum 16 + 4294967295 exceeds
the capacity 1048576, yet the call returns pool offset 16 instead of null and
sets the cursor to 15. -/
theorem operator_new_arr_wrap_returns_pointer :
    align16 5 = 16 ∧ ¬ (align16 5 + 4294967295 ≤ MEMORY_POOL_SIZE) ∧
    operator_new_arr 5 4294967295 = { ptr := some 16, pool_index := 15 } := by
  decide

/-! ## Theorems: vector, allocation failure -/

/-- C1 (code evaluated at the failing input). A `vector<char>` `v` holding ten
elements in a buffer of capacity ten, with the arena then filled to its capacity
by `w.reserve(1048560)` on a second `vector<char>`: the growth allocation of the
eleventh `v.push_back` fails, yet the call writes the new element one slot past
the buffer (pool offset 10, where no object was alive) and raises the size to 11
with capacity 10. -/
theorem push_back_alloc_failure_writes :
    ∃ (h : Heap Nat) (v : vector),
      (h, v) = (fun (s : Heap Nat × vector) =>
          ((reserve 1 s.1 vector_default 1048560).1, s.2))
        (push_back_list 1 (empty_heap Nat) vector_default [1, 2, 3, 4, 5, 6, 7, 8, 9, 10]) ∧
      v = { arr := some 0, current_size := 10, cap := 10 } ∧
      h.pool_index = MEMORY_POOL_SIZE ∧
      growth_alloc_ok 1 h v = false ∧
      h.mem 10 = none ∧
      (push_back 1 h v 11).2 = { arr := some 0, current_size := 11, cap := 10 } ∧
      (push_back 1 h v 11).1.mem 10 = some 11 :=
  ⟨_, _, rfl, by decide, by decide, by decide, by decide, by decide, by decide⟩

/-- C2 (code evaluated at the failing input). A `vector<int>` `v` built by the
capacity constructor with capacity 1 and holding one element satisfies
`size <= capacity`; once `w.reserve(262140)` on a second `vector<int>` has filled
the arena, the next `v.push_back` leaves size 2 and capacity 1, so the inequality
no longer holds. -/
theorem push_back_breaks_size_le_cap :
    ∃ (h : Heap Nat) (v : vector),
      (h, v) = (fun (s : Heap Nat × vector) =>
          ((reserve 4 s.1 vector_default 262140).1, s.2))
        ((fun (s : Heap Nat × vector) => push_back 4 s.1 s.2 7)
          (vector_with_capacity 4 (empty_heap Nat) 1)) ∧
      v.current_size ≤ v.cap ∧
      h.pool_index ≤ MEMORY_POOL_SIZE ∧
      (allocate_raw 4 h.pool_index (push_back_new_cap v)).ptr = none ∧
      ¬ ((push_back 4 h v 8).2.current_size ≤ (push_back 4 h v 8).2.cap) ∧
      (push_back 4 h v 8).2 = { arr := some 0, current_size := 2, cap := 1 } :=
  ⟨_, _, rfl, by decide, by decide, by decide, by decide, by decide⟩

/-! ## Lemmas: growth of a vector -/

theorem slot_step (s i j : Nat) (hij : i < j) : i * s + s ≤ j * s := by
  have h := Nat.mul_le_mul_right s (Nat.succ_le_of_lt hij)
  rw [Nat.succ_mul] at h
  exact h

/-- Frame property of the element loop of `reserve`: an address that is neither a
source slot nor a destination slot of the remaining iterations keeps its object. -/
theorem reserve_move_frame {α : Type} (szT p a : Nat) (k : Nat) :
    ∀ (i : Nat) (m : ObjMem α) (addr : Nat),
      (∀ j, i ≤ j → j < i + k → addr ≠ a + j * szT ∧ addr ≠ p + j * szT) →
      reserve_move szT (some p) a k i m addr = m addr := by
  induction k with
  | zero => intro i m addr _; rfl
  | succ k ih =>
    intro i m addr hne
    simp only [reserve_move]
    rw [ih (i + 1) _ addr (fun j h1 h2 => hne j (by omega) (by omega))]
    have h0 := hne i (Nat.le_refl i) (by omega)
    simp [destroy_at, construct_at, ptr_add, load, h0.1, h0.2]

/-- The element loop of `reserve` moves slot `j` of the old buffer to slot `j` of
the new one when the new buffer starts after the old slots. -/
theorem reserve_move_spec {α : Type} (szT p a : Nat) (hs : 0 < szT) (k : Nat) :
    ∀ (i : Nat) (m : ObjMem α), p + (i + k) * szT ≤ a →
      ∀ j, i ≤ j → j < i + k →
        reserve_move szT (some p) a k i m (a + j * szT) = m (p + j * szT) := by
  induction k with
  | zero => intro i m _ j h1 h2; omega
  | succ k ih =>
    intro i m hsep j h1 h2
    simp only [reserve_move]
    have hik : (i + (k + 1)) * szT = (i + 1 + k) * szT := by ring_nf
    by_cases hji : j = i
    · subst hji
      rw [reserve_move_frame szT p a k (j + 1) _ (a + j * szT)]
      · have hjs := slot_step szT j (j + (k + 1)) (by omega)
        have : a + j * szT ≠ p + j * szT := by omega
        simp [destroy_at, construct_at, ptr_add, load, this]
      · intro j' h1' h2'
        have h3 := slot_step szT j j' (by omega)
        have h4 := slot_step szT j' (j + (k + 1)) (by omega)
        constructor <;> omega
    · rw [ih (i + 1) _ (by rw [← hik]; exact hsep) j (by omega) (by omega)]
      have h3 := slot_step szT i j (by omega)
      have h4 := slot_step szT j (i + (k + 1)) (by omega)
      have e1 : p + j * szT ≠ p + i * szT := by omega
      have e2 : p + j * szT ≠ a + i * szT := by omega
      simp [destroy_at, construct_at, ptr_add, load, e1, e2]

theorem align16_ge (c : Nat) : c ≤ align16 c := by
  unfold align16; omega

/-- A successful `allocate_raw` whose byte count cannot wrap returns the aligned
cursor and advances the cursor by the mathematical product. -/
theorem allocate_raw_success (szT c n a : Nat) (hc : c ≤ MEMORY_POOL_SIZE) (hn : 0 < n)
    (hb : szT * n + MEMORY_POOL_SIZE < SIZE_T_MOD)
    (h : (allocate_raw szT c n).ptr = some a) :
    a = align16 c ∧ (allocate_raw szT c n).pool_index = a + szT * n ∧
      a + szT * n ≤ MEMORY_POOL_SIZE := by
  have hal : align16 c ≤ MEMORY_POOL_SIZE := by
    unfold align16; unfold MEMORY_POOL_SIZE at *; omega
  have hm : (szT * n) % SIZE_T_MOD = szT * n := Nat.mod_eq_of_lt (by omega)
  have hw := operator_new_arr_no_wrap c (szT * n) hc (by omega)
  unfold allocate_raw at h ⊢
  rw [if_neg (by omega), hm, hw] at h
  rw [if_neg (by omega), hm, hw]
  by_cases hfit : align16 c + szT * n ≤ MEMORY_POOL_SIZE
  · rw [if_pos hfit] at h ⊢
    simp only [Option.some.injEq] at h
    subst h
    exact ⟨rfl, rfl, hfit⟩
  · rw [if_neg hfit] at h
    simp at h

theorem pushInv_cap_bound {α : Type} (szT : Nat) (h : Heap α) (v : vector) (xs : List α)
    (hs : 0 < szT) (inv : PushInv szT h v xs) : v.cap * szT ≤ MEMORY_POOL_SIZE ∧ v.cap ≤ MEMORY_POOL_SIZE := by
  have hp := inv.pool_le
  have hle : v.cap ≤ v.cap * szT := Nat.le_mul_of_pos_right _ hs
  rcases inv.buf with ⟨_, h0⟩ | ⟨p, _, _, hb⟩
  · simp [h0]
  · omega

/-- One `push_back` whose growth allocation (if any) succeeds appends the value. -/
theorem push_back_step {α : Type} (szT : Nat) (h : Heap α) (v : vector) (xs : List α) (x : α)
    (hs : 0 < szT) (hT : szT * 10 + MEMORY_POOL_SIZE < SIZE_T_MOD)
    (inv : PushInv szT h v xs) (hok : growth_alloc_ok szT h v = true) :
    PushInv szT (push_back szT h v x).1 (push_back szT h v x).2 (xs ++ [x]) := by
  obtain ⟨hcs, hcap⟩ := pushInv_cap_bound szT h v xs hs inv
  have hM : MEMORY_POOL_SIZE = 1048576 := rfl
  have hS : SIZE_T_MOD = 4294967296 := rfl
  by_cases hfull : v.current_size = v.cap
  · -- growth: `reserve(new_cap)` allocates, moves the elements, then the value is constructed
    have hnc : push_back_new_cap v = if v.cap = 0 then 10 else v.cap * 2 := by
      unfold push_back_new_cap
      split
      · rfl
      · exact Nat.mod_eq_of_lt (by omega)
    have hn0 : 0 < push_back_new_cap v := by rw [hnc]; split <;> omega
    have hn1 : v.cap < push_back_new_cap v := by rw [hnc]; split <;> omega
    have hnb : szT * push_back_new_cap v + MEMORY_POOL_SIZE < SIZE_T_MOD := by
      rw [hnc]
      split
      · exact hT
      · have : szT * (v.cap * 2) = 2 * (v.cap * szT) := by ring
        omega
    have hsome : ((allocate_raw szT h.pool_index (push_back_new_cap v)).ptr).isSome = true := by
      simpa [growth_alloc_ok, hfull] using hok
    obtain ⟨a, ha⟩ := Option.isSome_iff_exists.mp hsome
    obtain ⟨haeq, hpool, hfit⟩ :=
      allocate_raw_success szT h.pool_index (push_back_new_cap v) a inv.pool_le hn0 hnb ha
    have hage : h.pool_index ≤ a := by rw [haeq]; exact align16_ge _
    have hmod : (v.current_size + 1) % SIZE_T_MOD = v.current_size + 1 :=
      Nat.mod_eq_of_lt (by omega)
    have hpb : push_back szT h v x =
        ({ pool_index := a + szT * push_back_new_cap v,
           mem := construct_at (reserve_move szT v.arr a v.current_size 0 h.mem)
             (some (a + v.current_size * szT)) (some x) },
         { arr := some a, current_size := v.current_size + 1, cap := push_back_new_cap v }) := by
      rw [hfull] at hmod
      simp [push_back, hfull, reserve, hn1, ha, hpool, operator_delete_arr, push_back_tail,
        push_back_construct, ptr_add, hmod]
    rw [hpb]
    refine ⟨?_, ?_, ?_, Or.inr ⟨a, rfl, hn0, ?_⟩, ?_⟩
    · simp [inv.size_eq]
    · simp only; omega
    · simp only
      have : szT * push_back_new_cap v = push_back_new_cap v * szT := Nat.mul_comm _ _
      omega
    · simp only
      rw [Nat.mul_comm]
    · intro i hi
      simp only [List.length_append, List.length_singleton] at hi
      simp only [vector_index, ptr_add, Option.map_some', load, construct_at]
      by_cases hil : i < xs.length
      · have h2 := slot_step szT i v.current_size (by rw [inv.size_eq]; exact hil)
        have h3 : a + i * szT ≠ a + v.current_size * szT := by omega
        rw [if_neg h3, List.getElem?_append_left hil]
        rcases inv.buf with ⟨_, h0⟩ | ⟨p, hp, hcpos, hb⟩
        · have := inv.size_eq
          omega
        · have h1 := inv.elems i hil
          simp only [vector_index, hp, ptr_add, Option.map_some', load] at h1
          rw [hp, reserve_move_spec szT p a hs v.current_size 0 h.mem
            (by rw [Nat.zero_add, hfull]; omega) i (Nat.zero_le i)
            (by rw [Nat.zero_add, inv.size_eq]; exact hil)]
          exact h1
      · have hi' : i = xs.length := by omega
        subst hi'
        rw [inv.size_eq]
        simp
  · -- no growth
    have hlt : v.current_size < v.cap := lt_of_le_of_ne inv.size_le hfull
    rcases inv.buf with ⟨_, h0⟩ | ⟨p, hp, hcpos, hb⟩
    · omega
    · have hpb : push_back szT h v x =
          ({ h with mem := construct_at h.mem (some (p + v.current_size * szT)) (some x) },
           { v with current_size := v.current_size + 1 }) := by
        have hmod : (v.current_size + 1) % SIZE_T_MOD = v.current_size + 1 :=
          Nat.mod_eq_of_lt (by omega)
        simp [push_back, hfull, push_back_tail, hp, push_back_construct, ptr_add, hmod]
      rw [hpb]
      refine ⟨?_, ?_, inv.pool_le, Or.inr ⟨p, hp, hcpos, hb⟩, ?_⟩
      · simp [inv.size_eq]
      · simp only; omega
      · intro i hi
        simp only [List.length_append, List.length_singleton] at hi
        simp only [vector_index, hp, ptr_add, Option.map_some', load, construct_at]
        by_cases hil : i < xs.length
        · have h1 := inv.elems i hil
          simp only [vector_index, hp, ptr_add, Option.map_some', load] at h1
          have h2 := slot_step szT i v.current_size (by rw [inv.size_eq]; exact hil)
          have h3 : p + i * szT ≠ p + v.current_size * szT := by omega
          rw [if_neg h3, h1, List.getElem?_append_left hil]
        · have hi' : i = xs.length := by omega
          subst hi'
          rw [inv.size_eq]
          simp

/-- Appending a list of values, every growth allocation succeeding. -/
theorem push_back_list_inv {α : Type} (szT : Nat) (hs : 0 < szT)
    (hT : szT * 10 + MEMORY_POOL_SIZE < SIZE_T_MOD) (ys : List α) :
    ∀ (h : Heap α) (v : vector) (xs : List α), PushInv szT h v xs →
      growth_allocs_ok szT h v ys = true →
      PushInv szT (push_back_list szT h v ys).1 (push_back_list szT h v ys).2 (xs ++ ys) := by
  induction ys with
  | nil => intro h v xs inv _; simpa [push_back_list] using inv
  | cons y ys ih =>
    intro h v xs inv hok
    simp only [growth_allocs_ok, Bool.and_eq_true] at hok
    have hstep := push_back_step szT h v xs y hs hT inv hok.1
    have := ih _ _ _ hstep hok.2
    simpa [push_back_list] using this

theorem pushInv_default {α : Type} (szT : Nat) (h : Heap α) (hp : h.pool_index ≤ MEMORY_POOL_SIZE) :
    PushInv szT h vector_default ([] : List α) :=
  ⟨rfl, Nat.le_refl _, hp, Or.inl ⟨rfl, rfl⟩, fun i hi => by simp at hi⟩

/-- C10. Starting from a default-constructed vector, in any heap whose cursor is
within the pool and for any element size `szT >= 1` whose first growth request
`10 * szT` cannot overflow `size_t`, after `push_back(x1) ... push_back(xn)` with
every growth allocation succeeding, `size() == n` and `v[i]` is `x(i+1)` for
every `i < n`. -/
theorem push_back_sequence_spec {α : Type} (szT : Nat) (h : Heap α) (xs : List α)
    (hs : 0 < szT) (hT : szT * 10 + MEMORY_POOL_SIZE < SIZE_T_MOD)
    (hp : h.pool_index ≤ MEMORY_POOL_SIZE)
    (hok : growth_allocs_ok szT h vector_default xs = true) :
    (push_back_list szT h vector_default xs).2.current_size = xs.length ∧
    ∀ i (hi : i < xs.length),
      vector_index szT (push_back_list szT h vector_default xs).1
        (push_back_list szT h vector_default xs).2 i = some (xs.get ⟨i, hi⟩) := by
  have inv := push_back_list_inv szT hs hT xs h vector_default [] (pushInv_default szT h hp) hok
  rw [List.nil_append] at inv
  refine ⟨inv.size_eq, fun i hi => ?_⟩
  rw [inv.elems i hi]
  simp [List.getElem?_eq_getElem hi]

/-- C10 (witness): eleven values appended to a default-constructed `vector<char>`
in the empty heap, the growth at the eleventh `push_back` included. -/
theorem push_back_sequence_spec_witness :
    growth_allocs_ok 1 (empty_heap Nat) vector_default [1, 2, 3, 4, 5, 6, 7, 8, 9, 10, 11] = true ∧
    (push_back_list 1 (empty_heap Nat) vector_default
      [1, 2, 3, 4, 5, 6, 7, 8, 9, 10, 11]).2.cap = 20 ∧
    (push_back_list 1 (empty_heap Nat) vector_default
      [1, 2, 3, 4, 5, 6, 7, 8, 9, 10, 11]).2.current_size = 11 ∧
    ∀ i (hi : i < 11),
      vector_index 1
        (push_back_list 1 (empty_heap Nat) vector_default [1, 2, 3, 4, 5, 6, 7, 8, 9, 10, 11]).1
        (push_back_list 1 (empty_heap Nat) vector_default [1, 2, 3, 4, 5, 6, 7, 8, 9, 10, 11]).2 i
        = some ([1, 2, 3, 4, 5, 6, 7, 8, 9, 10, 11].get ⟨i, hi⟩) :=
  ⟨by decide, by decide,
    (push_back_sequence_spec 1 (empty_heap Nat) [1, 2, 3, 4, 5, 6, 7, 8, 9, 10, 11]
      (by decide) (by decide) (by decide) (by decide)).1,
    (push_back_sequence_spec 1 (empty_heap Nat) [1, 2, 3, 4, 5, 6, 7, 8, 9, 10, 11]
      (by decide) (by decide) (by decide) (by decide)).2⟩

/-! ## Lemmas: byte comparison and checksums -/

theorem memcmp_loop_eq_zero (p1 p2 : Nat → Nat) (k : Nat) :
    ∀ i, memcmp_loop p1 p2 k i = 0 ↔ ∀ j, j < k → p1 (i + j) = p2 (i + j) := by
  induction k with
  | zero => intro i; simp [memcmp_loop]
  | succ k ih =>
    intro i
    simp only [memcmp_loop]
    constructor
    · intro h j hj
      by_cases hlt : p1 i < p2 i
      · simp [hlt] at h
      · by_cases hgt : p1 i > p2 i
        · simp [hlt, hgt] at h
        · simp only [hlt, hgt, if_false] at h
          rcases Nat.eq_zero_or_pos j with rfl | hpos
          · simp only [Nat.add_zero]; omega
          · have := (ih (i + 1)).mp h (j - 1) (by omega)
            have e : i + 1 + (j - 1) = i + j := by omega
            rwa [e] at this
    · intro h
      have h0 := h 0 (Nat.succ_pos k)
      simp only [Nat.add_zero] at h0
      have hlt : ¬ p1 i < p2 i := by omega
      have hgt : ¬ p1 i > p2 i := by omega
      simp only [hlt, hgt, if_false]
      refine (ih (i + 1)).mpr (fun j hj => ?_)
      have := h (j + 1) (by omega)
      have e : i + 1 + j = i + (j + 1) := by omega
      rwa [e]

theorem memcmp_custom_bytes_eq (mem : PhysMem) (a : Nat) (lit : Nat → Nat) (n : Nat) :
    memcmp_custom (fun i => read8 mem (a + i)) lit n = 0 ↔ bytes_eq mem a lit n = true := by
  unfold memcmp_custom bytes_eq
  rw [memcmp_loop_eq_zero]
  simp [List.all_eq_true]

theorem byte_sum_succ (mem : PhysMem) (base n : Nat) :
    byte_sum mem base (n + 1) = byte_sum mem base n + read8 mem (base + n) := by
  simp [byte_sum, List.range_succ]

theorem byte_sum_front (mem : PhysMem) (base n : Nat) :
    byte_sum mem base (n + 1) = read8 mem base + byte_sum mem (base + 1) n := by
  induction n with
  | zero => simp [byte_sum, List.range_succ]
  | succ n ih =>
    rw [byte_sum_succ, ih, byte_sum_succ]
    have : base + 1 + n = base + (n + 1) := by omega
    rw [this]; omega

theorem checksum_loop_uchar_eq (mem : PhysMem) (base : Nat) (k : Nat) :
    ∀ i sum, sum < 256 →
      checksum_loop_uchar mem base k i sum = (sum + byte_sum mem (base + i) k) % 256 := by
  induction k with
  | zero => intro i sum h; simp [checksum_loop_uchar, byte_sum, Nat.mod_eq_of_lt h]
  | succ k ih =>
    intro i sum _
    simp only [checksum_loop_uchar]
    rw [ih (i + 1) _ (Nat.mod_lt _ (by decide)), byte_sum_front]
    have : base + (i + 1) = base + i + 1 := by omega
    rw [this]
    omega

theorem schar_add_mod (sum b : Nat) :
    (((sum : Int) + schar b) % 256).toNat = (sum + b) % 256 := by
  unfold schar
  split <;> omega

theorem read8_lt (mem : PhysMem) (a : Nat) : read8 mem a < 256 := Nat.mod_lt _ (by decide)

theorem checksum_loop_char_eq (mem : PhysMem) (base : Nat) (k : Nat) :
    ∀ i sum, sum < 256 →
      checksum_loop_char mem base k i sum = (sum + byte_sum mem (base + i) k) % 256 := by
  induction k with
  | zero => intro i sum h; simp [checksum_loop_char, byte_sum, Nat.mod_eq_of_lt h]
  | succ k ih =>
    intro i sum _
    simp only [checksum_loop_char]
    rw [schar_add_mod, ih (i + 1) _ (Nat.mod_lt _ (by decide)),
      byte_sum_front]
    have : base + (i + 1) = base + i + 1 := by omega
    rw [this]
    omega

/-- The body of the scan loops returns the candidate exactly when the candidate
is valid in the sense of `rsdp_valid`. -/
theorem rsdp_candidate_eq (mem : PhysMem) (p : Nat) :
    rsdp_candidate mem p = if rsdp_valid mem p = true then some p else none := by
  unfold rsdp_candidate rsdp_valid
  simp only [SIZEOF_RSDPDescriptor, SIZEOF_RSDPDescriptor20, OFF_Revision, OFF_RsdpLength,
    checksum_loop_uchar_eq mem p _ 0 0 (by decide), Nat.add_zero, Nat.zero_add]
  by_cases hsig : memcmp_custom (fun i => read8 mem (p + i)) (fun i => RSD_PTR_SIG.getD i 0) 8 = 0
  · have hb := (memcmp_custom_bytes_eq mem p _ 8).mp hsig
    rw [if_pos hsig, hb]
    by_cases h20 : byte_sum mem p 20 % 256 = 0
    · by_cases hrev : read8 mem (p + 15) < 2
      · have : ¬ (read8 mem (p + 15) ≥ 2 ∧ read8 mem (p + 15) ≠ 0) := by omega
        simp [h20, hrev, this]
      · have : read8 mem (p + 15) ≥ 2 ∧ read8 mem (p + 15) ≠ 0 := by omega
        by_cases hlen : read32 mem (p + 20) ≥ 36
        · by_cases hsum : byte_sum mem p (read32 mem (p + 20)) % 256 = 0
          · simp [h20, hrev, this, hlen, hsum]
          · simp [h20, hrev, this, hlen, hsum]
        · simp [h20, hrev, this, hlen]
    · simp [h20]
  · have hb : bytes_eq mem p (fun i => RSD_PTR_SIG.getD i 0) 8 = false := by
      rw [← Bool.not_eq_true]
      exact fun h => hsig ((memcmp_custom_bytes_eq mem p _ 8).mpr h)
    rw [if_neg hsig, hb]
    simp

theorem ebda_loop_eq (mem : PhysMem) (base : Nat) (n : Nat) :
    ∀ i, i + 16 * n = 1024 →
      ebda_loop mem base n i =
        ((List.range n).map (fun k => base + i + 16 * k)).find? (rsdp_valid mem) := by
  induction n with
  | zero => intro i _; rfl
  | succ n ih =>
    intro i hi
    have hlt : i < 1024 := by omega
    simp only [ebda_loop, if_pos hlt, List.range_succ_eq_map, List.map_cons, List.map_map,
      List.find?_cons, rsdp_candidate_eq, Nat.mul_zero, Nat.add_zero]
    by_cases hv : rsdp_valid mem (base + i) = true
    · simp [hv]
    · simp only [Bool.not_eq_true] at hv
      simp only [hv, Bool.false_eq_true, if_false, cond_false]
      rw [ih (i + 16) (by omega)]
      congr 1
      apply List.map_congr_left
      intro k _
      simp only [Function.comp, Nat.succ_eq_add_one]
      omega

theorem bios_loop_eq (mem : PhysMem) (n : Nat) :
    ∀ ptr, ptr + 16 * n = 0x100000 →
      bios_loop mem n ptr =
        ((List.range n).map (fun k => ptr + 16 * k)).find? (rsdp_valid mem) := by
  induction n with
  | zero => intro i _; rfl
  | succ n ih =>
    intro ptr hi
    have hlt : ptr < 0xFFFFF := by omega
    simp only [bios_loop, if_pos hlt, List.range_succ_eq_map, List.map_cons, List.map_map,
      List.find?_cons, rsdp_candidate_eq, Nat.mul_zero, Nat.add_zero]
    by_cases hv : rsdp_valid mem ptr = true
    · simp [hv]
    · simp only [Bool.not_eq_true] at hv
      simp only [hv, Bool.false_eq_true, if_false, cond_false]
      rw [ih (ptr + 16) (by omega)]
      congr 1
      apply List.map_congr_left
      intro k _
      simp only [Function.comp, Nat.succ_eq_add_one]
      omega

theorem read16_lt (mem : PhysMem) (a : Nat) : read16 mem a < 65536 := by
  have h1 := read8_lt mem a
  have h2 := read8_lt mem (a + 1)
  unfold read16; omega

/-- The result of `find_rsdp` is the first valid candidate of the search order. -/
theorem find_rsdp_eq_find (mem : PhysMem) :
    find_rsdp mem = (rsdp_search_order mem).find? (rsdp_valid mem) := by
  have hseg := read16_lt mem 0x40E
  unfold find_rsdp rsdp_search_order
  simp only [List.find?_append]
  rw [bios_loop_eq mem 8192 0xE0000 (by norm_num)]
  by_cases h0 : read16 mem 0x40E = 0
  · simp [h0]
  · have hm : (read16 mem 0x40E * 16) % 4294967296 = read16 mem 0x40E * 16 :=
      Nat.mod_eq_of_lt (by omega)
    simp only [h0, ne_eq, not_false_eq_true, if_true, if_false, hm]
    rw [ebda_loop_eq mem _ 64 0 (by norm_num)]
    simp only [Nat.add_zero]
    cases hfind : List.find? (rsdp_valid mem)
        (List.map (fun k => read16 mem 0x40E * 16 + 16 * k) (List.range 64)) with
    | none => simp
    | some p => simp

/-! ## Theorems: table checksum and root-descriptor search -/

/-- C7. `validate_acpi_sdt_checksum` returns true exactly for a non-null table
whose first `Length` bytes (the 32-bit length declared at offset 4) sum to 0
modulo 256; in particular it returns false for a null table. -/
theorem validate_acpi_sdt_checksum_spec (mem : PhysMem) (tableHeader : Nat) :
    (validate_acpi_sdt_checksum mem tableHeader = true ↔
      0 < tableHeader ∧ byte_sum mem tableHeader (read32 mem (tableHeader + 4)) % 256 = 0) ∧
    validate_acpi_sdt_checksum mem 0 = false := by
  refine ⟨?_, by simp [validate_acpi_sdt_checksum]⟩
  unfold validate_acpi_sdt_checksum
  by_cases h0 : tableHeader = 0
  · simp [h0]
  · simp [h0, OFF_SdtLength, checksum_loop_char_eq mem tableHeader _ 0 0 (by decide),
      Nat.pos_of_ne_zero h0]

/-- C6. `find_rsdp` returns the first candidate of the search order (EBDA offsets
0, 16, ..., 1008 when the segment word at 0x40E is non-zero, then 0xE0000,
0xE0010, ..., 0xFFFF0) that is valid, and returns not-found exactly when no
candidate of the search order is valid. -/
theorem find_rsdp_first_validated (mem : PhysMem) :
    find_rsdp mem = (rsdp_search_order mem).find? (rsdp_valid mem) ∧
    (find_rsdp mem = none ↔ ∀ p ∈ rsdp_search_order mem, rsdp_valid mem p = false) := by
  rw [find_rsdp_eq_find]
  refine ⟨rfl, ?_⟩
  rw [List.find?_eq_none]
  simp

/-- C5 (counterexample). In `mem_rev2_short` the candidate at 0xE0000 has the
right signature, a 20-byte sum of 0 mod 256, revision 2 and a declared length
below 36, and the loop body does not accept it. -/
theorem rsdp_failed_extended_not_accepted :
    bytes_eq mem_rev2_short 0xE0000 (fun i => RSD_PTR_SIG.getD i 0) 8 = true ∧
    byte_sum mem_rev2_short 0xE0000 20 % 256 = 0 ∧
    2 ≤ read8 mem_rev2_short (0xE0000 + 15) ∧
    read32 mem_rev2_short (0xE0000 + 20) < 36 ∧
    rsdp_candidate mem_rev2_short 0xE0000 = none := by
  decide

/-- C5 (amended). A candidate whose signature matches and whose first 20 bytes
sum to 0 mod 256, but whose revision is at least 2 and whose extended validation
fails (declared length below 36, or the bytes over the declared length not
summing to 0 mod 256), is not accepted at that offset: the loop body goes on to
the next candidate and `find_rsdp` never returns that address. -/
theorem rsdp_failed_extended_rejected (mem : PhysMem) (p : Nat)
    (_hsig : bytes_eq mem p (fun i => RSD_PTR_SIG.getD i 0) 8 = true)
    (_h20 : byte_sum mem p 20 % 256 = 0)
    (hrev : 2 ≤ read8 mem (p + 15))
    (hext : read32 mem (p + 20) < 36 ∨ byte_sum mem p (read32 mem (p + 20)) % 256 ≠ 0) :
    rsdp_candidate mem p = none ∧ find_rsdp mem ≠ some p := by
  have hv : rsdp_valid mem p = false := by
    unfold rsdp_valid
    have h1 : ¬ read8 mem (p + 15) < 2 := by omega
    rcases hext with h | h
    · have h2 : ¬ 36 ≤ read32 mem (p + 20) := by omega
      simp [h1, h2]
    · simp [h1, h]
  refine ⟨by rw [rsdp_candidate_eq, hv]; simp, fun hf => ?_⟩
  rw [find_rsdp_eq_find] at hf
  have := List.find?_some hf
  rw [hv] at this
  exact Bool.false_ne_true this

/-- C5 (witness of the amended statement) at `mem_rev2_short`, address 0xE0000. -/
theorem rsdp_failed_extended_rejected_witness :
    rsdp_candidate mem_rev2_short 0xE0000 = none ∧ find_rsdp mem_rev2_short ≠ some 0xE0000 :=
  rsdp_failed_extended_rejected mem_rev2_short 0xE0000 (by decide) (by decide) (by decide)
    (Or.inl (by decide))

/-! ## Lemmas: single-bit flips -/

set_option maxRecDepth 100000 in
theorem xor_bit_byte : ∀ b : Fin 256, ∀ k : Fin 8,
    (b.val ^^^ 2 ^ k.val) < 256 ∧ (b.val ^^^ 2 ^ k.val) ≠ b.val := by
  decide

theorem read8_flip_same (mem : PhysMem) (addr k : Nat) (hk : k < 8) :
    read8 (flip_bit mem addr k) addr = read8 mem addr ^^^ 2 ^ k ∧
    read8 (flip_bit mem addr k) addr < 256 ∧
    read8 (flip_bit mem addr k) addr ≠ read8 mem addr := by
  have hx := xor_bit_byte ⟨read8 mem addr, read8_lt mem addr⟩ ⟨k, hk⟩
  simp only at hx
  have e : read8 (flip_bit mem addr k) addr = read8 mem addr ^^^ 2 ^ k := by
    simp only [read8, flip_bit, if_true]
    exact Nat.mod_eq_of_lt hx.1
  rw [e]
  exact ⟨rfl, hx.1, hx.2⟩

theorem read8_flip_other (mem : PhysMem) (addr k a : Nat) (h : a ≠ addr) :
    read8 (flip_bit mem addr k) a = read8 mem a := by
  simp [read8, flip_bit, h]

theorem byte_sum_flip_outside (mem : PhysMem) (addr k base n : Nat)
    (h : ∀ i, i < n → base + i ≠ addr) :
    byte_sum (flip_bit mem addr k) base n = byte_sum mem base n := by
  induction n with
  | zero => rfl
  | succ n ih =>
    rw [byte_sum_succ, byte_sum_succ, ih (fun i hi => h i (by omega)),
      read8_flip_other mem addr k _ (h n (by omega))]

theorem byte_sum_flip_inside (mem : PhysMem) (k base n j : Nat) (hj : j < n) :
    byte_sum (flip_bit mem (base + j) k) base n + read8 mem (base + j) =
      byte_sum mem base n + read8 (flip_bit mem (base + j) k) (base + j) := by
  induction n with
  | zero => omega
  | succ n ih =>
    rw [byte_sum_succ, byte_sum_succ]
    by_cases hjn : j < n
    · rw [read8_flip_other mem (base + j) k (base + n) (by omega)]
      have := ih hjn
      omega
    · have hjn' : j = n := by omega
      subst hjn'
      rw [byte_sum_flip_outside mem (base + j) k base j (fun i hi => by omega)]
      omega

/-- A range whose bytes sum to 0 mod 256 no longer does after one bit inside it
is flipped. -/
theorem byte_sum_flip_nonzero (mem : PhysMem) (k base n j : Nat) (hk : k < 8) (hj : j < n)
    (h0 : byte_sum mem base n % 256 = 0) :
    byte_sum (flip_bit mem (base + j) k) base n % 256 ≠ 0 := by
  have h1 := byte_sum_flip_inside mem k base n j hj
  obtain ⟨_, h2, h3⟩ := read8_flip_same mem (base + j) k hk
  have h4 := read8_lt mem (base + j)
  omega

theorem read32_flip_other (mem : PhysMem) (addr k a : Nat)
    (h : addr < a ∨ a + 4 ≤ addr) :
    read32 (flip_bit mem addr k) a = read32 mem a := by
  unfold read32
  rw [read8_flip_other mem addr k a (by omega), read8_flip_other mem addr k (a + 1) (by omega),
    read8_flip_other mem addr k (a + 2) (by omega), read8_flip_other mem addr k (a + 3) (by omega)]

theorem rsdp_valid_parts (mem : PhysMem) (p : Nat) (h : rsdp_valid mem p = true) :
    byte_sum mem p 20 % 256 = 0 ∧
    (read8 mem (p + 15) < 2 ∨
      (36 ≤ read32 mem (p + 20) ∧ byte_sum mem p (read32 mem (p + 20)) % 256 = 0)) := by
  unfold rsdp_valid at h
  simp only [Bool.and_eq_true, Bool.or_eq_true, decide_eq_true_eq, beq_iff_eq] at h
  exact ⟨h.1.2, h.2⟩

/-! ## Theorems: bit flips in a root descriptor -/

/-- C8 (counterexample). In `mem_ext` the extended descriptor at 0xE0000 is
accepted with declared length 36. Flipping bit 0 of byte 20, which lies inside
the checksummed range, turns the declared length into 37, and the 37 bytes again
sum to 0 mod 256: the flipped candidate is still accepted. -/
theorem rsdp_length_bit_flip_accepted :
    rsdp_candidate mem_ext 0xE0000 = some 0xE0000 ∧
    2 ≤ read8 mem_ext (0xE0000 + 15) ∧
    read32 mem_ext (0xE0000 + 20) = 36 ∧
    rsdp_candidate (flip_bit mem_ext (0xE0000 + 20) 0) 0xE0000 = some 0xE0000 := by
  decide

/-- C8 (amended). For every candidate that the validation of `find_rsdp` accepts,
flipping a single bit at offset `j` inside the checksummed range (the first 20
bytes of a legacy descriptor, the first `Length` bytes of an extended one), other
than a bit of the `Length` field itself (offsets 20..23), makes the validation
reject the candidate at that offset. -/
theorem rsdp_bit_flip_rejected (mem : PhysMem) (p j k : Nat)
    (hacc : rsdp_candidate mem p = some p) (hk : k < 8)
    (hrange : j < (if read8 mem (p + 15) < 2 then 20 else read32 mem (p + 20)))
    (hfield : j < 20 ∨ 24 ≤ j) :
    rsdp_candidate (flip_bit mem (p + j) k) p = none := by
  have hv : rsdp_valid mem p = true := by
    rw [rsdp_candidate_eq] at hacc
    by_contra hc
    simp [hc] at hacc
  obtain ⟨h20, hext⟩ := rsdp_valid_parts mem p hv
  have hv' : rsdp_valid (flip_bit mem (p + j) k) p = false := by
    rw [← Bool.not_eq_true]
    intro hflip
    obtain ⟨h20', hext'⟩ := rsdp_valid_parts _ p hflip
    by_cases hj : j < 20
    · exact byte_sum_flip_nonzero mem k p 20 j hk hj h20 h20'
    · have hj24 : 24 ≤ j := by omega
      have hrev : ¬ read8 mem (p + 15) < 2 := by
        intro hlt
        rw [if_pos hlt] at hrange
        omega
      rw [if_neg hrev] at hrange
      have hsum : byte_sum mem p (read32 mem (p + 20)) % 256 = 0 := by
        rcases hext with h | h
        · exact absurd h hrev
        · exact h.2
      rw [read8_flip_other mem (p + j) k (p + 15) (by omega),
        read32_flip_other mem (p + j) k (p + 20) (by omega)] at hext'
      rcases hext' with h | h
      · exact hrev h
      · exact byte_sum_flip_nonzero mem k p _ j hk hrange hsum h.2
  rw [rsdp_candidate_eq, hv']
  simp

/-- C8 (witness of the amended statement): in `mem_ext`, flipping bit 3 of the
extended checksum byte (offset 32) of the accepted descriptor at 0xE0000. -/
theorem rsdp_bit_flip_rejected_witness :
    rsdp_candidate mem_ext 0xE0000 = some 0xE0000 ∧
    rsdp_candidate (flip_bit mem_ext (0xE0000 + 32) 3) 0xE0000 = none :=
  ⟨by decide, rsdp_bit_flip_rejected mem_ext 0xE0000 32 3 (by decide) (by decide) (by decide)
    (Or.inr (by decide))⟩

/-! ## Lemmas: root-table walk -/

theorem validate_acpi_sdt_checksum_iff (mem : PhysMem) (t : Nat) :
    validate_acpi_sdt_checksum mem t = true ↔
      0 < t ∧ byte_sum mem t (read32 mem (t + 4)) % 256 = 0 := by
  unfold validate_acpi_sdt_checksum
  by_cases h0 : t = 0
  · simp [h0]
  · simp [h0, OFF_SdtLength, checksum_loop_char_eq mem t _ 0 0 (by decide),
      Nat.pos_of_ne_zero h0]

/-- The three tests the entry loop makes on an entry pointer amount to
`sdt_entry_ok`. -/
theorem sdt_entry_tests (mem : PhysMem) (signature h : Nat) :
    (h ≠ 0 ∧ memcmp_custom (fun j => read8 mem (h + j)) (fun j => read8 mem (signature + j)) 4 = 0
      ∧ validate_acpi_sdt_checksum mem h = true) ↔ sdt_entry_ok mem signature h = true := by
  unfold sdt_entry_ok
  rw [memcmp_custom_bytes_eq, validate_acpi_sdt_checksum_iff]
  simp only [Bool.and_eq_true, decide_eq_true_eq, beq_iff_eq]
  constructor
  · rintro ⟨h1, h2, _, h4⟩; exact ⟨⟨h1, h2⟩, h4⟩
  · rintro ⟨⟨h1, h2⟩, h4⟩; exact ⟨h1, h2, Nat.pos_of_ne_zero h1, h4⟩

theorem sdt_loop_eq (mem : PhysMem) (root : Nat) (x : Bool) (signature entries : Nat)
    (n : Nat) :
    ∀ i, i + n = entries →
      sdt_loop mem root x signature entries n i =
        ((List.range n).map (fun k => sdt_entry mem root x (i + k))).find?
          (sdt_entry_ok mem signature) := by
  induction n with
  | zero => intro i _; rfl
  | succ n ih =>
    intro i hi
    have hlt : i < entries := by omega
    have hrest : sdt_loop mem root x signature entries n (i + 1) =
        ((List.range n).map ((fun k => sdt_entry mem root x (i + k)) ∘ Nat.succ)).find?
          (sdt_entry_ok mem signature) := by
      rw [ih (i + 1) (by omega)]
      congr 1
      apply List.map_congr_left
      intro k _
      simp only [Function.comp, Nat.succ_eq_add_one]
      congr 1
      omega
    simp only [sdt_loop, if_pos hlt, List.range_succ_eq_map, List.map_cons, List.map_map,
      List.find?_cons, Nat.add_zero, hrest]
    have htests := sdt_entry_tests mem signature (sdt_entry mem root x i)
    by_cases hok : sdt_entry_ok mem signature (sdt_entry mem root x i) = true
    · obtain ⟨h1, h2, h3⟩ := htests.mpr hok
      simp [hok, h1, h2, h3]
    · have hok' : sdt_entry_ok mem signature (sdt_entry mem root x i) = false := by
        simpa using hok
      rw [hok']
      by_cases h1 : sdt_entry mem root x i = 0
      · simp [h1]
      · by_cases h2 : memcmp_custom (fun j => read8 mem (sdt_entry mem root x i + j))
            (fun j => read8 mem (signature + j)) 4 = 0
        · have h3 : validate_acpi_sdt_checksum mem (sdt_entry mem root x i) = false := by
            rw [← Bool.not_eq_true]
            exact fun h3 => hok (htests.mp ⟨h1, h2, h3⟩)
          simp [h1, h2, h3]
        · simp [h1, h2]

/-- Result of `find_sdt_from_rsdp` once its root table is chosen and passes its
checksum: the first entry pointer, in array order, that satisfies the request. -/
theorem find_sdt_from_rsdp_eq_find (mem : PhysMem) (rsdp_ptr signature root : Nat) (x : Bool)
    (hr : rsdp_ptr ≠ 0) (hs : signature ≠ 0)
    (hsel : selected_root mem rsdp_ptr = some (root, x))
    (hck : validate_acpi_sdt_checksum mem root = true) :
    find_sdt_from_rsdp mem rsdp_ptr signature =
      ((List.range (sdt_entries mem root x)).map (sdt_entry mem root x)).find?
        (sdt_entry_ok mem signature) := by
  have hroot : root ≠ 0 := by
    have := ((validate_acpi_sdt_checksum_iff mem root).mp hck).1
    omega
  unfold selected_root at hsel
  unfold find_sdt_from_rsdp
  simp only [OFF_Revision, OFF_XsdtAddress, OFF_RsdtAddress]
  by_cases hx : 2 ≤ read8 mem (rsdp_ptr + 15) ∧ read64 mem (rsdp_ptr + 24) ≠ 0
  · rw [if_pos hx] at hsel
    simp only [Option.some.injEq, Prod.mk.injEq] at hsel
    obtain ⟨hroot_eq, hx_eq⟩ := hsel
    subst hx_eq
    have hcond : (read8 mem (rsdp_ptr + 15) ≥ 2 ∧ read8 mem (rsdp_ptr + 15) ≠ 0) ∧
        read64 mem (rsdp_ptr + 24) ≠ 0 := ⟨⟨hx.1, by omega⟩, hx.2⟩
    have hnv : ¬ (root = 0 ∨ validate_acpi_sdt_checksum mem root = false) := by
      simp [hroot, hck]
    rw [if_neg (not_or.mpr ⟨hr, hs⟩), if_pos hcond, hroot_eq, if_neg hnv,
      sdt_loop_eq mem root true signature _ _ 0 (by omega)]
    simp
  · rw [if_neg hx] at hsel
    have hcond : ¬ ((read8 mem (rsdp_ptr + 15) ≥ 2 ∧ read8 mem (rsdp_ptr + 15) ≠ 0) ∧
        read64 mem (rsdp_ptr + 24) ≠ 0) := fun h => hx ⟨h.1.1, h.2⟩
    by_cases hrs : read32 mem (rsdp_ptr + 16) ≠ 0
    · rw [if_pos hrs] at hsel
      simp only [Option.some.injEq, Prod.mk.injEq] at hsel
      obtain ⟨hroot_eq, hx_eq⟩ := hsel
      subst hx_eq
      have hnv : ¬ (root = 0 ∨ validate_acpi_sdt_checksum mem root = false) := by
        simp [hroot, hck]
      rw [if_neg (not_or.mpr ⟨hr, hs⟩), if_neg hcond, if_neg hrs,
        hroot_eq, if_neg hnv, sdt_loop_eq mem root false signature _ _ 0 (by omega)]
      simp
    · rw [if_neg hrs] at hsel
      simp at hsel

/-! ## Theorems: root-table walk -/

/-- C4. Given a root table that was selected for the descriptor and passed its
checksum, `find_sdt_from_rsdp` returns the first entry, in array order, that is
non-null, whose first 4 bytes equal the requested signature and whose bytes over
its declared length sum to 0 mod 256; it returns not-found exactly when no entry
of the array satisfies all three. Null entries and matching entries with an
invalid checksum are passed over. -/
theorem find_sdt_from_rsdp_first_match (mem : PhysMem) (rsdp_ptr signature root : Nat)
    (x : Bool) (hr : rsdp_ptr ≠ 0) (hs : signature ≠ 0)
    (hsel : selected_root mem rsdp_ptr = some (root, x))
    (hck : validate_acpi_sdt_checksum mem root = true) :
    find_sdt_from_rsdp mem rsdp_ptr signature =
      ((List.range (sdt_entries mem root x)).map (sdt_entry mem root x)).find?
        (sdt_entry_ok mem signature) ∧
    (find_sdt_from_rsdp mem rsdp_ptr signature = none ↔
      ∀ i, i < sdt_entries mem root x →
        sdt_entry_ok mem signature (sdt_entry mem root x i) = false) := by
  rw [find_sdt_from_rsdp_eq_find mem rsdp_ptr signature root x hr hs hsel hck]
  refine ⟨rfl, ?_⟩
  rw [List.find?_eq_none]
  simp

/-- C4 (witness) at `mem_tables`: the legacy root table at 0x2000 has the
entries null, 0x3000 (signature `"FACP"`, invalid checksum) and 0x4000 (signature
`"FACP"`, valid checksum); the call returns 0x4000. -/
theorem find_sdt_from_rsdp_first_match_witness :
    selected_root mem_tables 0x1000 = some (0x2000, false) ∧
    validate_acpi_sdt_checksum mem_tables 0x2000 = true ∧
    (List.range (sdt_entries mem_tables 0x2000 false)).map (sdt_entry mem_tables 0x2000 false)
      = [0, 0x3000, 0x4000] ∧
    sdt_entry_ok mem_tables 0x500 0x3000 = false ∧
    find_sdt_from_rsdp mem_tables 0x1000 0x500 = some 0x4000 ∧
    (find_sdt_from_rsdp mem_tables 0x1000 0x500 =
      ((List.range (sdt_entries mem_tables 0x2000 false)).map
        (sdt_entry mem_tables 0x2000 false)).find? (sdt_entry_ok mem_tables 0x500)) :=
  ⟨by decide, by decide, by decide, by decide, by decide,
    (find_sdt_from_rsdp_first_match mem_tables 0x1000 0x500 0x2000 false (by decide) (by decide)
      (by decide) (by decide)).1⟩

/-! ## Theorems: sequences of arena calls -/

theorem align16_capacity : align16 MEMORY_POOL_SIZE = MEMORY_POOL_SIZE := by decide

/-- At a full arena a request that cannot wrap fails unless it asks for 0 bytes. -/
theorem operator_new_arr_full (size : Nat) (hs : size + MEMORY_POOL_SIZE < SIZE_T_MOD) :
    operator_new_arr MEMORY_POOL_SIZE size =
      if size = 0 then { ptr := some MEMORY_POOL_SIZE, pool_index := MEMORY_POOL_SIZE }
      else { ptr := none, pool_index := MEMORY_POOL_SIZE } := by
  rw [operator_new_arr_no_wrap MEMORY_POOL_SIZE size (Nat.le_refl _)
    (by rw [align16_capacity]; omega), align16_capacity]
  by_cases h : size = 0
  · subst h; simp
  · have : ¬ (MEMORY_POOL_SIZE + size ≤ MEMORY_POOL_SIZE) := by omega
    simp [h, this]

/-- C19 (counterexample). With the cursor at the capacity, a request of 0 bytes
does not fail: it returns the non-null address one past the end of the pool. -/
theorem operator_new_arr_full_zero_size :
    operator_new_arr MEMORY_POOL_SIZE 0 =
      { ptr := some MEMORY_POOL_SIZE, pool_index := MEMORY_POOL_SIZE } := by
  decide

/-- C19 (amended). Once the cursor has reached the capacity, in every following
sequence of `operator new[]` and `operator delete[]` calls whose requests satisfy
`capacity + size < 2^32`, every `operator new[]` call leaves the cursor at the
capacity, fails when it asks for at least one byte, and returns the end-of-pool
address when it asks for 0 bytes. -/
theorem arena_exhausted_stays (calls : List ArenaCall)
    (hs : ∀ size, ArenaCall.new_arr size ∈ calls → size + MEMORY_POOL_SIZE < SIZE_T_MOD) :
    ∀ x ∈ arena_run MEMORY_POOL_SIZE calls,
      x.2.pool_index = MEMORY_POOL_SIZE ∧ (0 < x.1 → x.2.ptr = none) ∧
        (x.1 = 0 → x.2.ptr = some MEMORY_POOL_SIZE) := by
  induction calls with
  | nil => intro x hx; simp [arena_run] at hx
  | cons c cs ih =>
    have ih' := ih (fun size h => hs size (List.mem_cons_of_mem _ h))
    cases c with
    | delete_arr p =>
      intro x hx
      simp only [arena_run, operator_delete_arr] at hx
      exact ih' x hx
    | new_arr size =>
      have hfull := operator_new_arr_full size (hs size (List.mem_cons_self _ _))
      have hpi : (operator_new_arr MEMORY_POOL_SIZE size).pool_index = MEMORY_POOL_SIZE := by
        rw [hfull]; split <;> rfl
      intro x hx
      simp only [arena_run, hpi, List.mem_cons] at hx
      rcases hx with rfl | hx
      · refine ⟨hpi, fun hpos => ?_, fun hz => ?_⟩
        · simp only at hpos ⊢
          rw [hfull, if_neg (by omega)]
        · simp only at hz ⊢
          rw [hfull, if_pos hz]
      · exact ih' x hx

/-- C19 (witness of the amended statement): allocations of 16, 1, 0 and 1048576
bytes and a `delete[]` on a full arena. -/
theorem arena_exhausted_stays_witness :
    arena_run MEMORY_POOL_SIZE
      [ArenaCall.new_arr 16, ArenaCall.delete_arr (some 0), ArenaCall.new_arr 1,
        ArenaCall.new_arr 0, ArenaCall.new_arr 1048576] =
      [(16, { ptr := none, pool_index := MEMORY_POOL_SIZE }),
       (1, { ptr := none, pool_index := MEMORY_POOL_SIZE }),
       (0, { ptr := some MEMORY_POOL_SIZE, pool_index := MEMORY_POOL_SIZE }),
       (1048576, { ptr := none, pool_index := MEMORY_POOL_SIZE })] ∧
    ∀ x ∈ arena_run MEMORY_POOL_SIZE
      [ArenaCall.new_arr 16, ArenaCall.delete_arr (some 0), ArenaCall.new_arr 1,
        ArenaCall.new_arr 0, ArenaCall.new_arr 1048576],
      x.2.pool_index = MEMORY_POOL_SIZE ∧ (0 < x.1 → x.2.ptr = none) ∧
        (x.1 = 0 → x.2.ptr = some MEMORY_POOL_SIZE) :=
  ⟨by decide, arena_exhausted_stays _ (by simp [MEMORY_POOL_SIZE, SIZE_T_MOD])⟩

/-- One call with a request of at most the capacity: the cursor does not
decrease and stays within the pool, and a returned range starts at or after the
old cursor and ends at the new cursor. -/
theorem operator_new_arr_bounds (c size : Nat) (hc : c ≤ MEMORY_POOL_SIZE)
    (hs : size ≤ MEMORY_POOL_SIZE) :
    c ≤ (operator_new_arr c size).pool_index ∧
    (operator_new_arr c size).pool_index ≤ MEMORY_POOL_SIZE ∧
    ∀ p, (operator_new_arr c size).ptr = some p →
      c ≤ p ∧ p + size = (operator_new_arr c size).pool_index := by
  have hal : align16 c ≤ MEMORY_POOL_SIZE := by
    unfold align16; unfold MEMORY_POOL_SIZE at *; omega
  have hge := align16_ge c
  have hM : MEMORY_POOL_SIZE = 1048576 := rfl
  have hS : SIZE_T_MOD = 4294967296 := rfl
  rw [operator_new_arr_no_wrap c size hc (by omega)]
  by_cases hfit : align16 c + size ≤ MEMORY_POOL_SIZE
  · rw [if_pos hfit]
    refine ⟨by simp only; omega, hfit, fun p hp => ?_⟩
    simp only [Option.some.injEq] at hp
    subst hp
    exact ⟨hge, rfl⟩
  · rw [if_neg hfit]
    exact ⟨hge, hal, fun p hp => by simp at hp⟩

theorem arena_allocs_cons_new (c size : Nat) (cs : List ArenaCall) :
    arena_allocs c (ArenaCall.new_arr size :: cs) =
      (match (operator_new_arr c size).ptr with
        | some p => [(p, size)]
        | none => []) ++ arena_allocs (operator_new_arr c size).pool_index cs := by
  unfold arena_allocs
  simp only [arena_run, List.filterMap_cons]
  cases (operator_new_arr c size).ptr <;> simp

theorem arena_allocs_cons_delete (c : Nat) (p : Option Nat) (cs : List ArenaCall) :
    arena_allocs c (ArenaCall.delete_arr p :: cs) = arena_allocs c cs := by
  unfold arena_allocs
  simp only [arena_run, operator_delete_arr]

/-- Every allocation of a run starts at or after the initial cursor and ends
within the pool. -/
theorem arena_allocs_above (calls : List ArenaCall) :
    ∀ c, c ≤ MEMORY_POOL_SIZE →
      (∀ size, ArenaCall.new_arr size ∈ calls → size ≤ MEMORY_POOL_SIZE) →
      ∀ y ∈ arena_allocs c calls, c ≤ y.1 ∧ y.1 + y.2 ≤ MEMORY_POOL_SIZE := by
  induction calls with
  | nil => intro c _ _ y hy; simp [arena_allocs, arena_run] at hy
  | cons a cs ih =>
    intro c hc hs y hy
    have hs' : ∀ size, ArenaCall.new_arr size ∈ cs → size ≤ MEMORY_POOL_SIZE :=
      fun size h => hs size (List.mem_cons_of_mem _ h)
    cases a with
    | delete_arr p =>
      rw [arena_allocs_cons_delete] at hy
      exact ih c hc hs' y hy
    | new_arr size =>
      obtain ⟨h1, h2, h3⟩ := operator_new_arr_bounds c size hc (hs size (List.mem_cons_self _ _))
      rw [arena_allocs_cons_new, List.mem_append] at hy
      rcases hy with hy | hy
      · cases hptr : (operator_new_arr c size).ptr with
        | none => rw [hptr] at hy; simp at hy
        | some p =>
          rw [hptr] at hy
          simp only [List.mem_singleton] at hy
          subst hy
          have := h3 p hptr
          simp only
          omega
      · have := ih _ h2 hs' y hy
        omega

theorem arena_allocs_ordered (calls : List ArenaCall) :
    ∀ c, c ≤ MEMORY_POOL_SIZE →
      (∀ size, ArenaCall.new_arr size ∈ calls → size ≤ MEMORY_POOL_SIZE) →
      (arena_allocs c calls).Pairwise (fun x y => x.1 + x.2 ≤ y.1) := by
  induction calls with
  | nil => intro c _ _; simp [arena_allocs, arena_run]
  | cons a cs ih =>
    intro c hc hs
    have hs' : ∀ size, ArenaCall.new_arr size ∈ cs → size ≤ MEMORY_POOL_SIZE :=
      fun size h => hs size (List.mem_cons_of_mem _ h)
    cases a with
    | delete_arr p =>
      rw [arena_allocs_cons_delete]
      exact ih c hc hs'
    | new_arr size =>
      obtain ⟨h1, h2, h3⟩ := operator_new_arr_bounds c size hc (hs size (List.mem_cons_self _ _))
      rw [arena_allocs_cons_new]
      have hrest := ih _ h2 hs'
      cases hptr : (operator_new_arr c size).ptr with
      | none => simpa using hrest
      | some p =>
        simp only [List.singleton_append, List.pairwise_cons]
        refine ⟨fun y hy => ?_, hrest⟩
        have := arena_allocs_above cs _ h2 hs' y hy
        have := h3 p hptr
        omega

/-- C20. In every sequence of `operator new[]` / `operator delete[]` calls started
with the cursor inside the pool and with every request at most the capacity, any
two successful allocations, the earlier `x` and the later `y`, satisfy
`x.offset + x.size <= y.offset`: their byte ranges have no byte in common,
whatever `delete[]` calls come in between. -/
theorem arena_allocations_disjoint (c : Nat) (calls : List ArenaCall)
    (hc : c ≤ MEMORY_POOL_SIZE)
    (hs : ∀ size, ArenaCall.new_arr size ∈ calls → size ≤ MEMORY_POOL_SIZE) :
    (arena_allocs c calls).Pairwise (fun x y => x.1 + x.2 ≤ y.1 ∧ ranges_disjoint x y) := by
  refine (arena_allocs_ordered calls c hc hs).imp ?_
  intro x y hxy
  refine ⟨hxy, fun b hb => ?_⟩
  omega

/-- C20 (witness): three allocations with a `delete[]` of the first in between. -/
theorem arena_allocations_disjoint_witness :
    arena_allocs 0
      [ArenaCall.new_arr 10, ArenaCall.delete_arr (some 0), ArenaCall.new_arr 20,
        ArenaCall.new_arr 1048576, ArenaCall.new_arr 5] = [(0, 10), (16, 20), (48, 5)] ∧
    (arena_allocs 0
      [ArenaCall.new_arr 10, ArenaCall.delete_arr (some 0), ArenaCall.new_arr 20,
        ArenaCall.new_arr 1048576, ArenaCall.new_arr 5]).Pairwise
      (fun x y => x.1 + x.2 ≤ y.1 ∧ ranges_disjoint x y) :=
  ⟨by decide, arena_allocations_disjoint 0 _ (by decide) (by simp [MEMORY_POOL_SIZE])⟩

/-! ## Theorems: growth policy of `push_back` -/

/-- C11 (counterexample). A `vector<char>` built with capacity 1 and holding one
element is full; its next `push_back` grows (the allocation succeeds) to capacity
2, whereas `max(10, 2 * 1)` is 10. -/
theorem push_back_growth_from_one :
    ∃ (h : Heap Nat) (v : vector),
      (h, v) = (fun (s : Heap Nat × vector) => push_back 1 s.1 s.2 7)
        (vector_with_capacity 1 (empty_heap Nat) 1) ∧
      v.current_size = v.cap ∧ v.cap = 1 ∧
      growth_alloc_ok 1 h v = true ∧
      (push_back 1 h v 8).2.cap = 2 ∧
      max 10 (2 * v.cap) = 10 :=
  ⟨_, _, rfl, by decide, by decide, by decide, by decide, by decide⟩

/-- C11 (amended). Whenever `push_back` is called with `size == capacity`, an old
capacity below `2^31`, and the growth allocation succeeds, the capacity afterwards
is 10 when the old capacity is 0 and `2 * old capacity` otherwise (so 2, 4, 6, 8
for the old capacities 1..4). -/
theorem push_back_growth_capacity {α : Type} (szT : Nat) (h : Heap α) (v : vector) (x : α)
    (hfull : v.current_size = v.cap) (hcap : v.cap * 2 < SIZE_T_MOD)
    (hok : growth_alloc_ok szT h v = true) :
    (push_back szT h v x).2.cap = if v.cap = 0 then 10 else 2 * v.cap := by
  have hnc : push_back_new_cap v = if v.cap = 0 then 10 else 2 * v.cap := by
    unfold push_back_new_cap
    split
    · rfl
    · rw [Nat.mod_eq_of_lt hcap, Nat.mul_comm]
  have hn1 : v.cap < push_back_new_cap v := by rw [hnc]; split <;> omega
  have hsome : ((allocate_raw szT h.pool_index (push_back_new_cap v)).ptr).isSome = true := by
    simpa [growth_alloc_ok, hfull] using hok
  obtain ⟨a, ha⟩ := Option.isSome_iff_exists.mp hsome
  have hpb : (push_back szT h v x).2.cap = push_back_new_cap v := by
    simp [push_back, hfull, reserve, hn1, ha, push_back_tail, push_back_construct]
  rw [hpb, hnc]

/-- C11 (witness of the amended statement): the full `vector<char>` of capacity 1
grows to capacity 2. -/
theorem push_back_growth_capacity_witness :
    (push_back 1 ({ pool_index := 1, mem := fun a => if a = 0 then some 7 else none } : Heap Nat)
      { arr := some 0, current_size := 1, cap := 1 } 8).2.cap = 2 :=
  push_back_growth_capacity 1 _ { arr := some 0, current_size := 1, cap := 1 } 8
    (by decide) (by decide) (by decide)

/-! ## Lemmas: power management -/

theorem pm1a_cnt_val_eq : (SLP_TYP_S5_PM1_CNT ||| SLP_EN_PM1_CNT) % 65536 = 0x3400 := by decide

theorem find_rsdp_ne_zero (mem : PhysMem) (p : Nat) (h : find_rsdp mem = some p) : p ≠ 0 := by
  rw [find_rsdp_eq_find] at h
  have hmem := List.mem_of_find?_eq_some h
  unfold rsdp_search_order at hmem
  rw [List.mem_append] at hmem
  rcases hmem with hm | hm
  · by_cases h0 : read16 mem 0x40E = 0
    · simp [h0] at hm
    · rw [if_neg h0, List.mem_map] at hm
      obtain ⟨k, _, rfl⟩ := hm
      omega
  · rw [List.mem_map] at hm
    obtain ⟨k, _, rfl⟩ := hm
    omega

theorem sdt_loop_ne_zero (mem : PhysMem) (root : Nat) (x : Bool) (signature entries : Nat)
    (fuel : Nat) :
    ∀ i h, sdt_loop mem root x signature entries fuel i = some h → h ≠ 0 := by
  induction fuel with
  | zero => intro i h hh; simp [sdt_loop] at hh
  | succ n ih =>
    intro i h hh
    simp only [sdt_loop] at hh
    split at hh
    · split at hh
      · exact ih _ _ hh
      · split at hh
        · split at hh
          · simp only [Option.some.injEq] at hh
            subst hh
            assumption
          · exact ih _ _ hh
        · exact ih _ _ hh
    · simp at hh

/-- The body of `find_sdt_from_rsdp` after the null checks: the selection of
`selected_root`, then validation and walk of the selected table. -/
theorem find_sdt_from_rsdp_eq_walk (mem : PhysMem) (rsdp_ptr signature : Nat)
    (hr : rsdp_ptr ≠ 0) (hs : signature ≠ 0) :
    find_sdt_from_rsdp mem rsdp_ptr signature =
      match selected_root mem rsdp_ptr with
      | none => none
      | some (root, x) => walk_root mem root x signature := by
  unfold find_sdt_from_rsdp selected_root walk_root
  simp only [OFF_Revision, OFF_XsdtAddress, OFF_RsdtAddress]
  rw [if_neg (not_or.mpr ⟨hr, hs⟩)]
  by_cases hx : 2 ≤ read8 mem (rsdp_ptr + 15) ∧ read64 mem (rsdp_ptr + 24) ≠ 0
  · have hcond : (read8 mem (rsdp_ptr + 15) ≥ 2 ∧ read8 mem (rsdp_ptr + 15) ≠ 0) ∧
        read64 mem (rsdp_ptr + 24) ≠ 0 := ⟨⟨hx.1, by omega⟩, hx.2⟩
    rw [if_pos hcond, if_pos hx]
  · have hcond : ¬ ((read8 mem (rsdp_ptr + 15) ≥ 2 ∧ read8 mem (rsdp_ptr + 15) ≠ 0) ∧
        read64 mem (rsdp_ptr + 24) ≠ 0) := fun h => hx ⟨h.1.1, h.2⟩
    rw [if_neg hcond, if_neg hx]
    by_cases hrs : read32 mem (rsdp_ptr + 16) = 0
    · simp [hrs]
    · simp [hrs]

theorem find_sdt_from_rsdp_ne_zero (mem : PhysMem) (rsdp_ptr signature t : Nat)
    (h : find_sdt_from_rsdp mem rsdp_ptr signature = some t) : t ≠ 0 := by
  have hr : rsdp_ptr ≠ 0 := by
    intro h0; simp [find_sdt_from_rsdp, h0] at h
  have hs : signature ≠ 0 := by
    intro h0; simp [find_sdt_from_rsdp, h0] at h
  rw [find_sdt_from_rsdp_eq_walk mem rsdp_ptr signature hr hs] at h
  cases hsel : selected_root mem rsdp_ptr with
  | none => rw [hsel] at h; simp at h
  | some rx =>
    obtain ⟨root, x⟩ := rx
    rw [hsel] at h
    simp only [walk_root] at h
    split at h
    · simp at h
    · exact sdt_loop_ne_zero _ _ _ _ _ _ _ _ h

theorem acpi_enable_poll_reads (port : Nat) (env : Nat → Nat) (fuel : Nat) :
    ∀ k, ∀ e ∈ (acpi_enable_poll port env fuel k).1, e = Effect.inw port := by
  induction fuel with
  | zero => intro k e he; simp [acpi_enable_poll] at he
  | succ n ih =>
    intro k e he
    simp only [acpi_enable_poll] at he
    split at he
    · split at he
      · simpa using he
      · simp only [List.mem_cons] at he
        rcases he with rfl | he
        · rfl
        · exact ih _ _ he
    · simp at he

/-! ## Theorems: `acpi_power_off` and `acpi_init` -/

/-- C12. Every 16-bit value `acpi_power_off` writes with `outw` is
`SLP_TYP_S5_PM1_CNT | SLP_EN_PM1_CNT = (5 << 10) | (1 << 13) = 0x3400`: its set
bits are exactly the bits 10 and 12 (the pattern 5 in bits 10-12) and bit 13. -/
theorem acpi_power_off_value (mem : PhysMem) (g_fadt status port val : Nat)
    (h : Effect.outw port val ∈ (acpi_power_off mem g_fadt status).trace) :
    val = 0x3400 ∧ val = SLP_TYP_S5_PM1_CNT ||| SLP_EN_PM1_CNT ∧
    SLP_TYP_S5_PM1_CNT = 5 * 2 ^ 10 ∧ SLP_EN_PM1_CNT = 2 ^ 13 ∧
    (val / 2 ^ 10) % 8 = 5 ∧ (val / 2 ^ 13) % 2 = 1 ∧ val % 2 ^ 10 = 0 ∧ val / 2 ^ 14 = 0 := by
  have hv : val = 0x3400 := by
    unfold acpi_power_off at h
    simp only [pm1a_cnt_val_eq] at h
    split at h
    · simp at h
    · split at h
      · simp at h
      · simp only [List.mem_append, List.mem_cons, List.mem_singleton] at h
        rcases h with (h | h) | h
        · split at h <;> simp at h
        · rcases h with h | h | h
          · simp at h
          · simp only [Effect.outw.injEq] at h; exact h.2
          · simp at h
        · split at h
          · simp only [List.mem_singleton, Effect.outw.injEq] at h; exact h.2
          · simp at h
  subst hv
  decide

/-- C12 (witness): the write to the PM1a control port 0x604 in `mem_power`. -/
theorem acpi_power_off_value_witness :
    Effect.outw 0x604 0x3400 ∈ (acpi_power_off mem_power 0x4000 1).trace ∧
    (0x3400 / 2 ^ 10) % 8 = 5 ∧ (0x3400 / 2 ^ 13) % 2 = 1 ∧ 0x3400 % 2 ^ 10 = 0 ∧
      0x3400 / 2 ^ 14 = 0 :=
  ⟨by decide,
    (acpi_power_off_value mem_power 0x4000 1 0x604 0x3400 (by decide)).2.2.2.2⟩

/-- C13. When a power table is stored and its `PM1aControlBlock` is non-zero,
`acpi_power_off` performs, whatever value the status read returns, exactly these
effects in this order: the status read (only when `PM1aEventBlock` is non-zero),
the interrupt disable, the write of 0x3400 to the PM1a control port, the write of
0x3400 to the PM1b control port if and only if `PM1bControlBlock` is non-zero and
differs from `PM1aControlBlock`; then it halts and never returns. -/
theorem acpi_power_off_effect_order (mem : PhysMem) (g_fadt status : Nat)
    (hg : g_fadt ≠ 0) (ha : read32 mem (g_fadt + 64) ≠ 0) :
    (acpi_power_off mem g_fadt status).trace =
      (if read32 mem (g_fadt + 56) ≠ 0 then [Effect.inw (read32 mem (g_fadt + 56) % 65536)]
        else []) ++
      [Effect.cli, Effect.outw (read32 mem (g_fadt + 64) % 65536) 0x3400] ++
      (if read32 mem (g_fadt + 68) ≠ 0 ∧ read32 mem (g_fadt + 68) ≠ read32 mem (g_fadt + 64)
        then [Effect.outw (read32 mem (g_fadt + 68) % 65536) 0x3400] else []) ∧
    (acpi_power_off mem g_fadt status).outcome = Outcome.halted := by
  unfold acpi_power_off
  simp only [OFF_PM1aControlBlock, OFF_PM1aEventBlock, OFF_PM1bControlBlock, pm1a_cnt_val_eq]
  rw [if_neg hg, if_neg ha]
  exact ⟨rfl, rfl⟩

/-- C13 (witness) at `mem_power`, where PM1b (0x608) differs from PM1a (0x604),
for a status value with bit 0 clear. -/
theorem acpi_power_off_effect_order_witness :
    (acpi_power_off mem_power 0x4000 0).trace =
      [Effect.inw 0x600, Effect.cli, Effect.outw 0x604 0x3400, Effect.outw 0x608 0x3400] ∧
    (acpi_power_off mem_power 0x4000 0).outcome = Outcome.halted ∧
    ((acpi_power_off mem_power 0x4000 0).trace =
      (if read32 mem_power (0x4000 + 56) ≠ 0
        then [Effect.inw (read32 mem_power (0x4000 + 56) % 65536)] else []) ++
      [Effect.cli, Effect.outw (read32 mem_power (0x4000 + 64) % 65536) 0x3400] ++
      (if read32 mem_power (0x4000 + 68) ≠ 0 ∧
          read32 mem_power (0x4000 + 68) ≠ read32 mem_power (0x4000 + 64)
        then [Effect.outw (read32 mem_power (0x4000 + 68) % 65536) 0x3400] else [])) :=
  ⟨by decide, by decide,
    (acpi_power_off_effect_order mem_power 0x4000 0 (by decide) (by decide)).1⟩

/-- C14. `acpi_power_off` either finds no stored power table or a zero
`PM1aControlBlock`, and then returns with no port write, no port read and no
interrupt disable; or it finds both non-zero, and then it does not return. So it
returns exactly in those two cases. -/
theorem acpi_power_off_returns_iff (mem : PhysMem) (g_fadt status : Nat) :
    (((g_fadt = 0 ∨ read32 mem (g_fadt + 64) = 0) ∧
        (acpi_power_off mem g_fadt status).trace = [] ∧
        (acpi_power_off mem g_fadt status).outcome = Outcome.returned) ∨
      ((0 < g_fadt ∧ 0 < read32 mem (g_fadt + 64)) ∧
        (acpi_power_off mem g_fadt status).outcome = Outcome.halted)) ∧
    ((acpi_power_off mem g_fadt status).outcome = Outcome.returned ↔
      (g_fadt = 0 ∨ read32 mem (g_fadt + 64) = 0)) := by
  unfold acpi_power_off
  simp only [OFF_PM1aControlBlock]
  by_cases hg : g_fadt = 0
  · simp [hg]
  · by_cases ha : read32 mem (g_fadt + 64) = 0
    · simp [hg, ha]
    · simp [hg, ha, Nat.pos_of_ne_zero hg, Nat.pos_of_ne_zero ha]

/-- C15. When the root descriptor and then the `"FACP"` table `t` are found,
`acpi_init` stores `t` (non-null) in `g_fadt`. If `SMI_CommandPort`, `AcpiEnable`
and `PM1aEventBlock` are all non-zero, its port effects are one `outb` of
`AcpiEnable` to the SMI command port followed only by reads of the event-block
status register; if one of the three is zero, it performs no port access. -/
theorem acpi_init_found (mem : PhysMem) (g_fadt facp : Nat) (env : Nat → Nat) (rsdp t : Nat)
    (hr : find_rsdp mem = some rsdp) (ht : find_sdt_from_rsdp mem rsdp facp = some t) :
    (acpi_init mem g_fadt facp env).g_fadt = t ∧ t ≠ 0 ∧
    ((read32 mem (t + 48) ≠ 0 ∧ read8 mem (t + 52) ≠ 0 ∧ read32 mem (t + 56) ≠ 0) →
      ∃ reads, (acpi_init mem g_fadt facp env).trace =
          Effect.outb (read32 mem (t + 48) % 65536) (read8 mem (t + 52)) :: reads ∧
        ∀ e ∈ reads, e = Effect.inw (read32 mem (t + 56) % 65536)) ∧
    (¬ (read32 mem (t + 48) ≠ 0 ∧ read8 mem (t + 52) ≠ 0 ∧ read32 mem (t + 56) ≠ 0) →
      (acpi_init mem g_fadt facp env).trace = []) := by
  have hrn := find_rsdp_ne_zero mem rsdp hr
  have htn := find_sdt_from_rsdp_ne_zero mem rsdp facp t ht
  unfold acpi_init
  simp only [hr, Option.getD_some, ht, OFF_SMI_CommandPort, OFF_AcpiEnable, OFF_PM1aEventBlock]
  rw [if_neg hrn, if_pos htn]
  by_cases hall : read32 mem (t + 48) ≠ 0 ∧ read8 mem (t + 52) ≠ 0 ∧ read32 mem (t + 56) ≠ 0
  · rw [if_pos hall]
    refine ⟨rfl, htn, fun _ => ⟨_, rfl, fun e he => ?_⟩, fun hn => absurd hall hn⟩
    rw [List.mem_append] at he
    rcases he with he | he
    · exact acpi_enable_poll_reads _ _ _ _ e he
    · split at he
      · simp at he
      · simpa using he
  · rw [if_neg hall]
    exact ⟨rfl, htn, fun h => absurd h hall, fun _ => rfl⟩

set_option maxRecDepth 20000 in
/-- C15 (witness) at `mem_power`: the first status read has bit 0 set. -/
theorem acpi_init_found_witness :
    acpi_init mem_power 0 0x500 (fun _ => 1) =
      { g_fadt := 0x4000, trace := [Effect.outb 0xB2 0xA0, Effect.inw 0x600],
        sci_enabled := true } ∧
    (acpi_init mem_power 0 0x500 (fun _ => 1)).g_fadt = 0x4000 :=
  ⟨by decide,
    (acpi_init_found mem_power 0 0x500 (fun _ => 1) 0x1000 0x4000 (by decide) (by decide)).1⟩

/-- C16. Called with `g_fadt` null, if the root descriptor is not found, or it is
found but `find_sdt_from_rsdp` finds no valid `"FACP"` table, `acpi_init` leaves
`g_fadt` null and performs no port access; `acpi_power_off` called afterwards
returns without any port access. -/
theorem acpi_init_not_found (mem : PhysMem) (facp : Nat) (env : Nat → Nat) (status : Nat)
    (h : find_rsdp mem = none ∨
      ∃ rsdp, find_rsdp mem = some rsdp ∧ find_sdt_from_rsdp mem rsdp facp = none) :
    (acpi_init mem 0 facp env).g_fadt = 0 ∧ (acpi_init mem 0 facp env).trace = [] ∧
    acpi_power_off mem (acpi_init mem 0 facp env).g_fadt status =
      { trace := [], warned := false, outcome := Outcome.returned } := by
  have key : (acpi_init mem 0 facp env).g_fadt = 0 ∧ (acpi_init mem 0 facp env).trace = [] := by
    unfold acpi_init
    rcases h with h | ⟨rsdp, h1, h2⟩
    · simp [h]
    · simp only [h1, Option.getD_some, h2, Option.getD_none]
      split <;> simp
  refine ⟨key.1, key.2, ?_⟩
  rw [key.1]
  simp [acpi_power_off]

set_option maxRecDepth 20000 in
/-- C16 (witness) at `mem_no_facp`: the root descriptor is found at 0x1000 and
the root table lists no `"FACP"` table. -/
theorem acpi_init_not_found_witness :
    find_rsdp mem_no_facp = some 0x1000 ∧
    find_sdt_from_rsdp mem_no_facp 0x1000 0x500 = none ∧
    (acpi_init mem_no_facp 0 0x500 (fun _ => 1)).g_fadt = 0 ∧
    (acpi_init mem_no_facp 0 0x500 (fun _ => 1)).trace = [] ∧
    acpi_power_off mem_no_facp (acpi_init mem_no_facp 0 0x500 (fun _ => 1)).g_fadt 1 =
      { trace := [], warned := false, outcome := Outcome.returned } :=
  ⟨by decide, by decide,
    acpi_init_not_found mem_no_facp 0x500 (fun _ => 1) 1
      (Or.inr ⟨0x1000, by decide, by decide⟩)⟩

/-! ## Theorems: root-table selection -/

set_option maxRecDepth 20000 in
/-- C17 (counterexample). In `mem_high_xsdt` the descriptor has revision 2 and the
non-zero `XsdtAddress` 0x100000000; the extended root table at that address is
valid and lists the valid `"FACP"` table at 0x4000, so a walk of it finds 0x4000.
`find_sdt_from_rsdp` converts the address to the 32-bit pointer 0 and returns
not-found, without walking either root table. -/
theorem find_sdt_from_rsdp_high_xsdt :
    claimed_root mem_high_xsdt 0x1000 = some (0x100000000, true) ∧
    walk_root mem_high_xsdt 0x100000000 true 0x500 = some 0x4000 ∧
    walk_root mem_high_xsdt 0x2000 false 0x500 = some 0x4000 ∧
    find_sdt_from_rsdp mem_high_xsdt 0x1000 0x500 = none := by
  decide

/-- C17 (amended). `find_sdt_from_rsdp` selects the extended root table (8-byte
entries) if and only if the revision is at least 2 and `XsdtAddress` is non-zero,
and then uses `XsdtAddress` modulo `2^32` as its address; otherwise it selects the
legacy root table (address `RsdtAddress`, 4-byte entries) if `RsdtAddress` is
non-zero; otherwise it returns not-found. The selected table is validated and
walked. -/
theorem find_sdt_from_rsdp_root_choice (mem : PhysMem) (rsdp_ptr signature : Nat)
    (hr : rsdp_ptr ≠ 0) (hs : signature ≠ 0) :
    find_sdt_from_rsdp mem rsdp_ptr signature =
      match claimed_root mem rsdp_ptr with
      | none => none
      | some (root, x) => walk_root mem (root % 4294967296) x signature := by
  rw [find_sdt_from_rsdp_eq_walk mem rsdp_ptr signature hr hs]
  unfold selected_root claimed_root
  by_cases hx : 2 ≤ read8 mem (rsdp_ptr + 15) ∧ read64 mem (rsdp_ptr + 24) ≠ 0
  · rw [if_pos hx, if_pos hx]
  · rw [if_neg hx, if_neg hx]
    by_cases hrs : read32 mem (rsdp_ptr + 16) ≠ 0
    · rw [if_pos hrs]
      have h1 := read8_lt mem (rsdp_ptr + 16)
      have h2 := read8_lt mem (rsdp_ptr + 16 + 1)
      have h3 := read8_lt mem (rsdp_ptr + 16 + 2)
      have h4 := read8_lt mem (rsdp_ptr + 16 + 3)
      have hlt : read32 mem (rsdp_ptr + 16) < 4294967296 := by
        unfold read32; omega
      simp only [Nat.mod_eq_of_lt hlt]
    · rw [if_neg hrs]

set_option maxRecDepth 20000 in
/-- C17 (witness of the amended statement) at `mem_tables`, whose revision-0
descriptor selects the legacy root table at 0x2000. -/
theorem find_sdt_from_rsdp_root_choice_witness :
    claimed_root mem_tables 0x1000 = some (0x2000, false) ∧
    find_sdt_from_rsdp mem_tables 0x1000 0x500 = walk_root mem_tables 0x2000 false 0x500 :=
  ⟨by decide,
    (find_sdt_from_rsdp_root_choice mem_tables 0x1000 0x500 (by decide) (by decide)).trans
      (by decide)⟩

/-- C18. If the root table selected by `find_sdt_from_rsdp` does not sum to 0
mod 256 over its declared length, `find_sdt_from_rsdp` returns not-found, whatever
the entries of that table and whatever the other root table contain. -/
theorem find_sdt_from_rsdp_invalid_root (mem : PhysMem) (rsdp_ptr signature root : Nat)
    (x : Bool) (hsel : selected_root mem rsdp_ptr = some (root, x))
    (hbad : byte_sum mem root (read32 mem (root + 4)) % 256 ≠ 0) :
    find_sdt_from_rsdp mem rsdp_ptr signature = none := by
  by_cases hr : rsdp_ptr = 0
  · simp [find_sdt_from_rsdp, hr]
  · by_cases hs : signature = 0
    · simp [find_sdt_from_rsdp, hs]
    · rw [find_sdt_from_rsdp_eq_walk mem rsdp_ptr signature hr hs, hsel]
      have hv : validate_acpi_sdt_checksum mem root = false := by
        rw [← Bool.not_eq_true]
        intro hv
        exact hbad ((validate_acpi_sdt_checksum_iff mem root).mp hv).2
      simp [walk_root, hv]

set_option maxRecDepth 20000 in
/-- C18 (witness) at `mem_bad_xsdt`: the selected extended root table at 0x6000
has a wrong checksum, the legacy root table at 0x2000 is valid and a walk of it
would find the `"FACP"` table at 0x4000; the call returns not-found. -/
theorem find_sdt_from_rsdp_invalid_root_witness :
    selected_root mem_bad_xsdt 0x1000 = some (0x6000, true) ∧
    byte_sum mem_bad_xsdt 0x6000 (read32 mem_bad_xsdt (0x6000 + 4)) % 256 ≠ 0 ∧
    walk_root mem_bad_xsdt 0x2000 false 0x500 = some 0x4000 ∧
    find_sdt_from_rsdp mem_bad_xsdt 0x1000 0x500 = none :=
  ⟨by decide, by decide, by decide,
    find_sdt_from_rsdp_invalid_root mem_bad_xsdt 0x1000 0x500 0x6000 true (by decide)
      (by decide)⟩

/-! ## Theorems: successive allocations and `operator delete[]` -/

/-- C21. For every arena state with the cursor inside the pool in which two
successive 16-byte allocations both succeed, the second returned address is the
first plus 16: the two 16-byte ranges are adjacent and have no byte in common. -/
theorem two_allocations_adjacent (c p1 p2 : Nat) (hc : c ≤ MEMORY_POOL_SIZE)
    (h1 : (operator_new_arr c 16).ptr = some p1)
    (h2 : (operator_new_arr (operator_new_arr c 16).pool_index 16).ptr = some p2) :
    p2 = p1 + 16 ∧ ranges_disjoint (p1, 16) (p2, 16) := by
  have hM : MEMORY_POOL_SIZE = 1048576 := rfl
  have hS : SIZE_T_MOD = 4294967296 := rfl
  have hal : align16 c ≤ MEMORY_POOL_SIZE := by
    unfold align16; omega
  have hw := operator_new_arr_no_wrap c 16 hc (by omega)
  by_cases hfit : align16 c + 16 ≤ MEMORY_POOL_SIZE
  · rw [hw, if_pos hfit] at h1 h2
    simp only [Option.some.injEq] at h1
    have ha2 : align16 (align16 c + 16) = align16 c + 16 := by
      unfold align16; omega
    have hw2 := operator_new_arr_no_wrap (align16 c + 16) 16 hfit (by rw [ha2]; omega)
    rw [hw2, ha2] at h2
    by_cases hfit2 : align16 c + 16 + 16 ≤ MEMORY_POOL_SIZE
    · rw [if_pos hfit2] at h2
      simp only [Option.some.injEq] at h2
      refine ⟨by omega, fun b hb => ?_⟩
      simp only at hb
      omega
    · rw [if_neg hfit2] at h2
      simp at h2
  · rw [hw, if_neg hfit] at h1
    simp at h1

/-- C21 (witness): from the cursor 5 the two allocations return the offsets 16
and 32. -/
theorem two_allocations_adjacent_witness :
    (operator_new_arr 5 16).ptr = some 16 ∧
    (operator_new_arr (operator_new_arr 5 16).pool_index 16).ptr = some 32 ∧
    (32 = 16 + 16 ∧ ranges_disjoint (16, 16) (32, 16)) :=
  ⟨by decide, by decide, two_allocations_adjacent 5 16 32 (by decide) (by decide) (by decide)⟩

theorem arena_run_append_delete (ptr : Option Nat) (post : List ArenaCall)
    (pre : List ArenaCall) :
    ∀ c, arena_run c (pre ++ ArenaCall.delete_arr ptr :: post) = arena_run c (pre ++ post) := by
  induction pre with
  | nil => intro c; simp [arena_run, operator_delete_arr]
  | cons a pre ih =>
    intro c
    cases a with
    | new_arr size =>
      show (size, operator_new_arr c size) ::
          arena_run (operator_new_arr c size).pool_index
            (pre ++ ArenaCall.delete_arr ptr :: post) =
        (size, operator_new_arr c size) ::
          arena_run (operator_new_arr c size).pool_index (pre ++ post)
      rw [ih]
    | delete_arr q =>
      show arena_run (operator_delete_arr c q) (pre ++ ArenaCall.delete_arr ptr :: post) =
        arena_run (operator_delete_arr c q) (pre ++ post)
      rw [ih]

/-- C28. `operator delete[]` leaves the cursor as it is for every pointer, and the
outcome of every `operator new[]` call of a sequence of arena calls is the same
with the `delete[]` call as without it. The function has no access to the
contents of the pool. -/
theorem operator_delete_arr_no_op (c : Nat) (ptr : Option Nat) (pre post : List ArenaCall) :
    operator_delete_arr c ptr = c ∧
    arena_run (operator_delete_arr c ptr) post = arena_run c post ∧
    arena_run c (pre ++ ArenaCall.delete_arr ptr :: post) = arena_run c (pre ++ post) :=
  ⟨rfl, rfl, arena_run_append_delete ptr post pre c⟩

/-! ## Theorems: byte count of a vector buffer -/

/-- C27 (code evaluated at the failing input). `reserve(1073741825)` on an empty
`vector<int>` (element size 4) in the empty arena: the mathematical byte count is
4294967300, the code requests `4 * 1073741825` reduced modulo `2^32`, i.e. 4
bytes; the allocation succeeds, the arena cursor advances by 4, and the vector
records the capacity 1073741825. -/
theorem reserve_byte_count_wraps :
    4 * 1073741825 = 4294967300 ∧
    allocate_raw 4 0 1073741825 = operator_new_arr 0 4 ∧
    (reserve 4 (empty_heap Nat) vector_default 1073741825).2 =
      { arr := some 0, current_size := 0, cap := 1073741825 } ∧
    (reserve 4 (empty_heap Nat) vector_default 1073741825).1.pool_index = 4 := by
  decide

/-! ## Theorems: `pop_back` -/

/-- C26. `pop_back` on a vector with `n > 0` elements leaves size `n - 1`, the
same buffer and capacity, the elements at the indices below `n - 1` unchanged and
no live element at index `n - 1`; on an empty vector it changes nothing. -/
theorem pop_back_spec {α : Type} (szT : Nat) (h : Heap α) (v : vector) (hs : 0 < szT) :
    (0 < v.current_size →
      (pop_back szT h v).2 =
        { arr := v.arr, current_size := v.current_size - 1, cap := v.cap } ∧
      (∀ i, i < v.current_size - 1 →
        vector_index szT (pop_back szT h v).1 (pop_back szT h v).2 i = vector_index szT h v i) ∧
      vector_index szT (pop_back szT h v).1 (pop_back szT h v).2 (v.current_size - 1) = none) ∧
    (v.current_size = 0 → pop_back szT h v = (h, v)) := by
  constructor
  · intro hpos
    have hpb : pop_back szT h v =
        ({ h with mem := destroy_at h.mem (ptr_add szT v.arr (v.current_size - 1)) },
         { v with current_size := v.current_size - 1 }) := by
      simp [pop_back, hpos]
    rw [hpb]
    cases hp : v.arr with
    | none =>
      refine ⟨by simp [hp], fun i _ => ?_, ?_⟩ <;>
        simp [vector_index, hp, ptr_add, load, destroy_at, construct_at]
    | some p =>
      refine ⟨by simp [hp], fun i hi => ?_, ?_⟩
      · have h2 := slot_step szT i (v.current_size - 1) hi
        have h3 : p + i * szT ≠ p + (v.current_size - 1) * szT := by omega
        simp [vector_index, hp, ptr_add, load, destroy_at, construct_at, h3]
      · simp [vector_index, hp, ptr_add, load, destroy_at, construct_at]
  · intro h0
    simp [pop_back, h0]

/-- C26 (witness): `pop_back` after three `push_back` calls on a `vector<char>`
removes the element 3 and keeps 1 and 2. -/
theorem pop_back_spec_witness :
    (pop_back 1 (push_back_list 1 (empty_heap Nat) vector_default [1, 2, 3]).1
      (push_back_list 1 (empty_heap Nat) vector_default [1, 2, 3]).2).2 =
      { arr := some 0, current_size := 2, cap := 10 } ∧
    vector_index 1
      (pop_back 1 (push_back_list 1 (empty_heap Nat) vector_default [1, 2, 3]).1
        (push_back_list 1 (empty_heap Nat) vector_default [1, 2, 3]).2).1
      (pop_back 1 (push_back_list 1 (empty_heap Nat) vector_default [1, 2, 3]).1
        (push_back_list 1 (empty_heap Nat) vector_default [1, 2, 3]).2).2 1 = some 2 ∧
    vector_index 1
      (pop_back 1 (push_back_list 1 (empty_heap Nat) vector_default [1, 2, 3]).1
        (push_back_list 1 (empty_heap Nat) vector_default [1, 2, 3]).2).1
      (pop_back 1 (push_back_list 1 (empty_heap Nat) vector_default [1, 2, 3]).1
        (push_back_list 1 (empty_heap Nat) vector_default [1, 2, 3]).2).2 2 = none :=
  ⟨by decide, by decide,
    ((pop_back_spec 1 (push_back_list 1 (empty_heap Nat) vector_default [1, 2, 3]).1
      (push_back_list 1 (empty_heap Nat) vector_default [1, 2, 3]).2 (by decide)).1
      (by decide)).2.2⟩

/-! ## Lemmas: copy, move and resize loops -/

/-- A pointer returned by `allocate_raw` is the aligned cursor, at or after the
old cursor, whether or not the byte count wrapped. -/
theorem allocate_raw_ptr_ge (szT c n a : Nat) (hc : c ≤ MEMORY_POOL_SIZE)
    (h : (allocate_raw szT c n).ptr = some a) : a = align16 c ∧ c ≤ a := by
  have hal := operator_new_arr_aligned c hc
  unfold allocate_raw at h
  split at h
  · simp at h
  · unfold operator_new_arr at h
    simp only [hal] at h
    split at h
    · simp at h
    · simp only [Option.some.injEq] at h
      subst h
      exact ⟨rfl, align16_ge c⟩

theorem vecWF_cap_bound {α : Type} (szT : Nat) (h : Heap α) (v : vector) (hs : 0 < szT)
    (wf : VecWF szT h v) : v.cap * szT ≤ MEMORY_POOL_SIZE ∧ v.cap ≤ MEMORY_POOL_SIZE := by
  have hp := wf.pool_le
  have hle : v.cap ≤ v.cap * szT := Nat.le_mul_of_pos_right _ hs
  rcases wf.buf with ⟨_, h0⟩ | ⟨p, _, _, hb⟩
  · simp [h0]
  · omega

theorem copy_loop_frame {α : Type} (szT : Nat) (src : Option Nat) (a : Nat) (k : Nat) :
    ∀ (i : Nat) (m : ObjMem α) (addr : Nat),
      (∀ j, i ≤ j → j < i + k → addr ≠ a + j * szT) →
      copy_loop szT src a k i m addr = m addr := by
  induction k with
  | zero => intro i m addr _; rfl
  | succ k ih =>
    intro i m addr hne
    simp only [copy_loop]
    rw [ih (i + 1) _ addr (fun j h1 h2 => hne j (by omega) (by omega))]
    have h0 := hne i (Nat.le_refl i) (by omega)
    simp [construct_at, h0]

theorem copy_loop_spec {α : Type} (szT p a : Nat) (hs : 0 < szT) (k : Nat) :
    ∀ (i : Nat) (m : ObjMem α), p + (i + k) * szT ≤ a →
      ∀ j, i ≤ j → j < i + k →
        copy_loop szT (some p) a k i m (a + j * szT) = m (p + j * szT) := by
  induction k with
  | zero => intro i m _ j h1 h2; omega
  | succ k ih =>
    intro i m hsep j h1 h2
    simp only [copy_loop]
    have hik : (i + (k + 1)) * szT = (i + 1 + k) * szT := by ring_nf
    by_cases hji : j = i
    · subst hji
      rw [copy_loop_frame szT (some p) a k (j + 1) _ (a + j * szT)]
      · simp [construct_at, ptr_add, load]
      · intro j' h1' _
        have h3 := slot_step szT j j' (by omega)
        omega
    · rw [ih (i + 1) _ (by rw [← hik]; exact hsep) j (by omega) (by omega)]
      have h4 := slot_step szT j (i + (k + 1)) (by omega)
      have e2 : p + j * szT ≠ a + i * szT := by omega
      simp [construct_at, e2]

theorem destroy_elements_range_frame {α : Type} (szT : Nat) (arr : Option Nat) (k : Nat) :
    ∀ (i : Nat) (m : ObjMem α) (addr : Nat),
      (∀ j, i ≤ j → j < i + k → ptr_add szT arr j ≠ some addr) →
      destroy_elements_range szT arr k i m addr = m addr := by
  induction k with
  | zero => intro i m addr _; rfl
  | succ k ih =>
    intro i m addr hne
    simp only [destroy_elements_range]
    rw [ih (i + 1) _ addr (fun j h1 h2 => hne j (by omega) (by omega))]
    have h0 := hne i (Nat.le_refl i) (by omega)
    cases hp : ptr_add szT arr i with
    | none => simp [destroy_at, construct_at]
    | some q =>
      rw [hp] at h0
      have : addr ≠ q := fun e => h0 (by rw [e])
      simp [destroy_at, construct_at, this]

theorem resize_fill_frame {α : Type} (szT : Nat) (arr : Option Nat) (value : α) (k : Nat) :
    ∀ (i : Nat) (m : ObjMem α) (addr : Nat),
      (∀ j, i ≤ j → j < i + k → ptr_add szT arr j ≠ some addr) →
      resize_fill szT arr value k i m addr = m addr := by
  induction k with
  | zero => intro i m addr _; rfl
  | succ k ih =>
    intro i m addr hne
    simp only [resize_fill]
    rw [ih (i + 1) _ addr (fun j h1 h2 => hne j (by omega) (by omega))]
    have h0 := hne i (Nat.le_refl i) (by omega)
    cases hp : ptr_add szT arr i with
    | none => simp [construct_at]
    | some q =>
      rw [hp] at h0
      have : addr ≠ q := fun e => h0 (by rw [e])
      simp [construct_at, this]

theorem resize_fill_spec {α : Type} (szT p : Nat) (value : α) (hs : 0 < szT) (k : Nat) :
    ∀ (i : Nat) (m : ObjMem α), ∀ j, i ≤ j → j < i + k →
      resize_fill szT (some p) value k i m (p + j * szT) = some value := by
  induction k with
  | zero => intro i m j h1 h2; omega
  | succ k ih =>
    intro i m j h1 h2
    simp only [resize_fill]
    by_cases hji : j = i
    · subst hji
      rw [resize_fill_frame szT (some p) value k (j + 1) _ (p + j * szT)]
      · simp [construct_at, ptr_add]
      · intro j' h1' _
        have h3 := slot_step szT j j' (by omega)
        simp only [ptr_add, Option.map_some', ne_eq, Option.some.injEq]
        omega
    · exact ih (i + 1) _ j (by omega) (by omega)

/-! ## Theorems: `reserve` -/

/-- C24. For a vector that satisfies the data-model invariant: if `n > capacity`
and the allocation succeeds, `reserve(n)` makes the capacity exactly `n`, keeps
the size, and every element at an index below the size is the same as before; if
`n <= capacity`, or the allocation fails, the vector (size, capacity, buffer) and
every object in the pool are unchanged. -/
theorem reserve_spec {α : Type} (szT : Nat) (h : Heap α) (v : vector) (n : Nat)
    (hs : 0 < szT) (wf : VecWF szT h v) :
    (∀ a, v.cap < n → (allocate_raw szT h.pool_index n).ptr = some a →
      (reserve szT h v n).2 = { arr := some a, current_size := v.current_size, cap := n } ∧
      ∀ i, i < v.current_size →
        vector_index szT (reserve szT h v n).1 (reserve szT h v n).2 i =
          vector_index szT h v i) ∧
    ((n ≤ v.cap ∨ (allocate_raw szT h.pool_index n).ptr = none) →
      (reserve szT h v n).2 = v ∧ (reserve szT h v n).1.mem = h.mem) := by
  constructor
  · intro a hn ha
    obtain ⟨_, hage⟩ := allocate_raw_ptr_ge szT h.pool_index n a wf.pool_le ha
    have hr : reserve szT h v n =
        ({ pool_index := (allocate_raw szT h.pool_index n).pool_index,
           mem := reserve_move szT v.arr a v.current_size 0 h.mem },
         { arr := some a, current_size := v.current_size, cap := n }) := by
      simp [reserve, hn, ha, operator_delete_arr]
    rw [hr]
    refine ⟨rfl, fun i hi => ?_⟩
    rcases wf.buf with ⟨_, h0⟩ | ⟨p, hp, _, hb⟩
    · have := wf.size_le
      omega
    · have hsz := wf.size_le
      have hmul : v.current_size * szT ≤ v.cap * szT := Nat.mul_le_mul_right szT hsz
      simp only [vector_index, ptr_add, Option.map_some', load, hp]
      exact reserve_move_spec szT p a hs v.current_size 0 h.mem
        (by rw [Nat.zero_add]; omega) i (Nat.zero_le i) (by rw [Nat.zero_add]; exact hi)
  · intro hcase
    rcases hcase with hle | hnone
    · have : ¬ n > v.cap := by omega
      simp [reserve, this]
    · by_cases hn : n > v.cap
      · simp [reserve, hn, hnone]
      · simp [reserve, hn]

/-- C24 (witness): `reserve(25)` on a `vector<char>` holding 1, 2, 3 in a buffer
of capacity 10. -/
theorem reserve_spec_witness :
    (reserve 1 (push_back_list 1 (empty_heap Nat) vector_default [1, 2, 3]).1
      (push_back_list 1 (empty_heap Nat) vector_default [1, 2, 3]).2 25).2 =
      { arr := some 16, current_size := 3, cap := 25 } ∧
    ∀ i, i < 3 →
      vector_index 1
        (reserve 1 (push_back_list 1 (empty_heap Nat) vector_default [1, 2, 3]).1
          (push_back_list 1 (empty_heap Nat) vector_default [1, 2, 3]).2 25).1
        (reserve 1 (push_back_list 1 (empty_heap Nat) vector_default [1, 2, 3]).1
          (push_back_list 1 (empty_heap Nat) vector_default [1, 2, 3]).2 25).2 i =
      vector_index 1 (push_back_list 1 (empty_heap Nat) vector_default [1, 2, 3]).1
        (push_back_list 1 (empty_heap Nat) vector_default [1, 2, 3]).2 i :=
  (reserve_spec 1 (push_back_list 1 (empty_heap Nat) vector_default [1, 2, 3]).1
    (push_back_list 1 (empty_heap Nat) vector_default [1, 2, 3]).2 25 (by decide)
    ⟨by decide, by decide, Or.inr ⟨0, by decide, by decide, by decide⟩⟩).1 16 (by decide)
    (by decide)

/-! ## Theorems: copy and move -/

/-- C22. Copy construction from a source that satisfies the data-model invariant.
When the allocation succeeds, the copy has the size and capacity of the source and
an equal element at every index below the size; its buffer starts at or after the
arena cursor of before the call, hence after the end of the buffer of the source;
the elements of the source are unchanged; the copy satisfies the invariant. When
the source has capacity 0 or the allocation fails, the copy is empty (no buffer,
size 0, capacity 0) and no object of the pool has changed. -/
theorem vector_copy_spec {α : Type} (szT : Nat) (h : Heap α) (other : vector)
    (hs : 0 < szT) (wf : VecWF szT h other) :
    (∀ a, 0 < other.cap → (allocate_raw szT h.pool_index other.cap).ptr = some a →
      (vector_copy szT h other).2 =
        { arr := some a, current_size := other.current_size, cap := other.cap } ∧
      (∀ i, i < other.current_size →
        vector_index szT (vector_copy szT h other).1 (vector_copy szT h other).2 i =
          vector_index szT h other i) ∧
      (∀ i, i < other.current_size →
        vector_index szT (vector_copy szT h other).1 other i = vector_index szT h other i) ∧
      h.pool_index ≤ a ∧
      (∃ p, other.arr = some p ∧ p + other.cap * szT ≤ a) ∧
      VecWF szT (vector_copy szT h other).1 (vector_copy szT h other).2) ∧
    ((other.cap = 0 ∨ (allocate_raw szT h.pool_index other.cap).ptr = none) →
      (vector_copy szT h other).2 = { arr := none, current_size := 0, cap := 0 } ∧
      (vector_copy szT h other).1.mem = h.mem) := by
  obtain ⟨hcs, _⟩ := vecWF_cap_bound szT h other hs wf
  have hM : MEMORY_POOL_SIZE = 1048576 := rfl
  have hS : SIZE_T_MOD = 4294967296 := rfl
  constructor
  · intro a hcap ha
    have hcomm : szT * other.cap = other.cap * szT := Nat.mul_comm _ _
    obtain ⟨_, hpool, hfit⟩ := allocate_raw_success szT h.pool_index other.cap a wf.pool_le hcap
      (by omega) ha
    obtain ⟨_, hage⟩ := allocate_raw_ptr_ge szT h.pool_index other.cap a wf.pool_le ha
    have hc : vector_copy szT h other =
        ({ pool_index := a + szT * other.cap,
           mem := copy_loop szT other.arr a other.current_size 0 h.mem },
         { arr := some a, current_size := other.current_size, cap := other.cap }) := by
      simp [vector_copy, hcap, ha, hpool]
    rw [hc]
    rcases wf.buf with ⟨_, h0⟩ | ⟨p, hp, _, hb⟩
    · omega
    · have hsz := wf.size_le
      have hmul : other.current_size * szT ≤ other.cap * szT := Nat.mul_le_mul_right szT hsz
      refine ⟨rfl, fun i hi => ?_, fun i hi => ?_, hage, ⟨p, hp, by omega⟩,
        ⟨hsz, by simp only; omega, Or.inr ⟨a, rfl, hcap, by simp only; omega⟩⟩⟩
      · simp only [vector_index, ptr_add, Option.map_some', load, hp]
        exact copy_loop_spec szT p a hs other.current_size 0 h.mem
          (by rw [Nat.zero_add]; omega) i (Nat.zero_le i) (by rw [Nat.zero_add]; exact hi)
      · simp only [vector_index, ptr_add, Option.map_some', load, hp]
        apply copy_loop_frame
        intro j _ _
        have h3 := slot_step szT i other.cap (by omega)
        omega
  · intro hcase
    rcases hcase with h0 | hnone
    · simp [vector_copy, h0]
    · by_cases hcap : other.cap > 0
      · simp [vector_copy, hcap, hnone]
      · simp [vector_copy, hcap]

/-- C22 (witness): copy of a `vector<char>` holding 1, 2, 3. -/
theorem vector_copy_spec_witness :
    (vector_copy 1 (push_back_list 1 (empty_heap Nat) vector_default [1, 2, 3]).1
      (push_back_list 1 (empty_heap Nat) vector_default [1, 2, 3]).2).2 =
      { arr := some 16, current_size := 3, cap := 10 } ∧
    vector_index 1
      (vector_copy 1 (push_back_list 1 (empty_heap Nat) vector_default [1, 2, 3]).1
        (push_back_list 1 (empty_heap Nat) vector_default [1, 2, 3]).2).1
      (vector_copy 1 (push_back_list 1 (empty_heap Nat) vector_default [1, 2, 3]).1
        (push_back_list 1 (empty_heap Nat) vector_default [1, 2, 3]).2).2 2 = some 3 :=
  ⟨((vector_copy_spec 1 (push_back_list 1 (empty_heap Nat) vector_default [1, 2, 3]).1
      (push_back_list 1 (empty_heap Nat) vector_default [1, 2, 3]).2 (by decide)
      ⟨by decide, by decide, Or.inr ⟨0, by decide, by decide, by decide⟩⟩).1 16 (by decide)
      (by decide)).1, by decide⟩

/-- C23. Move construction leaves the destination with the buffer, size and
capacity of the source and the heap untouched, and the source with no buffer,
size 0 and capacity 0. Move assignment from a different vector whose buffer is
separate from the buffer of the destination does the same: the arena cursor is
unchanged, and every element at an index below the size of the source is found at
the same index of the destination. -/
theorem vector_move_spec {α : Type} (szT : Nat) (h : Heap α) (dst other : vector)
    (hs : 0 < szT) (hd : dst.current_size ≤ dst.cap)
    (ho : other.current_size ≤ other.cap) (hsep : buffers_separate szT dst other) :
    ((vector_move h other).dest = other ∧
      (vector_move h other).source = { arr := none, current_size := 0, cap := 0 } ∧
      (vector_move h other).heap.pool_index = h.pool_index ∧
      (vector_move h other).heap.mem = h.mem) ∧
    ((vector_move_assign szT h dst other false).dest = other ∧
      (vector_move_assign szT h dst other false).source =
        { arr := none, current_size := 0, cap := 0 } ∧
      (vector_move_assign szT h dst other false).heap.pool_index = h.pool_index ∧
      ∀ i, i < other.current_size →
        vector_index szT (vector_move_assign szT h dst other false).heap
          (vector_move_assign szT h dst other false).dest i = vector_index szT h other i) := by
  refine ⟨⟨rfl, rfl, rfl, rfl⟩, rfl, rfl, rfl, fun i hi => ?_⟩
  simp only [vector_move_assign, Bool.false_eq_true, if_false, vector_index]
  cases hq : other.arr with
  | none => simp [ptr_add, load]
  | some q =>
    simp only [ptr_add, Option.map_some', load]
    apply destroy_elements_range_frame
    intro j _ hj
    cases hp : dst.arr with
    | none => simp [ptr_add]
    | some p =>
      simp only [ptr_add, Option.map_some', ne_eq, Option.some.injEq]
      unfold buffers_separate at hsep
      rw [hp, hq] at hsep
      simp only at hsep
      have h1 := slot_step szT j dst.cap (by omega)
      have h2 := slot_step szT i other.cap (by omega)
      omega

/-- C23 (witness): a `vector<char>` holding 7 in the buffer at offset 16 is
move-assigned from one holding 1, 2, 3 in the buffer at offset 0. -/
theorem vector_move_spec_witness :
    (vector_move_assign 1
      (push_back 1 (push_back_list 1 (empty_heap Nat) vector_default [1, 2, 3]).1
        vector_default 7).1
      (push_back 1 (push_back_list 1 (empty_heap Nat) vector_default [1, 2, 3]).1
        vector_default 7).2
      (push_back_list 1 (empty_heap Nat) vector_default [1, 2, 3]).2 false).dest =
      { arr := some 0, current_size := 3, cap := 10 } ∧
    (push_back 1 (push_back_list 1 (empty_heap Nat) vector_default [1, 2, 3]).1
        vector_default 7).2 = { arr := some 16, current_size := 1, cap := 10 } :=
  ⟨(vector_move_spec 1
      (push_back 1 (push_back_list 1 (empty_heap Nat) vector_default [1, 2, 3]).1
        vector_default 7).1
      (push_back 1 (push_back_list 1 (empty_heap Nat) vector_default [1, 2, 3]).1
        vector_default 7).2
      (push_back_list 1 (empty_heap Nat) vector_default [1, 2, 3]).2
      (by decide) (by decide) (by decide) (Or.inr (by decide))).2.1, by decide⟩

/-! ## Theorems: `resize` -/

/-- C25. `resize(n, fill)` on a vector that satisfies the data-model invariant,
for a request whose byte count `n * sizeof(T)` cannot wrap. Provided the
allocation needed when `n > capacity` succeeds: the size becomes `n`, every
element at an index below both the old size and `n` is unchanged, every element
at an index from the old size up to `n` equals `fill`, and the invariant still
holds. If `n > capacity` and the allocation fails, the vector (size, capacity,
buffer) and every object of the pool are unchanged. -/
theorem resize_spec {α : Type} (szT : Nat) (h : Heap α) (v : vector) (n : Nat) (fill : α)
    (hs : 0 < szT) (wf : VecWF szT h v)
    (hnw : szT * n + MEMORY_POOL_SIZE < SIZE_T_MOD) :
    ((v.cap < n → (allocate_raw szT h.pool_index n).ptr.isSome = true) →
      (resize szT h v n fill).2.current_size = n ∧
      (∀ i, i < v.current_size → i < n →
        vector_index szT (resize szT h v n fill).1 (resize szT h v n fill).2 i =
          vector_index szT h v i) ∧
      (∀ i, v.current_size ≤ i → i < n →
        vector_index szT (resize szT h v n fill).1 (resize szT h v n fill).2 i = some fill) ∧
      VecWF szT (resize szT h v n fill).1 (resize szT h v n fill).2) ∧
    (v.cap < n → (allocate_raw szT h.pool_index n).ptr = none →
      (resize szT h v n fill).2 = v ∧ (resize szT h v n fill).1.mem = h.mem) := by
  have hsz := wf.size_le
  have hM : MEMORY_POOL_SIZE = 1048576 := rfl
  have hS : SIZE_T_MOD = 4294967296 := rfl
  constructor
  · intro hok
    by_cases hgt : n > v.current_size
    · by_cases hcap : n > v.cap
      · -- growth through `reserve(n)`
        obtain ⟨a, ha⟩ := Option.isSome_iff_exists.mp (hok hcap)
        obtain ⟨_, hpool, hfit⟩ := allocate_raw_success szT h.pool_index n a wf.pool_le
          (by omega) hnw ha
        obtain ⟨_, hage⟩ := allocate_raw_ptr_ge szT h.pool_index n a wf.pool_le ha
        have hnn : ¬ n < n := Nat.lt_irrefl n
        have hres : resize szT h v n fill =
            ({ pool_index := a + szT * n,
               mem := resize_fill szT (some a) fill (n - v.current_size) v.current_size
                 (reserve_move szT v.arr a v.current_size 0 h.mem) },
             { arr := some a, current_size := n, cap := n }) := by
          simp [resize, hgt, hcap, reserve, ha, hpool, operator_delete_arr, resize_construct]
        rw [hres]
        refine ⟨rfl, fun i hi _ => ?_, fun i hi hin => ?_,
          ⟨Nat.le_refl n, by simp only; omega,
            Or.inr ⟨a, rfl, by simp only; omega, by simp only; rw [Nat.mul_comm]⟩⟩⟩
        · simp only [vector_index, ptr_add, Option.map_some', load]
          rw [resize_fill_frame]
          · rcases wf.buf with ⟨_, h0⟩ | ⟨p, hp, _, hb⟩
            · omega
            · have hmul : v.current_size * szT ≤ v.cap * szT := Nat.mul_le_mul_right szT hsz
              rw [hp]
              simp only [Option.map_some']
              exact reserve_move_spec szT p a hs v.current_size 0 h.mem
                (by rw [Nat.zero_add]; omega) i (Nat.zero_le i)
                (by rw [Nat.zero_add]; exact hi)
          · intro j hj1 _
            have h3 := slot_step szT i j (by omega)
            simp only [ptr_add, Option.map_some', ne_eq, Option.some.injEq]
            omega
        · simp only [vector_index, ptr_add, Option.map_some', load]
          exact resize_fill_spec szT a fill hs _ _ _ i hi (by omega)
      · -- enough capacity: fill in place
        rcases wf.buf with ⟨_, h0⟩ | ⟨p, hp, hcpos, hb⟩
        · omega
        · have hres : resize szT h v n fill =
              ({ pool_index := h.pool_index,
                 mem := resize_fill szT (some p) fill (n - v.current_size) v.current_size h.mem },
               { arr := some p, current_size := n, cap := v.cap }) := by
            simp [resize, hgt, hcap, hp, resize_construct]
          rw [hres]
          refine ⟨rfl, fun i hi _ => ?_, fun i hi hin => ?_,
            ⟨by simp only; omega, wf.pool_le, Or.inr ⟨p, rfl, hcpos, hb⟩⟩⟩
          · simp only [vector_index, ptr_add, Option.map_some', load, hp]
            apply resize_fill_frame
            intro j hj1 _
            have h3 := slot_step szT i j (by omega)
            simp only [ptr_add, Option.map_some', ne_eq, Option.some.injEq]
            omega
          · simp only [vector_index, ptr_add, Option.map_some', load, hp]
            exact resize_fill_spec szT p fill hs _ _ _ i hi (by omega)
    · by_cases hlt : n < v.current_size
      · have hres : resize szT h v n fill =
            ({ h with mem := destroy_elements_range szT v.arr (v.current_size - n) n h.mem },
             { v with current_size := n }) := by
          simp [resize, hgt, hlt]
        rw [hres]
        refine ⟨rfl, fun i _ hin => ?_, fun i hi hin => by omega,
          ⟨by simp only; omega, wf.pool_le, wf.buf⟩⟩
        simp only [vector_index]
        cases hp : v.arr with
        | none => simp [ptr_add, load]
        | some p =>
          simp only [ptr_add, Option.map_some', load]
          apply destroy_elements_range_frame
          intro j hj1 _
          have h3 := slot_step szT i j (by omega)
          simp only [ptr_add, Option.map_some', ne_eq, Option.some.injEq]
          omega
      · have heq : n = v.current_size := by omega
        have hres : resize szT h v n fill = (h, v) := by
          simp [resize, heq]
        rw [hres]
        exact ⟨heq.symm, fun i _ _ => rfl, fun i hi hin => by omega, wf⟩
  · intro hcap hnone
    have hgt : n > v.current_size := by omega
    have hres : resize szT h v n fill =
        ({ h with pool_index := (allocate_raw szT h.pool_index n).pool_index }, v) := by
      simp [resize, hgt, hcap, reserve, hnone]
    rw [hres]
    exact ⟨rfl, rfl⟩

/-- C25 (witness): `resize(12, 9)` on a `vector<char>` holding 1, 2, 3 in a buffer
of capacity 10 grows the buffer, keeps 1, 2, 3 and fills the indices 3..11 with 9. -/
theorem resize_spec_witness :
    (resize 1 (push_back_list 1 (empty_heap Nat) vector_default [1, 2, 3]).1
      (push_back_list 1 (empty_heap Nat) vector_default [1, 2, 3]).2 12 9).2 =
      { arr := some 16, current_size := 12, cap := 12 } ∧
    (resize 1 (push_back_list 1 (empty_heap Nat) vector_default [1, 2, 3]).1
      (push_back_list 1 (empty_heap Nat) vector_default [1, 2, 3]).2 12 9).2.current_size = 12 ∧
    vector_index 1
      (resize 1 (push_back_list 1 (empty_heap Nat) vector_default [1, 2, 3]).1
        (push_back_list 1 (empty_heap Nat) vector_default [1, 2, 3]).2 12 9).1
      (resize 1 (push_back_list 1 (empty_heap Nat) vector_default [1, 2, 3]).1
        (push_back_list 1 (empty_heap Nat) vector_default [1, 2, 3]).2 12 9).2 2 = some 3 ∧
    vector_index 1
      (resize 1 (push_back_list 1 (empty_heap Nat) vector_default [1, 2, 3]).1
        (push_back_list 1 (empty_heap Nat) vector_default [1, 2, 3]).2 12 9).1
      (resize 1 (push_back_list 1 (empty_heap Nat) vector_default [1, 2, 3]).1
        (push_back_list 1 (empty_heap Nat) vector_default [1, 2, 3]).2 12 9).2 11 = some 9 :=
  ⟨by decide,
    ((resize_spec 1 (push_back_list 1 (empty_heap Nat) vector_default [1, 2, 3]).1
      (push_back_list 1 (empty_heap Nat) vector_default [1, 2, 3]).2 12 9 (by decide)
      ⟨by decide, by decide, Or.inr ⟨0, by decide, by decide, by decide⟩⟩ (by decide)).1
      (fun _ => by decide)).1,
    by decide, by decide⟩

/-! ## Lemmas: what `find_sdt_from_rsdp` depends on -/

theorem read32_congr (mem1 mem2 : PhysMem) (hm : ∀ a, read8 mem1 a = read8 mem2 a) (a : Nat) :
    read32 mem1 a = read32 mem2 a := by
  simp only [read32, hm]

theorem read64_congr (mem1 mem2 : PhysMem) (hm : ∀ a, read8 mem1 a = read8 mem2 a) (a : Nat) :
    read64 mem1 a = read64 mem2 a := by
  simp only [read64, read32_congr mem1 mem2 hm]

theorem checksum_loop_char_congr (mem1 mem2 : PhysMem)
    (hm : ∀ a, read8 mem1 a = read8 mem2 a) (base : Nat) (k : Nat) :
    ∀ i sum, checksum_loop_char mem1 base k i sum = checksum_loop_char mem2 base k i sum := by
  induction k with
  | zero => intro i sum; rfl
  | succ k ih => intro i sum; simp only [checksum_loop_char, hm, ih]

theorem validate_acpi_sdt_checksum_congr (mem1 mem2 : PhysMem)
    (hm : ∀ a, read8 mem1 a = read8 mem2 a) (t : Nat) :
    validate_acpi_sdt_checksum mem1 t = validate_acpi_sdt_checksum mem2 t := by
  simp only [validate_acpi_sdt_checksum, read32_congr mem1 mem2 hm,
    checksum_loop_char_congr mem1 mem2 hm]

theorem memcmp_loop_congr (p1 p2 q : Nat → Nat) (k : Nat) :
    ∀ i, (∀ j, i ≤ j → j < i + k → p2 j = q j) →
      memcmp_loop p1 p2 k i = memcmp_loop p1 q k i := by
  induction k with
  | zero => intro i _; rfl
  | succ k ih =>
    intro i hq
    simp only [memcmp_loop]
    rw [hq i (Nat.le_refl i) (by omega), ih (i + 1) (fun j h1 h2 => hq j (by omega) (by omega))]

theorem sdt_loop_congr (mem1 mem2 : PhysMem) (hm : ∀ a, read8 mem1 a = read8 mem2 a)
    (root : Nat) (x : Bool) (sig1 sig2 entries : Nat)
    (hsig : ∀ j, j < 4 → read8 mem1 (sig1 + j) = read8 mem2 (sig2 + j)) (fuel : Nat) :
    ∀ i, sdt_loop mem1 root x sig1 entries fuel i = sdt_loop mem2 root x sig2 entries fuel i := by
  have hentry : ∀ i, sdt_entry mem1 root x i = sdt_entry mem2 root x i := by
    intro i
    simp only [sdt_entry, read64_congr mem1 mem2 hm, read32_congr mem1 mem2 hm]
  have hcmp : ∀ t, memcmp_custom (fun j => read8 mem1 (t + j)) (fun j => read8 mem1 (sig1 + j)) 4 =
      memcmp_custom (fun j => read8 mem2 (t + j)) (fun j => read8 mem2 (sig2 + j)) 4 := by
    intro t
    have e : (fun j => read8 mem1 (t + j)) = (fun j => read8 mem2 (t + j)) := by
      funext j; exact hm _
    rw [e]
    exact memcmp_loop_congr _ _ _ 4 0 (fun j _ hj => hsig j (by omega))
  induction fuel with
  | zero => intro i; rfl
  | succ n ih =>
    intro i
    simp only [sdt_loop, hentry, hcmp, validate_acpi_sdt_checksum_congr mem1 mem2 hm, ih]

theorem find_sdt_from_rsdp_congr (mem1 mem2 : PhysMem) (hm : ∀ a, read8 mem1 a = read8 mem2 a)
    (rsdp_ptr sig1 sig2 : Nat) (h1 : sig1 ≠ 0) (h2 : sig2 ≠ 0)
    (hsig : ∀ j, j < 4 → read8 mem1 (sig1 + j) = read8 mem2 (sig2 + j)) :
    find_sdt_from_rsdp mem1 rsdp_ptr sig1 = find_sdt_from_rsdp mem2 rsdp_ptr sig2 := by
  have hent : ∀ root x, sdt_entries mem1 root x = sdt_entries mem2 root x := by
    intro root x
    simp only [sdt_entries, read32_congr mem1 mem2 hm]
  simp only [find_sdt_from_rsdp, h1, h2, or_false, hm, read64_congr mem1 mem2 hm,
    read32_congr mem1 mem2 hm, validate_acpi_sdt_checksum_congr mem1 mem2 hm, hent,
    sdt_loop_congr mem1 mem2 hm _ _ sig1 sig2 _ hsig]

/-- For a declared length of at least the header size the entry count is the
mathematical quotient. -/
theorem sdt_entries_of_ge (mem : PhysMem) (root : Nat) (x : Bool)
    (h : 36 ≤ read32 mem (root + 4)) :
    sdt_entries mem root x = (read32 mem (root + 4) - 36) / (if x then 8 else 4) := by
  have h1 := read8_lt mem (root + 4)
  have h2 := read8_lt mem (root + 4 + 1)
  have h3 := read8_lt mem (root + 4 + 2)
  have h4 := read8_lt mem (root + 4 + 3)
  have hlt : read32 mem (root + 4) < 4294967296 := by
    unfold read32; omega
  unfold sdt_entries
  simp only [OFF_SdtLength, SIZEOF_ACPISDTHeader]
  have e : (read32 mem (root + 4) + 4294967296 - 36) % 4294967296 =
      read32 mem (root + 4) - 36 := by omega
  rw [e]

/-! ## Theorems: determinism and entry count of `find_sdt_from_rsdp` -/

/-- C29. `find_sdt_from_rsdp` is a function of the memory contents, the root
descriptor pointer and the 4 signature bytes only: two calls on memories with the
same bytes, with the same descriptor pointer and with signature pointers
(possibly different) at which the same 4 bytes are stored, return the same table
or both return not-found. The function has no other input: it does not read
`g_fadt`, and it writes no state that a later call reads. -/
theorem find_sdt_from_rsdp_deterministic (mem1 mem2 : PhysMem) (rsdp_ptr sig1 sig2 : Nat)
    (hm : ∀ a, read8 mem1 a = read8 mem2 a) (h1 : sig1 ≠ 0) (h2 : sig2 ≠ 0)
    (hsig : ∀ j, j < 4 → read8 mem1 (sig1 + j) = read8 mem2 (sig2 + j)) :
    find_sdt_from_rsdp mem1 rsdp_ptr sig1 = find_sdt_from_rsdp mem2 rsdp_ptr sig2 :=
  find_sdt_from_rsdp_congr mem1 mem2 hm rsdp_ptr sig1 sig2 h1 h2 hsig

set_option maxRecDepth 20000 in
/-- C29 (witness): in `mem_power` with a second copy of the string `"FACP"` stored
at 0x600, the calls with the signature pointers 0x500 and 0x600 both return the
table at 0x4000. -/
theorem find_sdt_from_rsdp_deterministic_witness :
    find_sdt_from_rsdp mem_power 0x1000 0x500 = some 0x4000 ∧
    find_sdt_from_rsdp mem_power 0x1000 0x500 =
      find_sdt_from_rsdp (write_bytes mem_power 0x600 [70, 65, 67, 80]) 0x1000 0x500 ∧
    find_sdt_from_rsdp (write_bytes mem_power 0x600 [70, 65, 67, 80]) 0x1000 0x500 =
      find_sdt_from_rsdp (write_bytes mem_power 0x600 [70, 65, 67, 80]) 0x1000 0x600 :=
  ⟨by decide, by decide,
    find_sdt_from_rsdp_deterministic _ _ 0x1000 0x500 0x600 (fun _ => rfl) (by decide)
      (by decide) (by decide)⟩

set_option maxRecDepth 20000 in
/-- C30 (code evaluated at the failing input). In `mem_zero_header` the selected
legacy root table at 0x2000 has declared length 0 and passes its checksum (a sum
over 0 bytes). `(0 - 36) / 4` yields no entry, but the code computes the count by
a 32-bit unsigned subtraction, `(0 - 36) mod 2^32 / 4 = 1073741815`, examines the
entries stored after the header and returns the table at 0x4000 found as entry 2. -/
theorem sdt_entries_wraps_below_header :
    selected_root mem_zero_header 0x1000 = some (0x2000, false) ∧
    read32 mem_zero_header (0x2000 + 4) = 0 ∧
    validate_acpi_sdt_checksum mem_zero_header 0x2000 = true ∧
    sdt_entries mem_zero_header 0x2000 false = 1073741815 ∧
    sdt_entry mem_zero_header 0x2000 false 2 = 0x4000 ∧
    find_sdt_from_rsdp mem_zero_header 0x1000 0x500 = some 0x4000 := by
  decide

/-! ## Theorems: declared lengths of root tables and of the root descriptor -/

set_option maxRecDepth 20000 in
/-- C31 (failing input). In `mem_short_xsdt` the revision-2 root descriptor at
0x1000 selects the extended root table at 0x6000, whose declared length is 20
(below the 36 header bytes) and whose 20 bytes sum to 0 mod 256. Entry 0 would
need `36 + (0 + 1) * 8 <= 20` to lie inside the declared length, yet the 32-bit
unsigned subtraction `20 - 36` makes the entry count 536870910, entry 0 is read
from the bytes 36..43 behind the declared length, and the table at 0x4000 it
names is returned instead of not-found. -/
theorem xsdt_entry_read_beyond_declared_length :
    selected_root mem_short_xsdt 0x1000 = some (0x6000, true) ∧
    read32 mem_short_xsdt (0x6000 + OFF_SdtLength) = 20 ∧
    validate_acpi_sdt_checksum mem_short_xsdt 0x6000 = true ∧
    ¬ (36 + (0 + 1) * 8 ≤ read32 mem_short_xsdt (0x6000 + OFF_SdtLength)) ∧
    sdt_entries mem_short_xsdt 0x6000 true = 536870910 ∧
    sdt_entry mem_short_xsdt 0x6000 true 0 = 0x4000 ∧
    find_sdt_from_rsdp mem_short_xsdt 0x1000 0x500 = some 0x4000 := by
  decide

/-- C33. A root descriptor returned by `find_rsdp` with revision at least 2 has a
declared length of at least 36 whose bytes sum to 0 mod 256, so the 8 bytes of
`XsdtAddress` (offsets 24..31) lie inside the validated range. `find_sdt_from_rsdp`
uses `XsdtAddress` only for such a descriptor: with a revision below 2 its result
is the walk of the legacy root table at `RsdtAddress`, and with a revision of at
least 2 it is the walk of the extended root table unless `XsdtAddress` is 0. -/
theorem find_rsdp_extended_validated (mem : PhysMem) (p : Nat)
    (h : find_rsdp mem = some p) :
    (2 ≤ read8 mem (p + OFF_Revision) →
      36 ≤ read32 mem (p + OFF_RsdpLength) ∧
      byte_sum mem p (read32 mem (p + OFF_RsdpLength)) % 256 = 0 ∧
      OFF_XsdtAddress + 8 ≤ read32 mem (p + OFF_RsdpLength)) ∧
    (∀ signature, signature ≠ 0 → read8 mem (p + OFF_Revision) < 2 →
      find_sdt_from_rsdp mem p signature =
        if read32 mem (p + OFF_RsdtAddress) = 0 then none
        else walk_root mem (read32 mem (p + OFF_RsdtAddress)) false signature) ∧
    (∀ signature, signature ≠ 0 → 2 ≤ read8 mem (p + OFF_Revision) →
      read64 mem (p + OFF_XsdtAddress) ≠ 0 →
      find_sdt_from_rsdp mem p signature =
        walk_root mem (read64 mem (p + OFF_XsdtAddress) % 4294967296) true signature) := by
  have hp0 := find_rsdp_ne_zero mem p h
  have hv : rsdp_valid mem p = true := by
    rw [find_rsdp_eq_find] at h
    simpa using List.find?_some h
  have hparts := rsdp_valid_parts mem p hv
  simp only [OFF_Revision, OFF_RsdpLength, OFF_XsdtAddress, OFF_RsdtAddress]
  refine ⟨?_, ?_, ?_⟩
  · intro hrev
    rcases hparts.2 with hlt | ⟨hlen, hsum⟩
    · omega
    · exact ⟨hlen, hsum, by omega⟩
  · intro signature hs hrev
    rw [find_sdt_from_rsdp_eq_walk mem p signature hp0 hs]
    unfold selected_root
    rw [if_neg (by omega)]
    by_cases hrs : read32 mem (p + 16) = 0
    · simp [hrs]
    · simp [hrs]
  · intro signature hs hrev hx
    rw [find_sdt_from_rsdp_eq_walk mem p signature hp0 hs]
    unfold selected_root
    rw [if_pos ⟨hrev, hx⟩]

set_option maxRecDepth 20000 in
/-- C33 (witness) at `mem_ext`: the first candidate of the BIOS area, 0xE0000, is
an extended descriptor of revision 2 and declared length 36. -/
theorem find_rsdp_extended_validated_witness :
    find_rsdp mem_ext = some 0xE0000 ∧ 2 ≤ read8 mem_ext (0xE0000 + OFF_Revision) ∧
    36 ≤ read32 mem_ext (0xE0000 + OFF_RsdpLength) ∧
    byte_sum mem_ext 0xE0000 (read32 mem_ext (0xE0000 + OFF_RsdpLength)) % 256 = 0 ∧
    OFF_XsdtAddress + 8 ≤ read32 mem_ext (0xE0000 + OFF_RsdpLength) :=
  ⟨by decide, by decide,
    (find_rsdp_extended_validated mem_ext 0xE0000 (by decide)).1 (by decide)⟩

/-! ## Theorems: fields of the power table -/

set_option maxRecDepth 20000 in
/-- C34 (failing input). In `mem_short_fadt` the table at 0x4000 has signature
`"FACP"`, declared length 36 and a valid checksum over those 36 bytes. `acpi_init`
stores it as the power table and then reads `SMI_CommandPort`, `AcpiEnable` and
`PM1aEventBlock` at the offsets 48, 52 and 56, and `acpi_power_off` reads
`PM1aControlBlock` and `PM1bControlBlock` at the offsets 64 and 68: all behind the
declared length, and the values found there are used as ports. -/
theorem acpi_init_short_power_table :
    find_rsdp mem_short_fadt = some 0x1000 ∧
    find_sdt_from_rsdp mem_short_fadt 0x1000 0x500 = some 0x4000 ∧
    read32 mem_short_fadt (0x4000 + OFF_SdtLength) = 36 ∧
    validate_acpi_sdt_checksum mem_short_fadt 0x4000 = true ∧
    (acpi_init mem_short_fadt 0 0x500 (fun _ => 1)).g_fadt = 0x4000 ∧
    (acpi_init mem_short_fadt 0 0x500 (fun _ => 1)).trace =
      [Effect.outb 0xB2 0xA0, Effect.inw 0x600] ∧
    (acpi_power_off mem_short_fadt 0x4000 1).trace =
      [Effect.inw 0x600, Effect.cli, Effect.outw 0x604 0x3400, Effect.outw 0x608 0x3400] := by
  decide

set_option maxRecDepth 20000 in
/-- C35 (failing input). In `mem_wide_ports` the power table at 0x4000 is valid
(declared length 72) with `SMI_CommandPort` 0x10000, `PM1aControlBlock` 0x10000
and `PM1bControlBlock` 0x20000: all non-zero, and the two control blocks differ.
The fields are passed to `outb` / `outw`, whose port parameter has 16 bits:
`acpi_init` writes `AcpiEnable` to port 0, and `acpi_power_off` writes the sleep
command to port 0 for PM1a and again to port 0 for PM1b. -/
theorem power_ports_truncated_to_zero :
    find_rsdp mem_wide_ports = some 0x1000 ∧
    find_sdt_from_rsdp mem_wide_ports 0x1000 0x500 = some 0x4000 ∧
    read32 mem_wide_ports (0x4000 + OFF_SMI_CommandPort) = 0x10000 ∧
    read32 mem_wide_ports (0x4000 + OFF_PM1aControlBlock) = 0x10000 ∧
    read32 mem_wide_ports (0x4000 + OFF_PM1bControlBlock) = 0x20000 ∧
    (acpi_init mem_wide_ports 0 0x500 (fun _ => 1)).g_fadt = 0x4000 ∧
    (acpi_init mem_wide_ports 0 0x500 (fun _ => 1)).trace =
      [Effect.outb 0 0xA0, Effect.inw 0x600] ∧
    (acpi_power_off mem_wide_ports 0x4000 1).trace =
      [Effect.inw 0x600, Effect.cli, Effect.outw 0 0x3400, Effect.outw 0 0x3400] := by
  decide

/-! ## Theorems: a failed arena request -/

/-- C37 (counterexample). With the cursor at 5, a request of 1048576 bytes fails,
and the cursor afterwards is 16, not 5: the alignment is applied before the
capacity test and is kept. -/
theorem operator_new_arr_failure_moves_cursor :
    (operator_new_arr 5 1048576).ptr = none ∧
    (operator_new_arr 5 1048576).pool_index = 16 := by
  decide

/-- C37 (amended). From a cursor of at most the capacity, a failed
`operator new[]` leaves the cursor at the previous cursor rounded up to the next
multiple of 16; the requested size is not added, and a cursor that was already a
multiple of 16 is unchanged. -/
theorem operator_new_arr_failure_cursor (c size : Nat) (hc : c ≤ MEMORY_POOL_SIZE)
    (hnull : (operator_new_arr c size).ptr = none) :
    (operator_new_arr c size).pool_index = align16 c ∧
    (c % 16 = 0 → (operator_new_arr c size).pool_index = c) := by
  have hM : MEMORY_POOL_SIZE = 1048576 := rfl
  have hS : SIZE_T_MOD = 4294967296 := rfl
  have key : (operator_new_arr c size).pool_index = align16 c := by
    unfold operator_new_arr at hnull ⊢
    unfold align16
    by_cases hr : c % 16 ≠ 0
    · simp only [hr, ne_eq, not_false_eq_true, if_true] at hnull ⊢
      split at hnull
      · rename_i hgt
        simp only [hgt, if_true]
        rw [hS]; omega
      · simp at hnull
    · simp only [hr, if_false] at hnull ⊢
      split at hnull
      · rename_i hgt
        simp only [hgt, if_true]
        omega
      · simp at hnull
  refine ⟨key, fun h0 => ?_⟩
  rw [key]
  unfold align16
  omega

/-- C37 (witness of the amended statement) at cursor 5 and a request of 1048576
bytes. -/
theorem operator_new_arr_failure_cursor_witness :
    (operator_new_arr 5 1048576).pool_index = align16 5 ∧
    (5 % 16 = 0 → (operator_new_arr 5 1048576).pool_index = 5) :=
  operator_new_arr_failure_cursor 5 1048576 (by decide) (by decide)

/-! ## Lemmas: where `print_uint_base` stays inside its buffer -/

theorem print_digit_loop_spec (base : Nat) :
    ∀ (fuel n i : Nat) (b : PrintBuf) (k : Nat), n < base ^ k → k ≤ fuel →
      (print_digit_loop base fuel n i b).2.1 ≤ i + k ∧
      i ≤ (print_digit_loop base fuel n i b).2.1 ∧
      (print_digit_loop base fuel n i b).2.2 = 0 ∧
      ∀ idx ∈ (print_digit_loop base fuel n i b).1.written,
        idx ∈ b.written ∨ idx < (print_digit_loop base fuel n i b).2.1 := by
  intro fuel
  induction fuel with
  | zero =>
    intro n i b k hn hk
    have hk0 : k = 0 := by omega
    subst hk0
    simp only [pow_zero] at hn
    simp only [print_digit_loop]
    exact ⟨by omega, Nat.le_refl _, by omega, fun idx h => Or.inl h⟩
  | succ f ih =>
    intro n i b k hn hk
    simp only [print_digit_loop]
    by_cases hpos : n > 0
    · rw [if_pos hpos]
      obtain ⟨k', rfl⟩ : ∃ k', k = k' + 1 := by
        cases k with
        | zero => simp only [pow_zero] at hn; omega
        | succ k' => exact ⟨k', rfl⟩
      have hdiv : n / base < base ^ k' := by
        apply Nat.div_lt_of_lt_mul
        rw [pow_succ, Nat.mul_comm] at hn
        exact hn
      have hrec := ih (n / base) (i + 1) (b.store i (digits_map.getD (n % base) 0)) k' hdiv
        (by omega)
      refine ⟨by omega, by omega, hrec.2.2.1, ?_⟩
      intro idx hidx
      rcases hrec.2.2.2 idx hidx with h | h
      · simp only [PrintBuf.store, List.mem_append, List.mem_singleton] at h
        rcases h with h | h
        · exact Or.inl h
        · right; omega
      · exact Or.inr h
    · rw [if_neg hpos]
      dsimp only
      exact ⟨by omega, Nat.le_refl _, by omega, fun idx h => Or.inl h⟩

theorem print_reverse_loop_written (bound : Nat) :
    ∀ (fuel : Nat) (start end_ : Int) (b : PrintBuf), 0 ≤ start → end_ ≤ bound →
      ∀ idx ∈ (print_reverse_loop fuel start end_ b).written,
        idx ∈ b.written ∨ idx ≤ bound := by
  intro fuel
  induction fuel with
  | zero => intro start end_ b _ _ idx h; exact Or.inl h
  | succ f ih =>
    intro start end_ b hs he idx h
    simp only [print_reverse_loop] at h
    by_cases hlt : start < end_
    · rw [if_pos hlt] at h
      rcases ih (start + 1) (end_ - 1) _ (by omega) (by omega) idx h with h1 | h1
      · simp only [PrintBuf.store, List.mem_append, List.mem_singleton] at h1
        rcases h1 with (h1 | h1) | h1
        · exact Or.inl h1
        · right; omega
        · right; omega
      · exact Or.inr h1
    · rw [if_neg hlt] at h
      exact Or.inl h

/-- Outside the case "base 2 with prefix and `n >= 2^62`", every index that
`print_uint_base` writes for a 64-bit `n` is at most 64. -/
theorem print_uint_base_written_le (n : Nat) (base : Int) (prefixed : Bool)
    (hn : n < 2 ^ 64)
    (hcase : ¬ (base = 2 ∧ prefixed = true ∧ 2 ^ 62 ≤ n)) :
    ∀ idx ∈ (print_uint_base n base prefixed).buf.written, idx ≤ 64 := by
  intro idx hidx
  unfold print_uint_base at hidx
  by_cases hbad : base < 2 ∨ base > 16
  · rw [if_pos hbad] at hidx
    simp at hidx
  · rw [if_neg hbad] at hidx
    simp only at hidx
    have hb2 : 2 ≤ base.toNat := by omega
    -- bound on the index after the digits
    have hdig : ∀ k, n < base.toNat ^ k → k ≤ 64 →
        (if n = 0 then
            ((({ chars := fun _ => 0, written := [] } : PrintBuf).store 0 48), 1, 0)
          else print_digit_loop base.toNat 64 n 0 { chars := fun _ => 0, written := [] }).2.1
          ≤ max k 1 ∧
        ∀ j ∈ (if n = 0 then
            ((({ chars := fun _ => 0, written := [] } : PrintBuf).store 0 48), 1, 0)
          else print_digit_loop base.toNat 64 n 0
            { chars := fun _ => 0, written := [] }).1.written,
          j < (if n = 0 then
            ((({ chars := fun _ => 0, written := [] } : PrintBuf).store 0 48), 1, 0)
          else print_digit_loop base.toNat 64 n 0
            { chars := fun _ => 0, written := [] }).2.1 := by
      intro k hk hk64
      by_cases h0 : n = 0
      · simp only [h0, if_true]
        refine ⟨by omega, ?_⟩
        intro j hj
        simp [PrintBuf.store] at hj
        omega
      · simp only [h0, if_false]
        have hs := print_digit_loop_spec base.toNat 64 n 0
          { chars := fun _ => 0, written := [] } k hk hk64
        refine ⟨by omega, ?_⟩
        intro j hj
        rcases hs.2.2.2 j hj with h | h
        · simp at h
        · exact h
    generalize hd : (if n = 0 then
            ((({ chars := fun _ => 0, written := [] } : PrintBuf).store 0 48), 1, 0)
          else print_digit_loop base.toNat 64 n 0 { chars := fun _ => 0, written := [] }) = d
        at hidx hdig
    -- the general bound: at most 64 digits
    have h64 : n < base.toNat ^ 64 :=
      lt_of_lt_of_le hn (Nat.pow_le_pow_left hb2 64)
    have hg := hdig 64 h64 (Nat.le_refl _)
    have fin : ∀ (p : PrintBuf × Nat), p.2 ≤ 64 → (∀ j ∈ p.1.written, j < p.2) →
        idx ∈ (print_reverse_loop p.2 0 ((p.2 : Int) - 1) (p.1.store p.2 0)).written →
        idx ≤ 64 := by
      intro p hp hw hmem
      rcases print_reverse_loop_written 64 p.2 0 ((p.2 : Int) - 1) (p.1.store p.2 0)
        (by omega) (by omega) idx hmem with h | h
      · simp only [PrintBuf.store, List.mem_append, List.mem_singleton] at h
        rcases h with h | h
        · have := hw idx h
          omega
        · omega
      · exact h
    have stored : ∀ (c1 c2 : Nat), ∀ j ∈ ((d.1.store d.2.1 c1).store (d.2.1 + 1) c2).written,
        j < d.2.1 + 2 := by
      intro c1 c2 j hj
      simp only [PrintBuf.store, List.mem_append, List.mem_singleton] at hj
      rcases hj with (hj | hj) | hj
      · have := hg.2 j hj
        omega
      · omega
      · omega
    by_cases hp : prefixed = true
    · simp only [hp, if_true] at hidx
      by_cases h16 : base = 16
      · simp only [h16, if_true] at hidx
        have e16 : (16 : Int).toNat = 16 := rfl
        have hn16 : n < base.toNat ^ 16 := by
          rw [h16, e16]
          exact lt_of_lt_of_le hn (by norm_num)
        have hd16 := hdig 16 hn16 (by omega)
        exact fin ((d.1.store d.2.1 120).store (d.2.1 + 1) 48, d.2.1 + 2)
          (by dsimp only; omega) (stored 120 48) hidx
      · simp only [h16, if_false] at hidx
        by_cases h2 : base = 2
        · simp only [h2, if_true] at hidx
          have hlt62 : n < 2 ^ 62 := by
            by_contra hge
            exact hcase ⟨h2, hp, by omega⟩
          have e2 : (2 : Int).toNat = 2 := rfl
          have hn62 : n < base.toNat ^ 62 := by
            rw [h2, e2]
            exact hlt62
          have hd62 := hdig 62 hn62 (by omega)
          exact fin ((d.1.store d.2.1 98).store (d.2.1 + 1) 48, d.2.1 + 2)
            (by dsimp only; omega) (stored 98 48) hidx
        · simp only [h2, if_false] at hidx
          exact fin (d.1, d.2.1) (by dsimp only; omega) hg.2 hidx
    · simp only [hp, Bool.false_eq_true, if_false] at hidx
      exact fin (d.1, d.2.1) (by dsimp only; omega) hg.2 hidx

/-! ## Theorems: `print_uint_base` -/

set_option maxRecDepth 20000 in
/-- C39 (failing input). `print_uint_base(2^63, 2, color, true)`: the base is
accepted, the digit loop runs to its end and stores the 64 binary digits at the
indices 0..63, the prefix characters are stored at the indices 64 and 65, and the
terminating NUL at index 66: the indices 65 and 66 lie outside `char buffer[65]`.
For `n = 2^62`, with 63 binary digits, the NUL is stored at index 65. -/
theorem print_uint_base_binary_prefix_overflow :
    9223372036854775808 < 2 ^ 64 ∧
    (print_uint_base 9223372036854775808 2 true).invalid_base = false ∧
    (print_uint_base 9223372036854775808 2 true).rest = 0 ∧
    65 ∈ (print_uint_base 9223372036854775808 2 true).buf.written ∧
    66 ∈ (print_uint_base 9223372036854775808 2 true).buf.written ∧
    65 ∈ (print_uint_base 4611686018427387904 2 true).buf.written := by
  decide

/-! ## Theorems: `get_total_ram_mb` -/

theorem mmap_loop_stuck (fuel : Nat) :
    mmap_loop mem_mmap 24 fuel 0 0x8000 0 = none := by
  have hsize : read32 mem_mmap 0x8000 = 4294967292 := by decide
  have htype : read32 mem_mmap (0x8000 + OFF_mmap_type) = 2 := by decide
  induction fuel with
  | zero => rfl
  | succ n ih =>
    unfold mmap_loop
    simp only [htype, hsize]
    simpa using ih

/-- C40 (failing input). For the multiboot block at 0x7000 of `mem_mmap` (memory
map present, `mmap_length` 24, one entry at 0x8000 with `size` 0xFFFFFFFC) the
scan loop of `get_total_ram_mb` does not end, whatever the fuel: `size` is not 0,
so there is no `break`, and `current_offset += size + 4` adds 0 in 32-bit
unsigned arithmetic, so `current_offset` stays 0 and `entry` stays 0x8000. -/
theorem get_total_ram_mb_never_ends :
    read32 mem_mmap 0x8000 = 0xFFFFFFFC ∧
    (0 + (read32 mem_mmap 0x8000 + 4) % 4294967296) % 4294967296 = 0 ∧
    ∀ fuel, get_total_ram_mb mem_mmap 0x7000 fuel = none := by
  refine ⟨by decide, by decide, fun fuel => ?_⟩
  have h1 : read32 mem_mmap 0x7000 = 0x41 := by decide
  have h2 : read32 mem_mmap (0x7000 + OFF_mmap_addr) = 0x8000 := by decide
  have h3 : read32 mem_mmap (0x7000 + OFF_mmap_length) = 24 := by decide
  unfold get_total_ram_mb
  simp only [h1, h2, h3]
  simp [mmap_loop_stuck fuel]

/-! ## Theorems: the enable-confirmation loop of `acpi_init` -/

theorem acpi_enable_poll_length (port : Nat) (env : Nat → Nat) (fuel : Nat) :
    ∀ k, (acpi_enable_poll port env fuel k).1.length ≤ fuel := by
  induction fuel with
  | zero => intro k; simp [acpi_enable_poll]
  | succ n ih =>
    intro k
    simp only [acpi_enable_poll]
    split
    · split
      · simp
      · simp only [List.length_cons]
        have := ih (k + 1)
        omega
    · simp

/-- The polling loop stops at the first read whose bit 0 is set. -/
theorem acpi_enable_poll_first_set (port : Nat) (env : Nat → Nat) (m : Nat) :
    ∀ fuel k, m < fuel → k + m < MAX_TIMEOUT_ITERATIONS →
      (∀ j, j < m → (env (k + j) % 65536) &&& 1 = 0) →
      (env (k + m) % 65536) &&& 1 ≠ 0 →
      acpi_enable_poll port env fuel k = (List.replicate (m + 1) (Effect.inw port), true) := by
  induction m with
  | zero =>
    intro fuel k hf hk _ hset
    obtain ⟨n, rfl⟩ : ∃ n, fuel = n + 1 := ⟨fuel - 1, by omega⟩
    simp only [Nat.add_zero] at hset hk
    simp only [acpi_enable_poll, hk, if_true, hset, ne_eq, not_false_eq_true]
    rfl
  | succ m ih =>
    intro fuel k hf hk hclear hset
    obtain ⟨n, rfl⟩ : ∃ n, fuel = n + 1 := ⟨fuel - 1, by omega⟩
    have h0 : (env k % 65536) &&& 1 = 0 := by simpa using hclear 0 (by omega)
    have hk' : k < MAX_TIMEOUT_ITERATIONS := by omega
    have hrec := ih n (k + 1) (by omega) (by omega)
      (fun j hj => by
        have := hclear (j + 1) (by omega)
        rwa [show k + (j + 1) = k + 1 + j by omega] at this)
      (by rwa [show k + (m + 1) = k + 1 + m by omega] at hset)
    simp only [acpi_enable_poll, hk', if_true, h0, ne_eq, not_true_eq_false, if_false, hrec]
    rfl

/-- When no read has bit 0 set, the polling loop performs one read per iteration
up to its bound and ends with `sci_enabled` false. -/
theorem acpi_enable_poll_timeout (port : Nat) (env : Nat → Nat) (fuel : Nat) :
    ∀ k, k ≤ MAX_TIMEOUT_ITERATIONS → MAX_TIMEOUT_ITERATIONS ≤ k + fuel →
      (∀ j, k ≤ j → j < MAX_TIMEOUT_ITERATIONS → (env j % 65536) &&& 1 = 0) →
      acpi_enable_poll port env fuel k =
        (List.replicate (MAX_TIMEOUT_ITERATIONS - k) (Effect.inw port), false) := by
  induction fuel with
  | zero =>
    intro k hk hf _
    have : MAX_TIMEOUT_ITERATIONS - k = 0 := by omega
    simp [acpi_enable_poll, this]
  | succ n ih =>
    intro k hk hf hclear
    by_cases hlt : k < MAX_TIMEOUT_ITERATIONS
    · have h0 := hclear k (Nat.le_refl k) hlt
      have hrec := ih (k + 1) (by omega) (by omega) (fun j hj hjm => hclear j (by omega) hjm)
      have hsucc : MAX_TIMEOUT_ITERATIONS - k = (MAX_TIMEOUT_ITERATIONS - (k + 1)) + 1 := by omega
      simp only [acpi_enable_poll, hlt, if_true, h0, ne_eq, not_true_eq_false, if_false, hrec,
        hsucc, List.replicate_succ]
    · have : MAX_TIMEOUT_ITERATIONS - k = 0 := by omega
      simp [acpi_enable_poll, hlt, this]

/-- C32. When the power table `t` is found and its `SMI_CommandPort`, `AcpiEnable`
and `PM1aEventBlock` are non-zero, `acpi_init` is `outb` followed by the reads of
the enable-confirmation loop (and, after a timeout, one further read of the same
register for the diagnostic line). The loop performs at most 500000 reads of the
PM1a event-block status register; it stops at the first read with bit 0 set (read
number `m` from 0 gives `m + 1` reads and `sci_enabled`); when no read within the
bound has bit 0 set it performs exactly 500000 reads, `acpi_init` returns with
`g_fadt = t`, and a later `acpi_power_off` on a non-zero `PM1aControlBlock` halts
after `cli` and the write of the sleep command to the PM1a control port. -/
theorem acpi_init_poll_bounded (mem : PhysMem) (g_fadt facp : Nat) (env : Nat → Nat)
    (rsdp t : Nat)
    (hr : find_rsdp mem = some rsdp) (ht : find_sdt_from_rsdp mem rsdp facp = some t)
    (hf : read32 mem (t + OFF_SMI_CommandPort) ≠ 0 ∧ read8 mem (t + OFF_AcpiEnable) ≠ 0 ∧
      read32 mem (t + OFF_PM1aEventBlock) ≠ 0) :
    (acpi_init mem g_fadt facp env).g_fadt = t ∧
    (acpi_init mem g_fadt facp env).sci_enabled =
      (acpi_enable_poll (read32 mem (t + OFF_PM1aEventBlock) % 65536) env
        MAX_TIMEOUT_ITERATIONS 0).2 ∧
    (acpi_init mem g_fadt facp env).trace =
      Effect.outb (read32 mem (t + OFF_SMI_CommandPort) % 65536) (read8 mem (t + OFF_AcpiEnable)) ::
        ((acpi_enable_poll (read32 mem (t + OFF_PM1aEventBlock) % 65536) env
            MAX_TIMEOUT_ITERATIONS 0).1 ++
          if (acpi_enable_poll (read32 mem (t + OFF_PM1aEventBlock) % 65536) env
            MAX_TIMEOUT_ITERATIONS 0).2 then []
          else [Effect.inw (read32 mem (t + OFF_PM1aEventBlock) % 65536)]) ∧
    (acpi_enable_poll (read32 mem (t + OFF_PM1aEventBlock) % 65536) env
      MAX_TIMEOUT_ITERATIONS 0).1.length ≤ 500000 ∧
    (∀ m, m < 500000 → (∀ j, j < m → (env j % 65536) &&& 1 = 0) →
      (env m % 65536) &&& 1 ≠ 0 →
      acpi_enable_poll (read32 mem (t + OFF_PM1aEventBlock) % 65536) env
          MAX_TIMEOUT_ITERATIONS 0 =
        (List.replicate (m + 1) (Effect.inw (read32 mem (t + OFF_PM1aEventBlock) % 65536)),
          true)) ∧
    ((∀ j, j < 500000 → (env j % 65536) &&& 1 = 0) →
      acpi_enable_poll (read32 mem (t + OFF_PM1aEventBlock) % 65536) env
          MAX_TIMEOUT_ITERATIONS 0 =
        (List.replicate 500000 (Effect.inw (read32 mem (t + OFF_PM1aEventBlock) % 65536)),
          false) ∧
      (acpi_init mem g_fadt facp env).sci_enabled = false ∧
      (read32 mem (t + OFF_PM1aControlBlock) ≠ 0 → ∀ status,
        (acpi_power_off mem (acpi_init mem g_fadt facp env).g_fadt status).outcome =
          Outcome.halted ∧
        ∃ pre post,
          (acpi_power_off mem (acpi_init mem g_fadt facp env).g_fadt status).trace =
            pre ++ [Effect.cli,
              Effect.outw (read32 mem (t + OFF_PM1aControlBlock) % 65536) 0x3400] ++ post)) := by
  have hrn := find_rsdp_ne_zero mem rsdp hr
  have htn := find_sdt_from_rsdp_ne_zero mem rsdp facp t ht
  have hinit : acpi_init mem g_fadt facp env =
      { g_fadt := t,
        trace := Effect.outb (read32 mem (t + OFF_SMI_CommandPort) % 65536)
            (read8 mem (t + OFF_AcpiEnable)) ::
          ((acpi_enable_poll (read32 mem (t + OFF_PM1aEventBlock) % 65536) env
              MAX_TIMEOUT_ITERATIONS 0).1 ++
            if (acpi_enable_poll (read32 mem (t + OFF_PM1aEventBlock) % 65536) env
              MAX_TIMEOUT_ITERATIONS 0).2 then []
            else [Effect.inw (read32 mem (t + OFF_PM1aEventBlock) % 65536)]),
        sci_enabled := (acpi_enable_poll (read32 mem (t + OFF_PM1aEventBlock) % 65536) env
          MAX_TIMEOUT_ITERATIONS 0).2 } := by
    unfold acpi_init
    simp only [hr, Option.getD_some, ht]
    rw [if_neg hrn, if_pos htn, if_pos hf]
  have hto : (∀ j, j < 500000 → (env j % 65536) &&& 1 = 0) →
      acpi_enable_poll (read32 mem (t + OFF_PM1aEventBlock) % 65536) env
          MAX_TIMEOUT_ITERATIONS 0 =
        (List.replicate 500000 (Effect.inw (read32 mem (t + OFF_PM1aEventBlock) % 65536)),
          false) := by
    intro hclear
    exact acpi_enable_poll_timeout _ env MAX_TIMEOUT_ITERATIONS 0 (Nat.zero_le _)
      (by omega) (fun j _ hj => hclear j hj)
  rw [hinit]
  refine ⟨rfl, rfl, rfl, acpi_enable_poll_length _ env MAX_TIMEOUT_ITERATIONS 0, ?_, ?_⟩
  · intro m hm hclear hset
    exact acpi_enable_poll_first_set _ env m MAX_TIMEOUT_ITERATIONS 0 hm
      (by rw [Nat.zero_add]; exact hm)
      (fun j hj => by rw [Nat.zero_add]; exact hclear j hj)
      (by rw [Nat.zero_add]; exact hset)
  · intro hclear
    refine ⟨hto hclear, by simp only [hto hclear], ?_⟩
    intro hcnt status
    simp only
    unfold acpi_power_off
    rw [if_neg htn, if_neg hcnt]
    simp only [pm1a_cnt_val_eq]
    exact ⟨trivial, _, _, rfl⟩

set_option maxRecDepth 20000 in
/-- C32 (witness) at `mem_power`, with a status register whose bit 0 is set at
the first read: the loop stops after that one read. -/
theorem acpi_init_poll_bounded_witness :
    find_rsdp mem_power = some 0x1000 ∧
    find_sdt_from_rsdp mem_power 0x1000 0x500 = some 0x4000 ∧
    (acpi_init mem_power 0 0x500 (fun _ => 1)).g_fadt = 0x4000 ∧
    (acpi_enable_poll (read32 mem_power (0x4000 + OFF_PM1aEventBlock) % 65536) (fun _ => 1)
      MAX_TIMEOUT_ITERATIONS 0).1.length ≤ 500000 :=
  ⟨by decide, by decide,
    (acpi_init_poll_bounded mem_power 0 0x500 (fun _ => 1) 0x1000 0x4000
      (by decide) (by decide) (by decide)).1,
    (acpi_init_poll_bounded mem_power 0 0x500 (fun _ => 1) 0x1000 0x4000
      (by decide) (by decide) (by decide)).2.2.2.1⟩

/-! ## Theorems: copy assignment -/

/-- C36 (failing input). In `assign_full_arena` the vector `a` holds 1, 2, 3 with
capacity 10 and the arena is full. In `a = b` the copy constructor gets no
storage for the temporary copy of `b`, which is therefore empty; `swap` gives
`a` the empty state and the temporary the buffer of `a`, and the destructor of
the temporary destroys the three elements: afterwards `a` has size 0, capacity 0
and no buffer, and its former elements are gone. (With `this == &other` the
assignment does nothing.) -/
theorem copy_assign_alloc_failure_empties :
    assign_full_arena.2.1 = { arr := some 0, current_size := 3, cap := 10 } ∧
    (List.range 3).map (vector_index 1 assign_full_arena.1 assign_full_arena.2.1) =
      [some 1, some 2, some 3] ∧
    (vector_copy 1 assign_full_arena.1 assign_full_arena.2.2).2.arr = none ∧
    (vector_copy_assign 1 assign_full_arena.1 assign_full_arena.2.1 assign_full_arena.2.2
      false).2 = { arr := none, current_size := 0, cap := 0 } ∧
    (List.range 3).map (vector_index 1
      (vector_copy_assign 1 assign_full_arena.1 assign_full_arena.2.1 assign_full_arena.2.2
        false).1 assign_full_arena.2.1) = [none, none, none] ∧
    vector_copy_assign 1 assign_full_arena.1 assign_full_arena.2.1 assign_full_arena.2.1 true =
      (assign_full_arena.1, assign_full_arena.2.1) := by
  refine ⟨by decide, by decide, by decide, by decide, by decide, rfl⟩

/-! ## Theorems: capacity along a sequence of `push_back` -/

/-- A `push_back` on a vector that is not full only constructs the new element. -/
theorem push_back_no_growth {α : Type} (szT : Nat) (h : Heap α) (v : vector) (xs : List α)
    (x : α) (inv : PushInv szT h v xs) (hne : v.current_size ≠ v.cap) :
    push_back szT h v x = push_back_construct szT h v x := by
  have hlt : v.current_size < v.cap := lt_of_le_of_ne inv.size_le hne
  rcases inv.buf with ⟨_, h0⟩ | ⟨p, hp, _, _⟩
  · omega
  · simp [push_back, hne, push_back_tail, hp]

/-- Capacity after a `push_back` on a full vector whose growth allocation
succeeds. -/
theorem push_back_cap_of_full {α : Type} (szT : Nat) (h : Heap α) (v : vector) (x : α)
    (hfull : v.current_size = v.cap) (hcap : v.cap * 2 < SIZE_T_MOD)
    (hok : growth_alloc_ok szT h v = true) :
    (push_back szT h v x).2.cap = if v.cap = 0 then 10 else 2 * v.cap := by
  have hnc : push_back_new_cap v = if v.cap = 0 then 10 else 2 * v.cap := by
    unfold push_back_new_cap
    split
    · rfl
    · rw [Nat.mod_eq_of_lt hcap, Nat.mul_comm]
  have hn1 : v.cap < push_back_new_cap v := by rw [hnc]; split <;> omega
  have hsome : ((allocate_raw szT h.pool_index (push_back_new_cap v)).ptr).isSome = true := by
    simpa [growth_alloc_ok, hfull] using hok
  obtain ⟨a, ha⟩ := Option.isSome_iff_exists.mp hsome
  have hpb : (push_back szT h v x).2.cap = push_back_new_cap v := by
    simp [push_back, hfull, reserve, hn1, ha, push_back_tail, push_back_construct]
  rw [hpb, hnc]

/-- One `push_back` keeps the capacity in the claimed shape. -/
theorem claimed_capacity_step {α : Type} (szT : Nat) (h : Heap α) (v : vector) (xs : List α)
    (x : α) (hs : 0 < szT) (inv : PushInv szT h v xs)
    (hc : claimed_capacity xs.length v.cap) (hok : growth_alloc_ok szT h v = true) :
    claimed_capacity (xs ++ [x]).length (push_back szT h v x).2.cap := by
  obtain ⟨_, hcapb⟩ := pushInv_cap_bound szT h v xs hs inv
  have hM : MEMORY_POOL_SIZE = 1048576 := rfl
  have hS : SIZE_T_MOD = 4294967296 := rfl
  have hlen : (xs ++ [x]).length = xs.length + 1 := by simp
  have hsz := inv.size_eq
  rw [hlen]
  by_cases hfull : v.current_size = v.cap
  · rw [push_back_cap_of_full szT h v x hfull (by omega) hok]
    rcases hc with ⟨hn0, hc0⟩ | ⟨hnpos, k, hk, hle, hleast⟩
    · rw [if_pos hc0]
      exact Or.inr ⟨by omega, 0, by norm_num, by omega, fun j hj => by omega⟩
    · have hcpos : v.cap ≠ 0 := by omega
      rw [if_neg hcpos]
      refine Or.inr ⟨by omega, k + 1, ?_, ?_, ?_⟩
      · rw [hk, pow_succ]; ring
      · rw [pow_succ]; omega
      · intro j hj
        have hmono : 2 ^ j ≤ 2 ^ k := Nat.pow_le_pow_right (by norm_num) (by omega)
        omega
  · have hlt : v.current_size < v.cap := lt_of_le_of_ne inv.size_le hfull
    rw [push_back_no_growth szT h v xs x inv hfull]
    simp only [push_back_construct]
    rcases hc with ⟨hn0, hc0⟩ | ⟨hnpos, k, hk, hle, hleast⟩
    · omega
    · refine Or.inr ⟨by omega, k, hk, by omega, fun j hj => ?_⟩
      have := hleast j hj
      omega

theorem claimed_capacity_list {α : Type} (szT : Nat) (hs : 0 < szT)
    (hT : szT * 10 + MEMORY_POOL_SIZE < SIZE_T_MOD) (ys : List α) :
    ∀ (h : Heap α) (v : vector) (xs : List α), PushInv szT h v xs →
      claimed_capacity xs.length v.cap → growth_allocs_ok szT h v ys = true →
      claimed_capacity (xs ++ ys).length (push_back_list szT h v ys).2.cap := by
  induction ys with
  | nil => intro h v xs _ hc _; simpa [push_back_list] using hc
  | cons y ys ih =>
    intro h v xs inv hc hok
    simp only [growth_allocs_ok, Bool.and_eq_true] at hok
    have hstep := push_back_step szT h v xs y hs hT inv hok.1
    have hcs := claimed_capacity_step szT h v xs y hs inv hc hok.1
    have := ih _ _ _ hstep hcs hok.2
    simpa [push_back_list] using this

/-- C38. Starting from a default-constructed vector (heap cursor within the pool,
element size `szT >= 1` with `10 * szT` not overflowing `size_t`), after the
`push_back` calls for `xs`, every growth allocation succeeding, the capacity is 0
when `xs` is empty and otherwise `10 * 2^k` for the least `k` with
`10 * 2^k >= length xs`. In the state reached, a further `push_back` with
`size != capacity` is the construction of the element alone: it keeps the
capacity and the arena cursor; one with `size == capacity` whose growth
allocation succeeds changes the capacity to 10 (from 0) or to its double. -/
theorem push_back_capacity_sequence {α : Type} (szT : Nat) (h : Heap α) (xs : List α)
    (hs : 0 < szT) (hT : szT * 10 + MEMORY_POOL_SIZE < SIZE_T_MOD)
    (hp : h.pool_index ≤ MEMORY_POOL_SIZE)
    (hok : growth_allocs_ok szT h vector_default xs = true) :
    (xs.length = 0 → (push_back_list szT h vector_default xs).2.cap = 0) ∧
    (0 < xs.length → ∃ k, (push_back_list szT h vector_default xs).2.cap = 10 * 2 ^ k ∧
      xs.length ≤ 10 * 2 ^ k ∧ ∀ j, j < k → 10 * 2 ^ j < xs.length) ∧
    (∀ x, (push_back_list szT h vector_default xs).2.current_size ≠
        (push_back_list szT h vector_default xs).2.cap →
      push_back szT (push_back_list szT h vector_default xs).1
          (push_back_list szT h vector_default xs).2 x =
        push_back_construct szT (push_back_list szT h vector_default xs).1
          (push_back_list szT h vector_default xs).2 x ∧
      (push_back szT (push_back_list szT h vector_default xs).1
          (push_back_list szT h vector_default xs).2 x).2.cap =
        (push_back_list szT h vector_default xs).2.cap ∧
      (push_back szT (push_back_list szT h vector_default xs).1
          (push_back_list szT h vector_default xs).2 x).1.pool_index =
        (push_back_list szT h vector_default xs).1.pool_index) ∧
    (∀ x, (push_back_list szT h vector_default xs).2.current_size =
        (push_back_list szT h vector_default xs).2.cap →
      growth_alloc_ok szT (push_back_list szT h vector_default xs).1
        (push_back_list szT h vector_default xs).2 = true →
      (push_back szT (push_back_list szT h vector_default xs).1
          (push_back_list szT h vector_default xs).2 x).2.cap =
        if (push_back_list szT h vector_default xs).2.cap = 0 then 10
        else 2 * (push_back_list szT h vector_default xs).2.cap) := by
  have inv := push_back_list_inv szT hs hT xs h vector_default [] (pushInv_default szT h hp) hok
  have hc := claimed_capacity_list szT hs hT xs h vector_default []
    (pushInv_default szT h hp) (Or.inl ⟨rfl, rfl⟩) hok
  simp only [List.nil_append] at inv hc
  obtain ⟨_, hcapb⟩ := pushInv_cap_bound szT _ _ xs hs inv
  have hM : MEMORY_POOL_SIZE = 1048576 := rfl
  have hS : SIZE_T_MOD = 4294967296 := rfl
  refine ⟨?_, ?_, ?_, ?_⟩
  · intro h0
    rcases hc with ⟨_, hc0⟩ | ⟨hpos, _⟩
    · exact hc0
    · omega
  · intro hpos
    rcases hc with ⟨hn0, _⟩ | ⟨_, hk⟩
    · omega
    · exact hk
  · intro x hne
    have hpb := push_back_no_growth szT _ _ xs x inv hne
    rw [hpb]
    exact ⟨rfl, rfl, rfl⟩
  · intro x hfull hg
    exact push_back_cap_of_full szT _ _ x hfull (by omega) hg

/-- C38 (witness): eleven values appended to a default-constructed `vector<char>`
in the empty heap; the capacity is `10 * 2^1`, the least such value that is at
least 11. -/
theorem push_back_capacity_sequence_witness :
    growth_allocs_ok 1 (empty_heap Nat) vector_default [1, 2, 3, 4, 5, 6, 7, 8, 9, 10, 11] = true ∧
    ∃ k, (push_back_list 1 (empty_heap Nat) vector_default
        [1, 2, 3, 4, 5, 6, 7, 8, 9, 10, 11]).2.cap = 10 * 2 ^ k ∧
      [1, 2, 3, 4, 5, 6, 7, 8, 9, 10, 11].length ≤ 10 * 2 ^ k ∧
      ∀ j, j < k → 10 * 2 ^ j < [1, 2, 3, 4, 5, 6, 7, 8, 9, 10, 11].length :=
  ⟨by decide,
    (push_back_capacity_sequence 1 (empty_heap Nat) [1, 2, 3, 4, 5, 6, 7, 8, 9, 10, 11]
      (by decide) (by decide) (by decide) (by decide)).2.1 (by decide)⟩

end Cinemint
